import Mathlib

/-!
# wut: user-level cooperative threads (src/wut.c)

Shallow embedding of the scheduler of `src/wut.c`.

* Every `struct wut_entry` obtained from `malloc` lives at an address (a natural number); entries
  are never freed before the process exits, and `State.brk` is the address the next `malloc`
  returns. The memory is kept member by member: `State.status a` is the member `status` of the
  entry at address `a`, and likewise for `id`, `exited`, `blocking`, `blocked_by`, `context`
  and for the two members `tqe_next`, `tqe_prev` of `pointers` (the `TAILQ_ENTRY`).
* `wut_list` is the array of entry pointers (`none` is `NULL`), `wut_list_size` is its length.
* The `TAILQ_*` operations follow the macro bodies of glibc `<sys/queue.h>` pointer by pointer,
  so that removing an entry that is not linked, which the C code can do, has the effect it has in C.
* A `ucontext_t` is represented by the place where its thread continues (`Resume`); `NULL` is `none`.
* Dereferencing `NULL` or indexing `wut_list` outside its bounds is `Outcome.fault`.
* `swapcontext`, `getcontext`, `malloc` and `reallocarray` are taken to succeed.
-/

namespace Wut

/-- Value of a `struct wut_entry **`: the address of `wut_head.tqh_first`, or the address of the
`tqe_next` member of the entry at address `a`. -/
inductive Link where
  | head_first : Link
  | next_of (a : Nat) : Link
  deriving DecidableEq

/-- Content of a saved `ucontext_t`: where its thread continues when it is switched to. -/
inductive Resume where
  /-- the context made by `makecontext(ctx, NULL, 0)` in `wut_init` -/
  | main_entry : Resume
  /-- the context made by `makecontext(ctx, thread_wrapper, 1, run)` in `wut_create` -/
  | start : Resume
  /-- saved by the `swapcontext` of `wut_yield` (line 484) -/
  | in_yield : Resume
  /-- saved by the `swapcontext` of `wut_join` (line 431); the local `thread_to_join` is kept -/
  | in_join (thread_to_join : Nat) : Resume
  /-- saved by the `swapcontext` of `wut_exit` (line 541) -/
  | in_exit : Resume
  deriving DecidableEq

/-- The members of `struct wut_entry` other than `pointers`. -/
structure wut_entry where
  id : Int
  exited : Int
  status : Int
  blocking : Int
  blocked_by : Int
  context : Option Resume
  deriving DecidableEq

/-- The global state of the library: the memory of the entries, member by member, the queue head
`wut_head`, the counter `wut_thread_counter` and the array `wut_list`. -/
structure State where
  id : Nat → Int
  exited : Nat → Int
  status : Nat → Int
  blocking : Nat → Int
  blocked_by : Nat → Int
  context : Nat → Option Resume
  tqe_next : Nat → Option Nat
  tqe_prev : Nat → Link
  brk : Nat
  tqh_first : Option Nat
  tqh_last : Link
  wut_thread_counter : Int
  wut_list : List (Option Nat)

/-- The entry at address `a`. -/
def State.entry (s : State) (a : Nat) : wut_entry :=
  { id := s.id a, exited := s.exited a, status := s.status a, blocking := s.blocking a,
    blocked_by := s.blocked_by a, context := s.context a }

/-- What a library call does to the thread that made it. -/
inductive Outcome where
  /-- the call returns `v` to its caller (`0` for a `void` function) -/
  | ret (v : Int) (s : State) : Outcome
  /-- the call has saved the caller with `swapcontext`; control continues in the context of the
  entry `nxt` -/
  | switch (nxt : Nat) (s : State) : Outcome
  /-- a new thread starts running `thread_wrapper(run)` -/
  | enter (s : State) : Outcome
  /-- the process terminates with `exit(0)` -/
  | halt (s : State) : Outcome
  /-- undefined behaviour: `NULL` is dereferenced or `wut_list` is indexed outside its bounds -/
  | fault : Outcome
  /-- the `TAILQ_FOREACH` loop does not terminate (cyclic links) -/
  | hang : Outcome

/-- The value a call returned to the running thread, if it returned. -/
def Outcome.value : Outcome → Option Int
  | Outcome.ret v _ => some v
  | _ => none

/-- The state in which the running thread continues after a return or a thread start. -/
def Outcome.state : Outcome → Option State
  | Outcome.ret _ s => some s
  | Outcome.enter s => some s
  | _ => none

/-- The entry whose context a call switched to, if it switched. -/
def Outcome.target : Outcome → Option Nat
  | Outcome.switch a _ => some a
  | _ => none

/-- The memory `f` with the cell at address `a` overwritten by `v`. -/
def put {α : Type} (f : Nat → α) (a : Nat) (v : α) : Nat → α :=
  fun b => if b = a then v else f b

/-- The variable `wut_list_size`. -/
def wut_list_size (s : State) : Int := s.wut_list.length

/-- The assignment `*p = v` through a `struct wut_entry **`. -/
def store (s : State) (p : Link) (v : Option Nat) : State :=
  match p with
  | Link.head_first => { s with tqh_first := v }
  | Link.next_of a => { s with tqe_next := put s.tqe_next a v }

/-- The value `*p` of a `struct wut_entry **`. -/
def load (s : State) (p : Link) : Option Nat :=
  match p with
  | Link.head_first => s.tqh_first
  | Link.next_of a => s.tqe_next a

/-- The macro `TAILQ_FIRST(&wut_head)`. -/
def TAILQ_FIRST (s : State) : Option Nat := s.tqh_first

/-- The macro `TAILQ_EMPTY(&wut_head)`. -/
def TAILQ_EMPTY (s : State) : Bool := s.tqh_first.isNone

/-- The macro `TAILQ_NEXT(elm, pointers)`. -/
def TAILQ_NEXT (s : State) (elm : Nat) : Option Nat := s.tqe_next elm

/-- The macro `TAILQ_INSERT_TAIL(&wut_head, elm, pointers)`:
```
(elm)->field.tqe_next = NULL;
(elm)->field.tqe_prev = (head)->tqh_last;
*(head)->tqh_last = (elm);
(head)->tqh_last = &(elm)->field.tqe_next;
```
-/
def TAILQ_INSERT_TAIL (s : State) (elm : Nat) : State :=
  let s1 := { s with tqe_next := put s.tqe_next elm none }
  let s2 := { s1 with tqe_prev := put s1.tqe_prev elm s1.tqh_last }
  let s3 := store s2 s2.tqh_last (some elm)
  { s3 with tqh_last := Link.next_of elm }

/-- The macro `TAILQ_REMOVE(&wut_head, elm, pointers)`:
```
if (((elm)->field.tqe_next) != NULL)
    (elm)->field.tqe_next->field.tqe_prev = (elm)->field.tqe_prev;
else
    (head)->tqh_last = (elm)->field.tqe_prev;
*(elm)->field.tqe_prev = (elm)->field.tqe_next;
```
-/
def TAILQ_REMOVE (s : State) (elm : Nat) : State :=
  let s1 :=
    match s.tqe_next elm with
    | some n => { s with tqe_prev := put s.tqe_prev n (s.tqe_prev elm) }
    | none => { s with tqh_last := s.tqe_prev elm }
  store s1 (s1.tqe_prev elm) (s1.tqe_next elm)

/-- The entries visited by `TAILQ_FOREACH` from the entry pointer given, at most `fuel` of them. -/
def walk (s : State) : Nat → Option Nat → List Nat
  | _, none => []
  | 0, some _ => []
  | fuel + 1, some a => a :: walk s fuel (s.tqe_next a)

/-- The Ready Queue: the entries reached from `tqh_first` along `tqe_next`; a walk longer than the
number of allocated entries is cyclic and is cut there. -/
def ready_queue (s : State) : List Nat := walk s s.brk s.tqh_first

/-- The array access `wut_list[i]` in the array `l`; the outer `none` is an index outside the
array. -/
def wut_list_at (l : List (Option Nat)) (i : Int) : Option (Option Nat) :=
  if 0 ≤ i ∧ i < (l.length : Int) then l[i.toNat]? else none

/-- The function `wut_init` (lines 69-126), run on the zero-initialised globals; the main thread
is the entry at address 0. Memory that was never allocated reads as zero here; no function reads
a member of a new entry before assigning it, except `exited` in `wut_create` (see there). -/
def wut_init : State :=
  { id := fun _ => 0
    exited := fun _ => 0
    status := fun _ => 0
    blocking := put (fun _ => 0) 0 (-1)
    blocked_by := put (fun _ => 0) 0 (-1)
    context := put (fun _ => none) 0 (some Resume.main_entry)
    tqe_next := fun _ => none
    tqe_prev := fun _ => Link.head_first
    brk := 1
    tqh_first := some 0
    tqh_last := Link.next_of 0
    wut_thread_counter := 1
    wut_list := [some 0, none, none, none, none] }

/-- The function `wut_id` (lines 128-139). -/
def wut_id (s : State) : Int :=
  match TAILQ_FIRST s with
  | none => -1
  | some a => s.id a

/-- The call `swapcontext(cur->context, nxt->context)`, which saves the continuation `k` of the
caller in the context of `cur` and continues in the context of `nxt`. -/
def swapcontext (s : State) (cur nxt : Nat) (k : Resume) : Outcome :=
  match s.context cur with
  | none => Outcome.fault
  | some _ =>
    let s1 := { s with context := put s.context cur (some k) }
    match s1.context nxt with
    | none => Outcome.fault
    | some _ => Outcome.switch nxt s1

/-- Result of the search loop of `wut_join` (lines 418-423). -/
inductive Search where
  /-- the loop stopped at `break` with `next_thread` at this address -/
  | found (a : Nat) : Search
  /-- the loop ran to the end, `next_thread` is `NULL` -/
  | absent : Search
  /-- the links are cyclic and the loop never ends -/
  | endless : Search
  deriving DecidableEq

/-- The loop `TAILQ_FOREACH(next_thread, &wut_head, pointers) if (next_thread->id == tid) break;`
started at the entry pointer given; a walk longer than the number of allocated entries is cyclic. -/
def foreach_find (s : State) (tid : Int) : Nat → Option Nat → Search
  | _, none => Search.absent
  | 0, some _ => Search.endless
  | fuel + 1, some a =>
    if s.id a = tid then Search.found a else foreach_find s tid fuel (s.tqe_next a)

/-- The loop of lines 151-153 over the array: the first index `i` with `wut_list[i] == NULL` or
`wut_list[i]->context == NULL`, counted from `i`; `none` when the loop runs to the end. -/
def find_free (s : State) : List (Option Nat) → Nat → Option Nat
  | [], _ => none
  | none :: _, i => some i
  | some a :: l, i => if s.context a = none then some i else find_free s l (i + 1)

/-- The assignments of `wut_create` to the new entry at address `a` (lines 163-185 and 226-248):
context, `id`, `status = 1`, `blocking = -1`, `blocked_by = -1`. -/
def init_thread (s : State) (a : Nat) (id : Int) : State :=
  { s with context := put s.context a (some Resume.start)
           id := put s.id a id
           status := put s.status a 1
           blocking := put s.blocking a (-1)
           blocked_by := put s.blocked_by a (-1) }

/-- The call `malloc(sizeof(struct wut_entry))`: the entry at address `brk` is handed out; its
member `exited` holds the indeterminate value `garbage`, its other members are assigned before
they are read. -/
def State.malloc (s : State) (garbage : Int) : State :=
  { s with brk := s.brk + 1, exited := put s.exited s.brk garbage }

/-- The function `wut_create` (lines 146-261). `garbage` is the indeterminate content that `malloc`
leaves in the `exited` member of the new entry; the first path overwrites it with 0 (line 188), the
growth path (lines 217-260) does not assign it. -/
def wut_create (s : State) (garbage : Int) : Outcome :=
  let a := s.brk
  match find_free s s.wut_list 0 with
  | some i =>
    let s1 := init_thread (s.malloc garbage) a i
    let s2 := { s1 with exited := put s1.exited a 0 }
    let s3 := { s2 with wut_list := s2.wut_list.set i (some a) }
    let s4 := TAILQ_INSERT_TAIL s3 a
    Outcome.ret i { s4 with wut_thread_counter := s4.wut_thread_counter + 1 }
  | none =>
    let s1 := { s with wut_list := s.wut_list ++ List.replicate s.wut_list.length none }
    let id := s1.wut_thread_counter
    let s2 := init_thread (s1.malloc garbage) a id
    if 0 ≤ id ∧ id < wut_list_size s2 then
      let s3 := { s2 with wut_list := s2.wut_list.set id.toNat (some a) }
      let s4 := TAILQ_INSERT_TAIL s3 a
      Outcome.ret id { s4 with wut_thread_counter := s4.wut_thread_counter + 1 }
    else Outcome.fault

/-- Lines 278-284 of `wut_cancel` and the identical lines 367-373 of `wut_join`, for the entry
`t`: when `t->blocked_by != -1`, clear `blocking` of `wut_list[t->blocked_by]` (if not `NULL`) and
set `t->blocked_by = -1`. -/
def unlink_blocked_by (s : State) (t : Nat) : Option State :=
  if s.blocked_by t ≠ -1 then
    match wut_list_at s.wut_list (s.blocked_by t) with
    | none => none
    | some none => some { s with blocked_by := put s.blocked_by t (-1) }
    | some (some b) =>
      let s1 := { s with blocking := put s.blocking b (-1) }
      some { s1 with blocked_by := put s1.blocked_by t (-1) }
  else some s

/-- Lines 376-382 of `wut_join`, for the entry `t`: when `t->blocking != -1`, clear `blocked_by` of
`wut_list[t->blocking]` (if not `NULL`) and set `t->blocking = -1`. -/
def unlink_blocking (s : State) (t : Nat) : Option State :=
  if s.blocking t ≠ -1 then
    match wut_list_at s.wut_list (s.blocking t) with
    | none => none
    | some none => some { s with blocking := put s.blocking t (-1) }
    | some (some b) =>
      let s1 := { s with blocked_by := put s.blocked_by b (-1) }
      some { s1 with blocking := put s1.blocking t (-1) }
  else some s

/-- Lines 288-295 of `wut_cancel`: the thread `wut_list[blocking]`, if not `NULL`, gets status 1,
is inserted at the tail of the queue and has `blocked_by` cleared. -/
def cancel_wake (s : State) (blocking : Int) : Option State :=
  match wut_list_at s.wut_list blocking with
  | none => none
  | some none => some s
  | some (some w) =>
    let s1 := { s with status := put s.status w 1 }
    let s2 := TAILQ_INSERT_TAIL s1 w
    some { s2 with blocked_by := put s2.blocked_by w (-1) }

/-- The function `wut_cancel` (lines 264-324). -/
def wut_cancel (s : State) (id : Int) : Outcome :=
  if id < 0 ∨ id ≥ wut_list_size s ∨ id = wut_id s then Outcome.ret (-1) s else
  match wut_list_at s.wut_list id with
  | none => Outcome.fault
  | some none => Outcome.ret (-1) s
  | some (some t) =>
    if s.context t = none then Outcome.ret (-1) s else
    match unlink_blocked_by s t with
    | none => Outcome.fault
    | some s1 =>
      if s1.blocking t ≠ -1 then
        match cancel_wake s1 (s1.blocking t) with
        | none => Outcome.fault
        | some s2 =>
          let s3 := { s2 with blocking := put s2.blocking t (-1) }
          let s4 := { s3 with status := put s3.status t 128 }
          Outcome.ret 0 (TAILQ_REMOVE s4 t)
      else
        let s2 := { s1 with status := put s1.status t 128 }
        let s3 := TAILQ_REMOVE s2 t
        let s4 := { s3 with context := put s3.context t none }
        Outcome.ret 0 { s4 with wut_thread_counter := s4.wut_thread_counter - 1 }

/-- Lines 400-408 of `wut_join`: `current_thread->status = 2`, the two link assignments
`thread_to_join->blocking = current_thread->id` and `current_thread->blocked_by = thread_to_join->id`,
and `TAILQ_REMOVE` of the current thread. -/
def join_link (s : State) (cur t : Nat) : State :=
  let s1 := { s with status := put s.status cur 2 }
  let s2 := { s1 with blocking := put s1.blocking t (s1.id cur) }
  let s3 := { s2 with blocked_by := put s2.blocked_by cur (s2.id t) }
  TAILQ_REMOVE s3 cur

/-- Lines 410-414 of `wut_join`: the first thread of the queue, if any, gets status 0. -/
def mark_first_running (s : State) : State :=
  match TAILQ_FIRST s with
  | none => s
  | some n => { s with status := put s.status n 0 }

/-- Line 431 of `wut_join`: `swapcontext(current_thread->context, TAILQ_FIRST(&wut_head)->context)`. -/
def join_switch (s : State) (cur t : Nat) : Outcome :=
  match TAILQ_FIRST s with
  | none => Outcome.fault
  | some n => swapcontext s cur n (Resume.in_join t)

/-- Lines 400-433 of `wut_join`: block the current thread `cur` on the thread `t`, make sure `t`
is in the queue and switch to the first thread of the queue. -/
def join_block (s : State) (cur t : Nat) : Outcome :=
  let s5 := mark_first_running (join_link s cur t)
  match foreach_find s5 (s5.id t) s5.brk (TAILQ_FIRST s5) with
  | Search.endless => Outcome.hang
  | Search.found _ => join_switch s5 cur t
  | Search.absent => join_switch (TAILQ_INSERT_TAIL s5 t) cur t

/-- The function `wut_join` (lines 326-433) up to its `swapcontext`; the part after it
(lines 435-447) is `join_return`. `wut_list[id]` is read once, as no statement in between
assigns to the array. -/
def wut_join (s : State) (id : Int) : Outcome :=
  if id < 0 ∨ id ≥ wut_list_size s ∨ id = wut_id s then Outcome.ret (-1) s else
  match wut_list_at s.wut_list id with
  | none => Outcome.fault
  | some none => Outcome.ret (-1) s
  | some (some t) =>
    if s.status t = 128 then Outcome.ret 128 s else
    if s.blocked_by t ≠ -1 then Outcome.ret (-1) s else
    if s.context t = none then Outcome.ret (-1) s else
    if s.exited t = 1 then
      Outcome.ret (s.status t)
        { s with context := put s.context t none
                 wut_thread_counter := s.wut_thread_counter - 1 }
    else
      match (unlink_blocked_by s t).bind (fun s1 => unlink_blocking s1 t) with
      | none => Outcome.fault
      | some s2 =>
        match TAILQ_FIRST s2 with
        | none => Outcome.ret (-1) s2
        | some cur => join_block s2 cur t

/-- Lines 435-447 of `wut_join`, run when the thread `cur` that blocked in `wut_join` on the entry
`t` is switched to again: `current_thread->status = 0`, the status of `t` is read, the context of
`t` is freed and set to `NULL`, the counter is decremented and the status is returned. -/
def join_return (s : State) (cur t : Nat) : Outcome :=
  let s1 := { s with status := put s.status cur 0 }
  match s1.context t with
  | none => Outcome.fault
  | some _ =>
    Outcome.ret (s1.status t)
      { s1 with context := put s1.context t none
                wut_thread_counter := s1.wut_thread_counter - 1 }

/-- The function `wut_yield` (lines 450-486) up to its `swapcontext`; the part after it
(lines 488-490) is in `resume`. -/
def wut_yield (s : State) : Outcome :=
  match TAILQ_FIRST s with
  | none => Outcome.ret (-1) s
  | some cur =>
    let next :=
      match TAILQ_NEXT s cur with
      | some n => n
      | none => cur
    if next = cur then Outcome.ret (-1) s else
    let s1 := { s with status := put s.status cur 1 }
    let s2 := TAILQ_REMOVE s1 cur
    let s3 := TAILQ_INSERT_TAIL s2 cur
    let s4 := { s3 with status := put s3.status next 0 }
    swapcontext s4 cur next Resume.in_yield

/-- Lines 507-525 of `wut_exit` for the current thread `cur`: when `cur->blocking != -1`, the
thread `wut_list[cur->blocking]` is looked up, `cur->blocking` is cleared and the thread found, if
not `NULL`, gets status 1, has `blocked_by` cleared and is inserted at the tail of the queue. -/
def exit_wake (s : State) (cur : Nat) : Option State :=
  if s.blocking cur ≠ -1 then
    match wut_list_at s.wut_list (s.blocking cur) with
    | none => none
    | some none => some { s with blocking := put s.blocking cur (-1) }
    | some (some b) =>
      let s1 := { s with blocking := put s.blocking cur (-1) }
      let s2 := { s1 with status := put s1.status b 1 }
      let s3 := { s2 with blocked_by := put s2.blocked_by b (-1) }
      some (TAILQ_INSERT_TAIL s3 b)
  else some s

/-- Lines 545-555 of `wut_exit`: the process exits when the queue is empty, otherwise `wut_exit`
returns to its caller. -/
def exit_tail (s : State) : Outcome :=
  if TAILQ_EMPTY s then Outcome.halt s else Outcome.ret 0 s

/-- Lines 527-542 and 545-555 of `wut_exit` for the current thread `cur`: `cur->exited = 1`, the
successor of `cur` is read, `cur` is removed from the queue, and the successor, if any, gets
status 0 and is switched to; without a successor the end of the function is reached. -/
def exit_leave (s : State) (cur : Nat) : Outcome :=
  let s3 := { s with exited := put s.exited cur 1 }
  let nx := TAILQ_NEXT s3 cur
  let s4 := TAILQ_REMOVE s3 cur
  match nx with
  | some next =>
    let s5 := { s4 with status := put s4.status next 0 }
    swapcontext s5 cur next Resume.in_exit
  | none => exit_tail s4

/-- The function `wut_exit` (lines 493-556); `status &= 0xFF` on a two-complement `int` is the
remainder modulo 256 in `0..255`. -/
def wut_exit (s : State) (status : Int) : Outcome :=
  let status := status % 256
  match TAILQ_FIRST s with
  | none => Outcome.fault
  | some cur =>
    if s.status cur = 0 then
      let s1 := { s with status := put s.status cur status }
      match exit_wake s1 cur with
      | none => Outcome.fault
      | some s2 => exit_leave s2 cur
    else exit_tail s

/-- What happens when `swapcontext` continues in the context of the entry `a`: a created thread
starts its function, a thread saved in `wut_yield` sets its status to 0 and returns 0
(lines 488-490), a thread saved in `wut_join` runs `join_return`, and a thread saved in `wut_exit`
runs the end of `wut_exit`. -/
def resume (s : State) (a : Nat) : Outcome :=
  match s.context a with
  | none => Outcome.fault
  | some Resume.main_entry => Outcome.fault
  | some Resume.start => Outcome.enter s
  | some Resume.in_yield => Outcome.ret 0 { s with status := put s.status a 0 }
  | some (Resume.in_join t) => join_return s a t
  | some Resume.in_exit => exit_tail s

/-- A call of the library made by the running thread. -/
inductive Op where
  | create (garbage : Int) : Op
  | yield : Op
  | join (id : Int) : Op
  | cancel (id : Int) : Op
  | exit (status : Int) : Op
  deriving DecidableEq

/-- The library function called, up to its return or its `swapcontext`. -/
def call (s : State) : Op → Outcome
  | Op.create g => wut_create s g
  | Op.yield => wut_yield s
  | Op.join id => wut_join s id
  | Op.cancel id => wut_cancel s id
  | Op.exit c => wut_exit s c

/-- One call together with the continuation of the thread that is switched to, if any: the
outcome is a return value delivered to the thread that runs next, or the start of a new thread. -/
def step (s : State) (op : Op) : Outcome :=
  match call s op with
  | Outcome.switch a s1 => resume s1 a
  | o => o

/-- The calls `ops` made one after the other, each by the thread that is running at that point;
the run stops at the first outcome that is not a return or a thread start. The outcome of the last
call made is returned. -/
def run : Outcome → List Op → Outcome
  | o, [] => o
  | Outcome.ret _ s, op :: ops => run (step s op) ops
  | Outcome.enter s, op :: ops => run (step s op) ops
  | o, _ :: _ => o

/-- The state a call leaves behind, whatever way it ends; `none` for undefined behaviour and for
a loop that never ends. -/
def Outcome.after : Outcome → Option State
  | Outcome.ret _ s => some s
  | Outcome.switch _ s => some s
  | Outcome.enter s => some s
  | Outcome.halt s => some s
  | Outcome.fault => none
  | Outcome.hang => none

/-- The entries of `L` are linked in this order from the link `p` on: each link points to the
next entry, each entry points back to the link before it, the last link holds `NULL` and is
`tqh_last`. -/
def linked (s : State) : Link → List Nat → Prop
  | p, [] => load s p = none ∧ s.tqh_last = p
  | p, a :: L => load s p = some a ∧ s.tqe_prev a = p ∧ linked s (Link.next_of a) L

/-- Whether `linked` holds can be computed. -/
instance linked.decide (s : State) : ∀ (p : Link) (L : List Nat), Decidable (linked s p L)
  | p, [] => by unfold linked; exact inferInstance
  | p, a :: L => by
    unfold linked
    have := linked.decide s (Link.next_of a) L
    exact inferInstance

/-- The queue `wut_head` is a well-formed tail queue holding exactly the entries of `L`, in this
order and without repetition: the Ready Queue is `L`. -/
def queue_is (s : State) (L : List Nat) : Prop :=
  linked s Link.head_first L ∧ L.Nodup

/-- Whether `queue_is` holds can be computed. -/
instance queue_is.decide (s : State) (L : List Nat) : Decidable (queue_is s L) := by
  unfold queue_is; exact inferInstance

/-- The state in which the calls `ops` made from `wut_init` on leave the running thread; the
initial state when the run does not end in a return or a thread start. -/
def state_after (ops : List Op) : State :=
  ((run (Outcome.ret 0 wut_init) ops).state).getD wut_init

/-- Whether a call ends in undefined behaviour. -/
def Outcome.faults : Outcome → Bool
  | Outcome.fault => true
  | _ => false

/-- The states reachable from `wut_init`: each call is made by the thread that is running, and
the run goes on in the state in which the call returns or in which a new thread starts. -/
inductive Reachable : State → Prop
  | init : Reachable wut_init
  | step {s s' : State} (op : Op) : Reachable s → (step s op).state = some s' → Reachable s'

/-- The number of allocated entries whose context has not been released: the live threads. -/
def live_count (s : State) : Nat :=
  ((Finset.range s.brk).filter (fun a => s.context a ≠ none)).card

/-- Consistency of the registry: memory that was never allocated holds no context; every slot
of `wut_list` points to an allocated entry whose `id` is the index of the slot; every entry with
a context is found in `wut_list` under its `id`; `wut_thread_counter` is the number of entries
with a context; and the array is not empty. -/
def registry_ok (s : State) : Prop :=
  (∀ a, s.brk ≤ a → s.context a = none) ∧
  (∀ (i a : Nat), s.wut_list[i]? = some (some a) → a < s.brk ∧ s.id a = (i : Int)) ∧
  (∀ a, s.context a ≠ none → wut_list_at s.wut_list (s.id a) = some (some a)) ∧
  s.wut_thread_counter = (live_count s : Int) ∧
  0 < s.wut_list.length

/-- The thread registered under the id `i` waits on the id `j`: its `blocked_by` is `j`. -/
def waits_on (s : State) (i j : Int) : Prop :=
  ∃ a, wut_list_at s.wut_list i = some (some a) ∧ s.blocked_by a = j ∧ j ≠ -1

/-- Every slot of `wut_list` points to an entry whose context has not been released: the loop of
lines 151-153 finds no free slot. -/
def all_slots_live (s : State) : Prop :=
  ∀ x ∈ s.wut_list, x.bind s.context ≠ none

/-- Whether `all_slots_live` holds can be computed. -/
instance all_slots_live.decide (s : State) : Decidable (all_slots_live s) := by
  unfold all_slots_live; exact inferInstance

/-- A transition that leaves the registry alone: `id`, `brk`, `wut_list` and the counter are
kept, no context is released or handed out, and `blocked_by` members are kept or cleared. -/
def mild (s s' : State) : Prop :=
  s'.id = s.id ∧ s'.brk = s.brk ∧ s'.wut_list = s.wut_list ∧
  s'.wut_thread_counter = s.wut_thread_counter ∧
  (∀ a, s'.context a = none ↔ s.context a = none) ∧
  (∀ a, s'.blocked_by a = s.blocked_by a ∨ s'.blocked_by a = -1)

/-- A transition that releases the context of the entry `t` and decrements the counter. -/
def reclaims (s s' : State) (t : Nat) : Prop :=
  s'.id = s.id ∧ s'.brk = s.brk ∧ s'.wut_list = s.wut_list ∧
  s'.wut_thread_counter = s.wut_thread_counter - 1 ∧ s.context t ≠ none ∧
  s'.context = put s.context t none ∧ s'.blocked_by = s.blocked_by

/-- A transition that makes the entry `cur` wait on the registered entry `t`, which waits on
nobody, and leaves the registry alone otherwise. -/
def links (s s' : State) (cur t : Nat) : Prop :=
  s'.id = s.id ∧ s'.brk = s.brk ∧ s'.wut_list = s.wut_list ∧
  s'.wut_thread_counter = s.wut_thread_counter ∧ s'.context = s.context ∧
  t ≠ cur ∧ (∃ id, wut_list_at s.wut_list id = some (some t)) ∧ s.blocked_by t = -1 ∧
  s'.blocked_by = put s.blocked_by cur (s.id t)

/-- The invariant of the reachable states used below. -/
def registry_inv (s : State) : Prop :=
  registry_ok s ∧ WellFounded (Function.swap (waits_on s))

/-! ## Memory and tail queue lemmas -/

@[simp] theorem put_same {α : Type} (f : Nat → α) (a : Nat) (v : α) : put f a v a = v := by
  simp [put]

@[simp] theorem put_ne {α : Type} (f : Nat → α) {a b : Nat} (v : α) (h : b ≠ a) :
    put f a v b = f b := by
  simp [put, h]

theorem put_apply {α : Type} (f : Nat → α) (a b : Nat) (v : α) :
    put f a v b = if b = a then v else f b := rfl

@[simp] theorem store_tqe_prev (s : State) (p : Link) (v : Option Nat) :
    (store s p v).tqe_prev = s.tqe_prev := by
  cases p <;> rfl

@[simp] theorem store_tqh_last (s : State) (p : Link) (v : Option Nat) :
    (store s p v).tqh_last = s.tqh_last := by
  cases p <;> rfl

@[simp] theorem load_store_same (s : State) (p : Link) (v : Option Nat) :
    load (store s p v) p = v := by
  cases p <;> simp [load, store]

theorem load_store_ne (s : State) (p q : Link) (v : Option Nat) (h : q ≠ p) :
    load (store s p v) q = load s q := by
  cases p <;> cases q <;> simp_all [load, store]

theorem store_tqe_next_ne (s : State) (p : Link) (v : Option Nat) (a : Nat)
    (h : p ≠ Link.next_of a) : (store s p v).tqe_next a = s.tqe_next a := by
  have := load_store_ne s p (Link.next_of a) v (Ne.symm h)
  simpa [load] using this

@[simp] theorem store_id (s : State) (p : Link) (v : Option Nat) :
    (store s p v).id = s.id := by
  cases p <;> rfl

@[simp] theorem store_exited (s : State) (p : Link) (v : Option Nat) :
    (store s p v).exited = s.exited := by
  cases p <;> rfl

@[simp] theorem store_status (s : State) (p : Link) (v : Option Nat) :
    (store s p v).status = s.status := by
  cases p <;> rfl

@[simp] theorem store_blocking (s : State) (p : Link) (v : Option Nat) :
    (store s p v).blocking = s.blocking := by
  cases p <;> rfl

@[simp] theorem store_blocked_by (s : State) (p : Link) (v : Option Nat) :
    (store s p v).blocked_by = s.blocked_by := by
  cases p <;> rfl

@[simp] theorem store_context (s : State) (p : Link) (v : Option Nat) :
    (store s p v).context = s.context := by
  cases p <;> rfl

@[simp] theorem store_brk (s : State) (p : Link) (v : Option Nat) :
    (store s p v).brk = s.brk := by
  cases p <;> rfl

@[simp] theorem store_wut_thread_counter (s : State) (p : Link) (v : Option Nat) :
    (store s p v).wut_thread_counter = s.wut_thread_counter := by
  cases p <;> rfl

@[simp] theorem store_wut_list (s : State) (p : Link) (v : Option Nat) :
    (store s p v).wut_list = s.wut_list := by
  cases p <;> rfl

@[simp] theorem TAILQ_REMOVE_id (s : State) (a : Nat) :
    (TAILQ_REMOVE s a).id = s.id := by
  unfold TAILQ_REMOVE; cases s.tqe_next a <;> simp

@[simp] theorem TAILQ_REMOVE_exited (s : State) (a : Nat) :
    (TAILQ_REMOVE s a).exited = s.exited := by
  unfold TAILQ_REMOVE; cases s.tqe_next a <;> simp

@[simp] theorem TAILQ_REMOVE_status (s : State) (a : Nat) :
    (TAILQ_REMOVE s a).status = s.status := by
  unfold TAILQ_REMOVE; cases s.tqe_next a <;> simp

@[simp] theorem TAILQ_REMOVE_blocking (s : State) (a : Nat) :
    (TAILQ_REMOVE s a).blocking = s.blocking := by
  unfold TAILQ_REMOVE; cases s.tqe_next a <;> simp

@[simp] theorem TAILQ_REMOVE_blocked_by (s : State) (a : Nat) :
    (TAILQ_REMOVE s a).blocked_by = s.blocked_by := by
  unfold TAILQ_REMOVE; cases s.tqe_next a <;> simp

@[simp] theorem TAILQ_REMOVE_context (s : State) (a : Nat) :
    (TAILQ_REMOVE s a).context = s.context := by
  unfold TAILQ_REMOVE; cases s.tqe_next a <;> simp

@[simp] theorem TAILQ_REMOVE_brk (s : State) (a : Nat) :
    (TAILQ_REMOVE s a).brk = s.brk := by
  unfold TAILQ_REMOVE; cases s.tqe_next a <;> simp

@[simp] theorem TAILQ_REMOVE_wut_thread_counter (s : State) (a : Nat) :
    (TAILQ_REMOVE s a).wut_thread_counter = s.wut_thread_counter := by
  unfold TAILQ_REMOVE; cases s.tqe_next a <;> simp

@[simp] theorem TAILQ_REMOVE_wut_list (s : State) (a : Nat) :
    (TAILQ_REMOVE s a).wut_list = s.wut_list := by
  unfold TAILQ_REMOVE; cases s.tqe_next a <;> simp

@[simp] theorem TAILQ_INSERT_TAIL_id (s : State) (a : Nat) :
    (TAILQ_INSERT_TAIL s a).id = s.id := by
  simp [TAILQ_INSERT_TAIL]

@[simp] theorem TAILQ_INSERT_TAIL_exited (s : State) (a : Nat) :
    (TAILQ_INSERT_TAIL s a).exited = s.exited := by
  simp [TAILQ_INSERT_TAIL]

@[simp] theorem TAILQ_INSERT_TAIL_status (s : State) (a : Nat) :
    (TAILQ_INSERT_TAIL s a).status = s.status := by
  simp [TAILQ_INSERT_TAIL]

@[simp] theorem TAILQ_INSERT_TAIL_blocking (s : State) (a : Nat) :
    (TAILQ_INSERT_TAIL s a).blocking = s.blocking := by
  simp [TAILQ_INSERT_TAIL]

@[simp] theorem TAILQ_INSERT_TAIL_blocked_by (s : State) (a : Nat) :
    (TAILQ_INSERT_TAIL s a).blocked_by = s.blocked_by := by
  simp [TAILQ_INSERT_TAIL]

@[simp] theorem TAILQ_INSERT_TAIL_context (s : State) (a : Nat) :
    (TAILQ_INSERT_TAIL s a).context = s.context := by
  simp [TAILQ_INSERT_TAIL]

@[simp] theorem TAILQ_INSERT_TAIL_brk (s : State) (a : Nat) :
    (TAILQ_INSERT_TAIL s a).brk = s.brk := by
  simp [TAILQ_INSERT_TAIL]

@[simp] theorem TAILQ_INSERT_TAIL_wut_thread_counter (s : State) (a : Nat) :
    (TAILQ_INSERT_TAIL s a).wut_thread_counter = s.wut_thread_counter := by
  simp [TAILQ_INSERT_TAIL]

@[simp] theorem TAILQ_INSERT_TAIL_wut_list (s : State) (a : Nat) :
    (TAILQ_INSERT_TAIL s a).wut_list = s.wut_list := by
  simp [TAILQ_INSERT_TAIL]

/-- A state that agrees with `s` on the link `p`, on the pointers of the entries of `L` and on
`tqh_last` has the same chain from `p`. -/
theorem linked_congr (s s' : State) : ∀ (L : List Nat) (p : Link),
    load s' p = load s p → (∀ a ∈ L, s'.tqe_next a = s.tqe_next a ∧ s'.tqe_prev a = s.tqe_prev a) →
    s'.tqh_last = s.tqh_last → linked s p L → linked s' p L
  | [], p, hp, _, hl, h => by
    simp only [linked] at h ⊢
    exact ⟨hp.trans h.1, hl.trans h.2⟩
  | a :: L, p, hp, hL, hl, h => by
    simp only [linked] at h ⊢
    refine ⟨hp.trans h.1, (hL a (List.mem_cons_self a L)).2.trans h.2.1, ?_⟩
    apply linked_congr s s' L (Link.next_of a) _ _ hl h.2.2
    · simpa [load] using (hL a (List.mem_cons_self a L)).1
    · intro b hb
      exact hL b (List.mem_cons_of_mem a hb)

/-- The successor pointer of a linked entry points into the chain. -/
theorem linked_next_mem (s : State) : ∀ (L : List Nat) (p : Link), linked s p L →
    ∀ b ∈ L, ∀ n, s.tqe_next b = some n → n ∈ L
  | [], _, _, b, hb, _, _ => by simp at hb
  | a :: L, p, h, b, hb, n, hn => by
    simp only [linked] at h
    rcases List.mem_cons.1 hb with rfl | hb
    · cases L with
      | nil => simp [linked, load, hn] at h
      | cons x L =>
        have := h.2.2
        simp only [linked, load] at this
        rw [hn] at this
        simp [← Option.some.inj this.1]
    · exact List.mem_cons_of_mem a (linked_next_mem s L _ h.2.2 b hb n hn)

/-- The back pointer of a linked entry is the link `p` or the `tqe_next` member of a chain
entry. -/
theorem linked_prev (s : State) : ∀ (L : List Nat) (p : Link), linked s p L →
    ∀ b ∈ L, s.tqe_prev b = p ∨ ∃ y ∈ L, s.tqe_prev b = Link.next_of y
  | [], _, _, b, hb => by simp at hb
  | a :: L, p, h, b, hb => by
    simp only [linked] at h
    rcases List.mem_cons.1 hb with rfl | hb
    · exact Or.inl h.2.1
    · rcases linked_prev s L _ h.2.2 b hb with h1 | ⟨y, hy, h1⟩
      · exact Or.inr ⟨a, List.mem_cons_self a L, h1⟩
      · exact Or.inr ⟨y, List.mem_cons_of_mem a hy, h1⟩

/-- The last link of a chain is `tqh_last`. -/
theorem linked_last (s : State) : ∀ (L : List Nat) (p : Link), linked s p L →
    s.tqh_last = p ∨ ∃ y ∈ L, s.tqh_last = Link.next_of y
  | [], _, h => Or.inl h.2
  | a :: L, p, h => by
    simp only [linked] at h
    rcases linked_last s L _ h.2.2 with h1 | ⟨y, hy, h1⟩
    · exact Or.inr ⟨a, List.mem_cons_self a L, h1⟩
    · exact Or.inr ⟨y, List.mem_cons_of_mem a hy, h1⟩

theorem TAILQ_REMOVE_tqe_prev_self (s : State) (b : Nat) :
    (TAILQ_REMOVE s b).tqe_prev b = s.tqe_prev b := by
  unfold TAILQ_REMOVE
  cases h : s.tqe_next b <;> simp [put_apply]

theorem TAILQ_REMOVE_tqe_prev (s : State) (b x : Nat) (h : s.tqe_next b ≠ some x) :
    (TAILQ_REMOVE s b).tqe_prev x = s.tqe_prev x := by
  unfold TAILQ_REMOVE
  cases h1 : s.tqe_next b with
  | none => simp
  | some n =>
    have : x ≠ n := fun e => h (by rw [h1, e])
    simp [this]

theorem TAILQ_REMOVE_load (s : State) (b : Nat) (q : Link) (h : q ≠ s.tqe_prev b) :
    load (TAILQ_REMOVE s b) q = load s q := by
  have hp := TAILQ_REMOVE_tqe_prev_self s b
  unfold TAILQ_REMOVE at hp ⊢
  cases h1 : s.tqe_next b with
  | none =>
    simp only [h1] at hp ⊢
    rw [load_store_ne _ _ _ _ h]
    cases q <;> rfl
  | some n =>
    simp only [h1] at hp ⊢
    simp only [store_tqe_prev] at hp
    rw [load_store_ne _ _ _ _ (by rw [hp]; exact h)]
    cases q <;> rfl

theorem TAILQ_REMOVE_tqh_last (s : State) (b : Nat) (h : s.tqe_next b ≠ none) :
    (TAILQ_REMOVE s b).tqh_last = s.tqh_last := by
  unfold TAILQ_REMOVE
  cases h1 : s.tqe_next b with
  | none => exact absurd h1 h
  | some n => simp

/-- Removing an entry of a chain with `TAILQ_REMOVE` leaves the chain of the other entries. -/
theorem linked_remove (s : State) (b : Nat) : ∀ (L : List Nat) (p : Link), linked s p L →
    L.Nodup → b ∈ L → (∀ x ∈ L, p ≠ Link.next_of x) → linked (TAILQ_REMOVE s b) p (L.erase b)
  | [], _, _, _, hb, _ => by simp at hb
  | a :: L, p, h, hnd, hb, hp => by
    have h0 := h
    simp only [linked] at h
    obtain ⟨hload, hprev, hrest⟩ := h
    rw [List.nodup_cons] at hnd
    by_cases hab : b = a
    · subst hab
      rw [List.erase_cons_head]
      cases L with
      | nil =>
        simp only [linked, load] at hrest
        simp [linked, TAILQ_REMOVE, hrest.1, hprev]
      | cons n L =>
        simp only [linked, load] at hrest
        obtain ⟨hn, hpn, hrest⟩ := hrest
        have hbn : b ≠ n := fun e => hnd.1 (by simp [e])
        have hnL : n ∉ L := (List.nodup_cons.1 hnd.2).1
        simp only [linked]
        refine ⟨?_, ?_, ?_⟩
        · simp [TAILQ_REMOVE, hn, hprev, hbn]
        · simp [TAILQ_REMOVE, hn, hprev, hbn]
        · apply linked_congr s _ L _ _ _ _ hrest
          · have : Link.next_of n ≠ s.tqe_prev b := by
              rw [hprev]; exact Ne.symm (hp n (by simp))
            exact TAILQ_REMOVE_load s b _ this
          · intro y hy
            constructor
            · have : Link.next_of y ≠ s.tqe_prev b := by
                rw [hprev]; exact Ne.symm (hp y (by simp [hy]))
              simpa [load] using TAILQ_REMOVE_load s b _ this
            · apply TAILQ_REMOVE_tqe_prev
              rw [hn]
              intro e
              exact hnL (by rw [Option.some.inj e]; exact hy)
          · apply TAILQ_REMOVE_tqh_last
            simp [hn]
    · have hbL : b ∈ L := by
        rcases List.mem_cons.1 hb with h1 | h1
        · exact absurd h1 hab
        · exact h1
      have hne : ¬ (a == b) = true := by
        simp only [beq_iff_eq]
        exact fun e => hab e.symm
      rw [List.erase_cons_tail hne]
      have ih := linked_remove s b L (Link.next_of a) hrest hnd.2 hbL
        (fun x hx e => hnd.1 (by rw [Link.next_of.inj e]; exact hx))
      simp only [linked]
      refine ⟨?_, ?_, ih⟩
      · rw [TAILQ_REMOVE_load, hload]
        rcases linked_prev s L _ hrest b hbL with h1 | ⟨y, hy, h1⟩
        · rw [h1]; exact hp a (by simp)
        · rw [h1]; exact hp y (by simp [hy])
      · rw [TAILQ_REMOVE_tqe_prev, hprev]
        intro e
        exact hnd.1 (linked_next_mem s L _ hrest b hbL a e)

theorem TAILQ_INSERT_TAIL_load (s : State) (a : Nat) (q : Link) (h1 : q ≠ Link.next_of a)
    (h2 : q ≠ s.tqh_last) : load (TAILQ_INSERT_TAIL s a) q = load s q := by
  unfold TAILQ_INSERT_TAIL
  simp only []
  cases q with
  | head_first =>
    simp only [load]
    cases h : s.tqh_last with
    | head_first => exact absurd h.symm h2
    | next_of x => simp [store]
  | next_of y =>
    have hy : y ≠ a := fun e => h1 (by rw [e])
    simp only [load]
    cases h : s.tqh_last with
    | head_first => simp [store, hy]
    | next_of x =>
      have hx : y ≠ x := fun e => h2 (by rw [e, h])
      simp [store, hy, hx]

theorem TAILQ_INSERT_TAIL_tqe_prev (s : State) (a x : Nat) (h : x ≠ a) :
    (TAILQ_INSERT_TAIL s a).tqe_prev x = s.tqe_prev x := by
  simp [TAILQ_INSERT_TAIL, h]

/-- Inserting an entry that is not in the chain with `TAILQ_INSERT_TAIL` appends it. -/
theorem linked_insert_tail (s : State) (a : Nat) : ∀ (L : List Nat) (p : Link), linked s p L →
    L.Nodup → a ∉ L → p ≠ Link.next_of a → (∀ x ∈ L, p ≠ Link.next_of x) →
    linked (TAILQ_INSERT_TAIL s a) p (L ++ [a])
  | [], p, h, _, _, hpa, _ => by
    simp only [linked] at h
    simp only [List.nil_append, linked]
    refine ⟨?_, ?_, ?_, ?_⟩
    · simp [TAILQ_INSERT_TAIL, h.2]
      cases p <;> simp [load, store]
    · simp [TAILQ_INSERT_TAIL, h.2]
    · simp [TAILQ_INSERT_TAIL, h.2]
      cases p with
      | head_first => simp [load, store]
      | next_of x =>
        have : a ≠ x := fun e => hpa (by rw [e])
        simp [load, store, this]
    · simp [TAILQ_INSERT_TAIL]
  | x :: L, p, h, hnd, ha, hpa, hp => by
    rw [List.nodup_cons] at hnd
    simp only [linked] at h
    obtain ⟨hload, hprev, hrest⟩ := h
    have hax : a ≠ x := fun e => ha (by simp [e])
    have haL : a ∉ L := fun e => ha (by simp [e])
    simp only [List.cons_append, linked]
    refine ⟨?_, ?_, ?_⟩
    · rw [TAILQ_INSERT_TAIL_load s a p hpa, hload]
      rcases linked_last s L _ hrest with h1 | ⟨y, hy, h1⟩
      · rw [h1]; exact hp x (by simp)
      · rw [h1]; exact hp y (by simp [hy])
    · rw [TAILQ_INSERT_TAIL_tqe_prev s a x (Ne.symm hax), hprev]
    · apply linked_insert_tail s a L _ hrest hnd.2 haL
      · intro e; exact hax (Link.next_of.inj e).symm
      · intro y hy e
        exact hnd.1 (by rw [Link.next_of.inj e]; exact hy)


theorem queue_is_congr {s : State} {L : List Nat} (h : queue_is s L) (s' : State)
    (h1 : s'.tqe_next = s.tqe_next) (h2 : s'.tqe_prev = s.tqe_prev)
    (h3 : s'.tqh_first = s.tqh_first) (h4 : s'.tqh_last = s.tqh_last) : queue_is s' L := by
  refine ⟨linked_congr s s' L _ ?_ ?_ h4 h.1, h.2⟩
  · simp [load, h3]
  · intro a _
    simp [h1, h2]

theorem queue_is_remove (s : State) (L : List Nat) (b : Nat) (h : queue_is s L) (hb : b ∈ L) :
    queue_is (TAILQ_REMOVE s b) (L.erase b) :=
  ⟨linked_remove s b L _ h.1 h.2 hb (fun _ _ e => by cases e), h.2.erase b⟩

theorem queue_is_remove_head (s : State) (L : List Nat) (b : Nat) (h : queue_is s (b :: L)) :
    queue_is (TAILQ_REMOVE s b) L := by
  have := queue_is_remove s (b :: L) b h (by simp)
  simpa using this

theorem queue_is_insert_tail (s : State) (L : List Nat) (a : Nat) (h : queue_is s L)
    (ha : a ∉ L) : queue_is (TAILQ_INSERT_TAIL s a) (L ++ [a]) := by
  refine ⟨linked_insert_tail s a L _ h.1 h.2 ha (fun e => by cases e) (fun _ _ e => by cases e), ?_⟩
  rw [List.nodup_append]
  refine ⟨h.2, by simp, ?_⟩
  intro x hx hx'
  simp at hx'
  exact ha (hx' ▸ hx)

theorem queue_is_first (s : State) (a : Nat) (L : List Nat) (h : queue_is s (a :: L)) :
    s.tqh_first = some a := by
  have := h.1
  simp only [linked, load] at this
  exact this.1

theorem queue_is_nil_first (s : State) (h : queue_is s []) : s.tqh_first = none := by
  have := h.1
  simp only [linked, load] at this
  exact this.1

theorem queue_is_next (s : State) (a : Nat) (L : List Nat) (h : queue_is s (a :: L)) :
    s.tqe_next a = L.head? := by
  have := h.1
  cases L with
  | nil => simp only [linked, load] at this; simpa using this.2.2.1
  | cons b L => simp only [linked, load] at this; simpa using this.2.2.1

theorem swapcontext_switch (s : State) (cur nxt : Nat) (k : Resume) (h1 : s.context cur ≠ none)
    (h2 : nxt ≠ cur) (h3 : s.context nxt ≠ none) :
    swapcontext s cur nxt k = Outcome.switch nxt { s with context := put s.context cur (some k) } := by
  unfold swapcontext
  cases h : s.context cur with
  | none => exact absurd h h1
  | some k1 =>
    simp only [put_ne _ _ h2]
    cases h' : s.context nxt with
    | none => exact absurd h' h3
    | some k2 => rfl

/-- The end of `wut_exit` when the leaving thread has a successor `n` in the queue. -/
theorem exit_leave_switch (s : State) (cur n : Nat) (L : List Nat)
    (hq : queue_is s (cur :: n :: L)) (hc : s.context cur ≠ none) (hn : s.context n ≠ none) :
    ∃ s', exit_leave s cur = Outcome.switch n s' ∧ queue_is s' (n :: L) ∧
      s'.status = put s.status n 0 ∧ s'.exited = put s.exited cur 1 ∧
      s'.context = put s.context cur (some Resume.in_exit) ∧ s'.id = s.id ∧
      s'.blocking = s.blocking ∧ s'.blocked_by = s.blocked_by ∧
      s'.wut_thread_counter = s.wut_thread_counter ∧ s'.wut_list = s.wut_list ∧
      s'.brk = s.brk := by
  have hnext : s.tqe_next cur = some n := by simpa using queue_is_next s cur _ hq
  have hncur : n ≠ cur := fun e => (List.nodup_cons.1 hq.2).1 (by simp [e])
  have hq1 : queue_is { s with exited := put s.exited cur 1 } (cur :: n :: L) :=
    queue_is_congr hq _ rfl rfl rfl rfl
  have hq2 := queue_is_remove_head _ _ _ hq1
  unfold exit_leave
  simp only [TAILQ_NEXT, hnext]
  rw [swapcontext_switch _ _ _ _ (by simpa using hc) hncur (by simpa using hn)]
  exact ⟨_, rfl, queue_is_congr hq2 _ rfl rfl rfl rfl, by simp⟩

/-- The end of `wut_exit` when the leaving thread is alone in the queue: the process exits. -/
theorem exit_leave_halt (s : State) (cur : Nat) (hq : queue_is s [cur]) :
    ∃ s', exit_leave s cur = Outcome.halt s' ∧ queue_is s' [] ∧
      s'.status = s.status ∧ s'.exited = put s.exited cur 1 := by
  have hnext : s.tqe_next cur = none := by simpa using queue_is_next s cur _ hq
  have hq1 : queue_is { s with exited := put s.exited cur 1 } [cur] :=
    queue_is_congr hq _ rfl rfl rfl rfl
  have hq2 := queue_is_remove_head _ _ _ hq1
  have hf := queue_is_nil_first _ hq2
  unfold exit_leave
  simp only [TAILQ_NEXT, hnext, exit_tail, TAILQ_EMPTY, hf]
  exact ⟨_, rfl, hq2, by simp⟩


/-- The function `wut_exit` called by a running thread nobody waits for. -/
theorem wut_exit_no_waiter (s : State) (code : Int) (cur : Nat) (hf : s.tqh_first = some cur)
    (hst : s.status cur = 0) (hb : s.blocking cur = -1) :
    wut_exit s code = exit_leave { s with status := put s.status cur (code % 256) } cur := by
  simp [wut_exit, TAILQ_FIRST, hf, hst, exit_wake, hb]

/-- The function `wut_exit` called by a running thread that the thread `w` waits for. -/
theorem wut_exit_waiter (s : State) (code : Int) (cur w : Nat) (hf : s.tqh_first = some cur)
    (hst : s.status cur = 0) (hb : s.blocking cur ≠ -1)
    (hw : wut_list_at s.wut_list (s.blocking cur) = some (some w)) :
    wut_exit s code = exit_leave (TAILQ_INSERT_TAIL
      { s with status := put (put s.status cur (code % 256)) w 1,
               blocking := put s.blocking cur (-1),
               blocked_by := put s.blocked_by w (-1) } w) cur := by
  simp [wut_exit, TAILQ_FIRST, hf, hst, exit_wake, hb, hw]

/-- Lines 435-447 of `wut_join` return the status of the target and release its context. -/
theorem join_return_spec (s : State) (j t : Nat) (hjt : j ≠ t) (hc : s.context t ≠ none) :
    join_return s j t = Outcome.ret (s.status t)
      { s with status := put s.status j 0, context := put s.context t none,
               wut_thread_counter := s.wut_thread_counter - 1 } := by
  unfold join_return
  simp only [put_ne _ _ (Ne.symm hjt)]
  cases h : s.context t with
  | none => exact absurd h hc
  | some k => rfl


theorem wut_list_at_range {l : List (Option Nat)} {i : Int} {x : Option Nat}
    (h : wut_list_at l i = some x) : 0 ≤ i ∧ i < (l.length : Int) := by
  unfold wut_list_at at h
  by_contra hc
  simp [hc] at h

/-- A join on an entry that has exited, is not blocked and still has its context returns the
recorded status at once. -/
theorem wut_join_exited_value (s : State) (id : Int) (t : Nat)
    (hid : wut_list_at s.wut_list id = some (some t)) (hne : id ≠ wut_id s)
    (hex : s.exited t = 1) (hbb : s.blocked_by t = -1) (hc : s.context t ≠ none) :
    (wut_join s id).value = some (s.status t) := by
  have hr := wut_list_at_range hid
  have h1 : ¬ (id < 0 ∨ id ≥ wut_list_size s ∨ id = wut_id s) := by
    unfold wut_list_size
    omega
  unfold wut_join
  rw [if_neg h1, hid]
  simp only []
  by_cases h128 : s.status t = 128
  · simp [h128, Outcome.value]
  · simp [h128, hbb, hc, hex, Outcome.value]


/-- The function `wut_yield` called by the head `h` of a queue with a second entry `n`: the queue
is rotated by one and control switches to `n`. -/
theorem wut_yield_spec (s : State) (h n : Nat) (T : List Nat) (hq : queue_is s (h :: n :: T))
    (hh : s.context h ≠ none) (hn : s.context n ≠ none) :
    ∃ s', wut_yield s = Outcome.switch n s' ∧ queue_is s' (n :: T ++ [h]) ∧
      s'.status = put (put s.status h 1) n 0 ∧
      s'.context = put s.context h (some Resume.in_yield) ∧ s'.id = s.id ∧
      s'.exited = s.exited ∧ s'.blocking = s.blocking ∧ s'.blocked_by = s.blocked_by ∧
      s'.wut_thread_counter = s.wut_thread_counter ∧ s'.wut_list = s.wut_list ∧
      s'.brk = s.brk := by
  have hf := queue_is_first s h _ hq
  have hnext : s.tqe_next h = some n := by simpa using queue_is_next s h _ hq
  have hnh : n ≠ h := fun e => (List.nodup_cons.1 hq.2).1 (by simp [e])
  have hhT : h ∉ n :: T := (List.nodup_cons.1 hq.2).1
  have hq1 : queue_is { s with status := put s.status h 1 } (h :: n :: T) :=
    queue_is_congr hq _ rfl rfl rfl rfl
  have hq2 := queue_is_remove_head _ _ _ hq1
  have hq3 := queue_is_insert_tail _ _ h hq2 hhT
  have key : wut_yield s = swapcontext
      { TAILQ_INSERT_TAIL (TAILQ_REMOVE { s with status := put s.status h 1 } h) h with
        status := put (put s.status h 1) n 0 } h n Resume.in_yield := by
    unfold wut_yield TAILQ_FIRST TAILQ_NEXT
    split
    · rename_i e; rw [hf] at e; cases e
    · rename_i c e
      rw [hf] at e
      cases e
      simp only [hnext, if_neg hnh, TAILQ_INSERT_TAIL_status, TAILQ_REMOVE_status]
  rw [key, swapcontext_switch _ _ _ _ (by simpa using hh) hnh (by simpa using hn)]
  exact ⟨_, rfl, queue_is_congr hq3 _ rfl rfl rfl rfl, by simp⟩

theorem run_nil (o : Outcome) : run o [] = o := by
  cases o <;> rfl

theorem run_cons (o : Outcome) (s : State) (h : o.state = some s) (op : Op) (ops : List Op) :
    run o (op :: ops) = run (step s op) ops := by
  cases o with
  | ret v s1 => simp only [Outcome.state, Option.some.injEq] at h; subst h; rfl
  | enter s1 => simp only [Outcome.state, Option.some.injEq] at h; subst h; rfl
  | switch a s1 => simp [Outcome.state] at h
  | halt s1 => simp [Outcome.state] at h
  | fault => simp [Outcome.state] at h
  | hang => simp [Outcome.state] at h

theorem run_append (o : Outcome) (l1 l2 : List Op) : run o (l1 ++ l2) = run (run o l1) l2 := by
  induction l1 generalizing o with
  | nil => rw [run_nil]; rfl
  | cons op l1 ih =>
    cases o with
    | ret v s => simp only [List.cons_append, run]; exact ih _
    | enter s => simp only [List.cons_append, run]; exact ih _
    | switch a s => cases l2 <;> simp [run]
    | halt s => cases l2 <;> simp [run]
    | fault => cases l2 <;> simp [run]
    | hang => cases l2 <;> simp [run]

/-- One `wut_yield` together with the continuation of the thread switched to, when that thread
is new or was saved in `wut_yield`. -/
theorem yield_step (s : State) (h n : Nat) (T : List Nat) (hq : queue_is s (h :: n :: T))
    (hh : s.context h ≠ none)
    (hn : s.context n = some Resume.start ∨ s.context n = some Resume.in_yield) :
    ∃ o s', step s Op.yield = o ∧ o.state = some s' ∧
      (s.context n = some Resume.in_yield → o = Outcome.ret 0 s') ∧
      queue_is s' (n :: T ++ [h]) ∧ s'.status n = 0 ∧ s'.status h = 1 ∧
      s'.context = put s.context h (some Resume.in_yield) := by
  have hnh : n ≠ h := fun e => (List.nodup_cons.1 hq.2).1 (by simp [e])
  have hn' : s.context n ≠ none := by rcases hn with e | e <;> simp [e]
  obtain ⟨s1, h1, h2, h3, h4, _⟩ := wut_yield_spec s h n T hq hh hn'
  have hc1 : s1.context n = s.context n := by rw [h4]; simp [hnh]
  rcases hn with e | e
  · refine ⟨Outcome.enter s1, s1, ?_, rfl, ?_, h2, ?_, ?_, h4⟩
    · simp [step, call, h1, resume, hc1, e]
    · intro e'; rw [e] at e'; cases e'
    · simp [h3]
    · simp [h3, hnh.symm]
  · refine ⟨Outcome.ret 0 { s1 with status := put s1.status n 0 },
      { s1 with status := put s1.status n 0 }, ?_, rfl, fun _ => rfl,
      queue_is_congr h2 _ rfl rfl rfl rfl, ?_, ?_, h4⟩
    · simp [step, call, h1, resume, hc1, e]
    · simp
    · simp [h3, hnh.symm]


/-- As many successive `wut_yield` calls as the list `P` is long, from a queue `P ++ Q` of threads
that are new or were saved in `wut_yield`: the queue becomes `Q ++ P`. -/
theorem yield_rounds : ∀ (P : List Nat) (s : State) (Q : List Nat) (o0 : Outcome),
    o0.state = some s → Q ≠ [] → queue_is s (P ++ Q) →
    (∀ a, (P ++ Q).head? = some a → s.context a ≠ none) →
    (∀ a ∈ (P ++ Q).tail,
      s.context a = some Resume.start ∨ s.context a = some Resume.in_yield) →
    ∃ o s', run o0 (List.replicate P.length Op.yield) = o ∧ o.state = some s' ∧
      queue_is s' (Q ++ P) ∧
      (∀ a, (Q ++ P).head? = some a → s'.context a ≠ none) ∧
      (∀ a ∈ (Q ++ P).tail,
        s'.context a = some Resume.start ∨ s'.context a = some Resume.in_yield) ∧
      (P ≠ [] → ∀ a, Q.head? = some a →
        s'.status a = 0 ∧ (s.context a = some Resume.in_yield → o = Outcome.ret 0 s')) ∧
      (∀ a ∈ P, s'.context a = some Resume.in_yield) ∧
      (∀ a, a ∉ P → s'.context a = s.context a)
  | [], s, Q, o0, h0, _, hq, hh, ht => by
    refine ⟨o0, s, run_nil o0, h0, by simpa using hq, by simpa using hh, by simpa using ht,
      fun h => absurd rfl h, by simp, fun _ _ => rfl⟩
  | h :: P, s, Q, o0, h0, hQ, hq, hh, ht => by
    obtain ⟨n, T, hnT⟩ : ∃ n T, P ++ Q = n :: T := by
      cases hPQ : P ++ Q with
      | nil => simp [hQ] at hPQ
      | cons n T => exact ⟨n, T, rfl⟩
    have hq' : queue_is s (h :: n :: T) := by rw [← hnT]; exact hq
    have hnh : n ≠ h := fun e => (List.nodup_cons.1 hq'.2).1 (by simp [e])
    have hch : s.context h ≠ none := hh h (by simp)
    have hcn : s.context n = some Resume.start ∨ s.context n = some Resume.in_yield :=
      ht n (by simp [hnT])
    obtain ⟨o1, s1, hs1, hst1, hret1, hq1, hsn, _, hctx1⟩ := yield_step s h n T hq' hch hcn
    have hrun : run o0 (List.replicate (h :: P).length Op.yield)
        = run o1 (List.replicate P.length Op.yield) := by
      rw [List.length_cons, List.replicate_succ, run_cons o0 s h0, hs1]
    have hq1' : queue_is s1 (P ++ (Q ++ [h])) := by
      rw [← List.append_assoc, hnT]; exact hq1
    have hctx_of : ∀ a, (s.context a = some Resume.start ∨ s.context a = some Resume.in_yield) →
        (s1.context a = some Resume.start ∨ s1.context a = some Resume.in_yield) := by
      intro a ha
      rw [hctx1]
      by_cases e : a = h
      · right; simp [e]
      · simpa [e] using ha
    obtain ⟨o, s', hrun', hst', hq2, hh2, ht2, hhead2, hP2, hfr2⟩ :=
      yield_rounds P s1 (Q ++ [h]) o1 hst1 (by simp) hq1'
        (by
          intro a ha
          rw [← List.append_assoc, hnT] at ha
          simp at ha
          subst ha
          rcases hctx_of n hcn with e | e <;> simp [e])
        (by
          intro a ha
          rw [← List.append_assoc, hnT] at ha
          simp at ha
          rcases ha with ha | ha
          · exact hctx_of a (ht a (by simp [hnT, ha]))
          · right; rw [hctx1, ha]; simp)
    have hlist : (Q ++ [h]) ++ P = Q ++ h :: P := by simp
    rw [hlist] at hq2 hh2 ht2
    have hhP : h ∉ P := by
      have := hq.2
      rw [List.cons_append, List.nodup_cons] at this
      exact fun e => this.1 (List.mem_append_left _ e)
    refine ⟨o, s', hrun.trans hrun', hst', hq2, hh2, ht2, ?_, ?_, ?_⟩
    · intro _ a ha
      cases P with
      | nil =>
        simp only [List.length_nil, List.replicate_zero, run_nil] at hrun'
        subst hrun'
        rw [hst1] at hst'
        cases hst'
        have han : a = n := by
          simp only [List.nil_append] at hnT
          rw [hnT] at ha
          simpa using ha.symm
        subst han
        exact ⟨hsn, hret1⟩
      | cons p P =>
        have ha' : (Q ++ [h]).head? = some a := by
          cases Q with
          | nil => exact absurd rfl hQ
          | cons q Q => simpa using ha
        obtain ⟨h1, h2⟩ := hhead2 (by simp) a ha'
        refine ⟨h1, fun e => h2 ?_⟩
        rw [hctx1]
        by_cases e' : a = h
        · simp [e']
        · simpa [e'] using e
    · intro a ha
      rcases List.mem_cons.1 ha with e | e
      · rw [e, hfr2 h hhP, hctx1]; simp
      · exact hP2 a e
    · intro a ha
      have h1 : a ∉ P := fun e => ha (List.mem_cons_of_mem _ e)
      have h2 : a ≠ h := fun e => ha (by simp [e])
      rw [hfr2 a h1, hctx1]
      simp [h2]


theorem length_le_of_nodup_lt (L : List Nat) (n : Nat) (hnd : L.Nodup) (h : ∀ a ∈ L, a < n) :
    L.length ≤ n := by
  have hsub : L ⊆ List.range n := fun a ha => List.mem_range.2 (h a ha)
  have := (List.subperm_of_subset hnd hsub).length_le
  simpa using this

/-- The search loop of `wut_join` stops at an entry when the chain holds one with the id. -/
theorem foreach_find_found (s : State) (tid : Int) : ∀ (L : List Nat) (p : Link) (fuel : Nat),
    linked s p L → L.length ≤ fuel → (∃ x ∈ L, s.id x = tid) →
    ∃ x, foreach_find s tid fuel (load s p) = Search.found x
  | [], _, _, _, _, hx => by
    obtain ⟨x, hx, _⟩ := hx
    simp at hx
  | a :: L, p, fuel, h, hf, hx => by
    simp only [linked] at h
    obtain ⟨h1, _, h3⟩ := h
    cases fuel with
    | zero => simp at hf
    | succ fuel =>
      rw [h1]
      by_cases e : s.id a = tid
      · exact ⟨a, by simp [foreach_find, e]⟩
      · obtain ⟨x, hxm, hxe⟩ := hx
        have hxL : x ∈ L := by
          rcases List.mem_cons.1 hxm with e' | e'
          · rw [e'] at hxe; exact absurd hxe e
          · exact e'
        obtain ⟨y, hy⟩ := foreach_find_found s tid L (Link.next_of a) fuel h3
          (by simpa using hf) ⟨x, hxL, hxe⟩
        exact ⟨y, by simpa [foreach_find, e, load] using hy⟩

/-- Lines 400-433 of `wut_join` when the target `b` is in the queue behind the running head `c`:
`c` is linked to `b`, gets status 2 and leaves the queue, and control switches to the new head. -/
theorem join_block_spec (s : State) (c b n : Nat) (L : List Nat) (hq : queue_is s (c :: L))
    (hn : L.head? = some n) (hb : b ∈ L) (hbrk : ∀ a ∈ L, a < s.brk)
    (hc : s.context c ≠ none) (hcn : s.context n ≠ none) :
    ∃ s', join_block s c b = Outcome.switch n s' ∧ queue_is s' L ∧
      s'.status = put (put s.status c 2) n 0 ∧ s'.blocking = put s.blocking b (s.id c) ∧
      s'.blocked_by = put s.blocked_by c (s.id b) ∧
      s'.context = put s.context c (some (Resume.in_join b)) ∧ s'.id = s.id ∧
      s'.exited = s.exited ∧ s'.wut_thread_counter = s.wut_thread_counter ∧
      s'.wut_list = s.wut_list ∧ s'.brk = s.brk := by
  have hcL : c ∉ L := (List.nodup_cons.1 hq.2).1
  have hnL : n ∈ L := List.mem_of_mem_head? hn
  have hnc : n ≠ c := fun e => hcL (e ▸ hnL)
  have hq1 : queue_is { s with status := put s.status c 2,
                               blocking := put s.blocking b (s.id c),
                               blocked_by := put s.blocked_by c (s.id b) } (c :: L) :=
    queue_is_congr hq _ rfl rfl rfl rfl
  have hq2 := queue_is_remove_head _ _ _ hq1
  have hlink : join_link s c b =
      TAILQ_REMOVE { s with status := put s.status c 2,
                            blocking := put s.blocking b (s.id c),
                            blocked_by := put s.blocked_by c (s.id b) } c := rfl
  obtain ⟨T, hT⟩ : ∃ T, L = n :: T := by
    cases L with
    | nil => simp at hn
    | cons x T => simp at hn; exact ⟨T, by rw [hn]⟩
  have hfirst : (join_link s c b).tqh_first = some n := by
    rw [hlink]; rw [hT] at hq2; exact queue_is_first _ _ _ hq2
  have hmark : mark_first_running (join_link s c b)
      = { join_link s c b with status := put (join_link s c b).status n 0 } := by
    unfold mark_first_running TAILQ_FIRST
    split
    · rename_i e; rw [hfirst] at e; cases e
    · rename_i m e; rw [hfirst] at e; cases e; rfl
  have hq3 : queue_is (mark_first_running (join_link s c b)) L := by
    have hq2' : queue_is (join_link s c b) L := hq2
    rw [hmark]; exact queue_is_congr hq2' _ rfl rfl rfl rfl
  have hlen : L.length ≤ (mark_first_running (join_link s c b)).brk := by
    rw [hmark, hlink]
    simpa using length_le_of_nodup_lt L s.brk (List.nodup_cons.1 hq.2).2 hbrk
  obtain ⟨x, hx⟩ := foreach_find_found (mark_first_running (join_link s c b))
    ((mark_first_running (join_link s c b)).id b) L Link.head_first _ hq3.1 hlen ⟨b, hb, rfl⟩
  have hfirst' : (mark_first_running (join_link s c b)).tqh_first = some n := by
    rw [hmark]; exact hfirst
  have hsw : join_switch (mark_first_running (join_link s c b)) c b
      = swapcontext (mark_first_running (join_link s c b)) c n (Resume.in_join b) := by
    unfold join_switch TAILQ_FIRST
    split
    · rename_i e; rw [hfirst'] at e; cases e
    · rename_i m e; rw [hfirst'] at e; cases e; rfl
  have hctx : (mark_first_running (join_link s c b)).context = s.context := by
    rw [hmark, hlink]; simp
  unfold join_block
  simp only [TAILQ_FIRST]
  simp only [load] at hx
  rw [hx]
  simp only []
  rw [hsw, swapcontext_switch _ _ _ _ (by rw [hctx]; exact hc) hnc (by rw [hctx]; exact hcn)]
  refine ⟨_, rfl, queue_is_congr hq3 _ rfl rfl rfl rfl, ?_⟩
  rw [hmark, hlink]
  simp


theorem wut_id_of_first (s : State) (c : Nat) (hf : s.tqh_first = some c) : wut_id s = s.id c := by
  simp [wut_id, TAILQ_FIRST, hf]

/-- The function `wut_join` on a live target that is not cancelled, not blocked and has not
exited reaches lines 375-433. -/
theorem wut_join_slow (s s2 : State) (id : Int) (t c : Nat)
    (hid : wut_list_at s.wut_list id = some (some t)) (hne : id ≠ wut_id s)
    (h128 : s.status t ≠ 128) (hbb : s.blocked_by t = -1) (hc : s.context t ≠ none)
    (he : s.exited t ≠ 1) (hu : unlink_blocking s t = some s2) (hf : s2.tqh_first = some c) :
    wut_join s id = join_block s2 c t := by
  have hr := wut_list_at_range hid
  have h1 : ¬ (id < 0 ∨ id ≥ wut_list_size s ∨ id = wut_id s) := by
    unfold wut_list_size
    omega
  have hub : unlink_blocked_by s t = some s := by simp [unlink_blocked_by, hbb]
  unfold wut_join
  rw [if_neg h1, hid]
  simp only [if_neg h128, hbb, ne_eq, not_true_eq_false, if_false, if_neg hc, if_neg he, hub,
    Option.some_bind, hu, TAILQ_FIRST, hf]

theorem unlink_blocking_none (s : State) (t : Nat) (h : s.blocking t = -1) :
    unlink_blocking s t = some s := by
  simp [unlink_blocking, h]

theorem unlink_blocking_some (s : State) (t a : Nat)
    (h : wut_list_at s.wut_list (s.blocking t) = some (some a)) :
    unlink_blocking s t = some { s with blocked_by := put s.blocked_by a (-1),
                                        blocking := put s.blocking t (-1) } := by
  have hb : s.blocking t ≠ -1 := by
    intro e
    rw [e] at h
    have := (wut_list_at_range h).1
    omega
  simp [unlink_blocking, hb, h]


/-- The function `wut_exit` called by the running head `cur` of the queue while the thread `w`,
which is not in the queue, waits for it: `w` is appended to the queue, `cur` leaves it with its
status recorded, and control switches to the new head. -/
theorem wut_exit_waiter_spec (s : State) (code : Int) (cur w : Nat) (L : List Nat)
    (hq : queue_is s (cur :: L)) (hst : s.status cur = 0)
    (hw : wut_list_at s.wut_list (s.blocking cur) = some (some w))
    (hwq : w ∉ cur :: L) (hctx : ∀ a ∈ cur :: L, s.context a ≠ none)
    (hcw : s.context w ≠ none) :
    ∃ n s', wut_exit s code = Outcome.switch n s' ∧ (L ++ [w]).head? = some n ∧
      queue_is s' (L ++ [w]) ∧ s'.status = put (put (put s.status cur (code % 256)) w 1) n 0 ∧
      s'.exited = put s.exited cur 1 ∧ s'.blocking = put s.blocking cur (-1) ∧
      s'.blocked_by = put s.blocked_by w (-1) ∧
      s'.context = put s.context cur (some Resume.in_exit) ∧ s'.id = s.id ∧
      s'.wut_thread_counter = s.wut_thread_counter ∧ s'.wut_list = s.wut_list ∧
      s'.brk = s.brk := by
  have hf := queue_is_first s cur L hq
  have hb : s.blocking cur ≠ -1 := by
    intro e
    rw [e] at hw
    have := (wut_list_at_range hw).1
    omega
  rw [wut_exit_waiter s code cur w hf hst hb hw]
  have hq1 : queue_is { s with status := put (put s.status cur (code % 256)) w 1,
                               blocking := put s.blocking cur (-1),
                               blocked_by := put s.blocked_by w (-1) } (cur :: L) :=
    queue_is_congr hq _ rfl rfl rfl rfl
  have hq2 := queue_is_insert_tail _ _ w hq1 hwq
  obtain ⟨n, R, hR⟩ : ∃ n R, L ++ [w] = n :: R := by
    cases L with
    | nil => exact ⟨w, [], rfl⟩
    | cons a L => exact ⟨a, L ++ [w], rfl⟩
  rw [List.cons_append, hR] at hq2
  have hnmem : n ∈ L ++ [w] := by rw [hR]; simp
  have hcn : s.context n ≠ none := by
    rcases List.mem_append.1 hnmem with h | h
    · exact hctx n (by simp [h])
    · simp at h; rw [h]; exact hcw
  obtain ⟨s', h1, h2, h3, h4, h5, h6, h7, h8, h9, h10, h11⟩ := exit_leave_switch _ cur n R hq2
    (by simpa using hctx cur (by simp)) (by simpa using hcn)
  refine ⟨n, s', h1, by rw [hR]; rfl, by rw [hR]; exact h2, ?_⟩
  simp [h3, h4, h5, h6, h7, h8, h9, h10, h11]


/-- The function `wut_cancel` on a live thread `b` of the Ready Queue that is not blocked and
that the thread `a`, which is not in the queue, waits for (lines 286-305). -/
theorem wut_cancel_waiter_spec (s : State) (id : Int) (a b c : Nat) (L : List Nat)
    (hq : queue_is s (c :: L)) (hbL : b ∈ L)
    (hid : wut_list_at s.wut_list id = some (some b)) (hidc : s.id c ≠ id)
    (hcb : s.context b ≠ none) (hbb : s.blocked_by b = -1)
    (ha : wut_list_at s.wut_list (s.blocking b) = some (some a)) (haq : a ∉ c :: L) :
    ∃ s', wut_cancel s id = Outcome.ret 0 s' ∧ queue_is s' (c :: L.erase b ++ [a]) ∧
      s'.status = put (put s.status a 1) b 128 ∧ s'.blocking = put s.blocking b (-1) ∧
      s'.blocked_by = put s.blocked_by a (-1) ∧ s'.context = s.context ∧ s'.id = s.id ∧
      s'.exited = s.exited ∧ s'.wut_thread_counter = s.wut_thread_counter ∧
      s'.wut_list = s.wut_list ∧ s'.brk = s.brk := by
  have hf := queue_is_first s c L hq
  have hr := wut_list_at_range hid
  have h1 : ¬ (id < 0 ∨ id ≥ wut_list_size s ∨ id = wut_id s) := by
    rw [wut_id_of_first s c hf]
    unfold wut_list_size
    have := Ne.symm hidc
    omega
  have hb : s.blocking b ≠ -1 := by
    intro e
    rw [e] at ha
    have := (wut_list_at_range ha).1
    omega
  have hub : unlink_blocked_by s b = some s := by simp [unlink_blocked_by, hbb]
  have hcL : c ∉ L := (List.nodup_cons.1 hq.2).1
  have hcb' : c ≠ b := fun e => hcL (e ▸ hbL)
  have hq1 : queue_is { s with status := put s.status a 1 } (c :: L) :=
    queue_is_congr hq _ rfl rfl rfl rfl
  have hq2 := queue_is_insert_tail _ _ a hq1 haq
  have hq3 : queue_is
      { TAILQ_INSERT_TAIL { s with status := put s.status a 1 } a with
        blocked_by := put s.blocked_by a (-1)
        blocking := put s.blocking b (-1)
        status := put (put s.status a 1) b 128 } (c :: L ++ [a]) :=
    queue_is_congr hq2 _ rfl rfl rfl rfl
  have hq4 := queue_is_remove _ _ b hq3 (by simp [hbL])
  have hlist : (c :: L ++ [a]).erase b = c :: L.erase b ++ [a] := by
    have hne : ¬ (c == b) = true := by simpa using hcb'
    rw [List.cons_append, List.erase_cons_tail hne, List.erase_append_left _ hbL]
    rfl
  rw [hlist] at hq4
  refine ⟨_, ?_, hq4, by simp⟩
  unfold wut_cancel
  rw [if_neg h1, hid]
  simp only [if_neg hcb, hub, if_pos hb, cancel_wake, ha, TAILQ_INSERT_TAIL_blocked_by,
    TAILQ_INSERT_TAIL_blocking, TAILQ_INSERT_TAIL_status]


/-! ## C1 -/

/-- What `wut_join` does about a joiner that is already there (lines 343-345 and 375-408), in
place of the rejection that C1 describes. A `wut_join` on a thread `b` that is not cancelled fails
with -1 and leaves the state unchanged when `b` is itself blocked in a join (`blocked_by` of `b`
is set). It does not fail because another thread `a` is blocked in a join on `b`: when `b` is a live
thread in the Ready Queue that has not exited and is not blocked, the call of the running head `c`
clears `blocked_by` of `a`, makes `c` the joiner of `b` (`blocking` of `b` is the id of `c`,
`blocked_by` of `c` is the id of `b`), gives `c` the status 2, removes `c` from the queue, saves
`c` in `wut_join` and switches to the new head of the queue. -/
theorem second_join_takes_over (s : State) (id : Int) (a b c : Nat) (L : List Nat)
    (hid : wut_list_at s.wut_list id = some (some b)) (hidb : s.id b = id)
    (h128 : s.status b ≠ 128) (hq : queue_is s (c :: L)) (hidc : s.id c ≠ id) :
    (s.blocked_by b ≠ -1 → wut_join s id = Outcome.ret (-1) s) ∧
    (s.blocked_by b = -1 → b ∈ L → (∀ x ∈ L, x < s.brk) → (∀ x ∈ c :: L, s.context x ≠ none) →
      s.exited b ≠ 1 → wut_list_at s.wut_list (s.blocking b) = some (some a) → a ∉ c :: L →
      ∃ n s', wut_join s id = Outcome.switch n s' ∧ L.head? = some n ∧ queue_is s' L ∧
        s'.blocked_by a = -1 ∧ s'.blocking b = s.id c ∧ s'.blocked_by c = id ∧
        s'.status c = 2 ∧ s'.context c = some (Resume.in_join b)) := by
  have hf := queue_is_first s c L hq
  have hr := wut_list_at_range hid
  have hne : id ≠ wut_id s := by
    rw [wut_id_of_first s c hf]; exact Ne.symm hidc
  have h1 : ¬ (id < 0 ∨ id ≥ wut_list_size s ∨ id = wut_id s) := by
    unfold wut_list_size
    omega
  constructor
  · intro hbb
    unfold wut_join
    rw [if_neg h1, hid]
    simp [h128, hbb]
  · intro hbb hbL hbrk hctx hex ha haq
    obtain ⟨n, hn⟩ : ∃ n, L.head? = some n := by
      cases L with
      | nil => simp at hbL
      | cons x T => exact ⟨x, rfl⟩
    have hnL : n ∈ L := List.mem_of_mem_head? hn
    have hcL : c ∉ L := (List.nodup_cons.1 hq.2).1
    have hnc : n ≠ c := fun e => hcL (e ▸ hnL)
    have hac : a ≠ c := fun e => haq (by simp [e])
    have hq2 : queue_is { s with blocked_by := put s.blocked_by a (-1),
                                 blocking := put s.blocking b (-1) } (c :: L) :=
      queue_is_congr hq _ rfl rfl rfl rfl
    rw [wut_join_slow s _ id b c hid hne h128 hbb (hctx b (by simp [hbL])) hex
      (unlink_blocking_some s b a ha) hf]
    obtain ⟨s', h1, h2, h3, h4, h5, h6, _⟩ := join_block_spec _ c b n L hq2 hn hbL hbrk
      (hctx c (by simp)) (hctx n (by simp [hnL]))
    refine ⟨n, s', h1, hn, h2, ?_, ?_, ?_, ?_, ?_⟩
    · rw [h5]; simp [hac]
    · rw [h4]; simp
    · rw [h5]; simp [hidb]
    · rw [h3]; simp [hnc.symm]
    · rw [h6]; simp

/-- C1. A second join that is not rejected: the main thread (id 0) has created the threads 1
and 2 and is blocked in `wut_join 2`; thread 1 is the running head and calls `wut_join 2`. The
call does not return -1: lines 375-382 clear `blocked_by` of the main thread without waking it,
lines 400-408 make thread 1 the joiner of thread 2, thread 1 is saved and control switches to
thread 2. In the state the call leaves, the joiner of thread 2 is thread 1 and the main thread is
not linked to thread 2 any more, while its status is still 2 (Blocked). -/
theorem second_join_not_rejected :
    (state_after [Op.create 0, Op.create 0, Op.join 2]).context 0 = some (Resume.in_join 2) ∧
    (state_after [Op.create 0, Op.create 0, Op.join 2]).status 0 = 2 ∧
    (state_after [Op.create 0, Op.create 0, Op.join 2]).blocked_by 0 = 2 ∧
    (state_after [Op.create 0, Op.create 0, Op.join 2]).blocking 2 = 0 ∧
    queue_is (state_after [Op.create 0, Op.create 0, Op.join 2]) [1, 2] ∧
    wut_id (state_after [Op.create 0, Op.create 0, Op.join 2]) = 1 ∧
    wut_join (state_after [Op.create 0, Op.create 0, Op.join 2]) 2
      ≠ Outcome.ret (-1) (state_after [Op.create 0, Op.create 0, Op.join 2]) ∧
    (wut_join (state_after [Op.create 0, Op.create 0, Op.join 2]) 2).target = some 2 ∧
    ((wut_join (state_after [Op.create 0, Op.create 0, Op.join 2]) 2).after.map
      (fun s => (s.blocking 2, s.blocked_by 0, s.status 0))) = some (1, -1, 2) := by
  refine ⟨by decide, by decide, by decide, by decide, by decide, by decide, ?_, by decide,
    by decide⟩
  intro h
  have := congrArg Outcome.target h
  revert this
  decide

/-- Witness of `second_join_takes_over`: the main thread (id 0) has created the threads 1 and 2
and is blocked in `wut_join 2`, with `a` the main thread, `b` thread 2 and `c` thread 1; in the
same state `wut_join 0` is rejected, as the main thread is blocked. -/
theorem second_join_takes_over_witness :
    wut_join (state_after [Op.create 0, Op.create 0, Op.join 2]) 0
      = Outcome.ret (-1) (state_after [Op.create 0, Op.create 0, Op.join 2]) ∧
    ∃ n s', wut_join (state_after [Op.create 0, Op.create 0, Op.join 2]) 2
        = Outcome.switch n s' ∧ [2].head? = some n ∧ queue_is s' [2] ∧
      s'.blocked_by 0 = -1 ∧
      s'.blocking 2 = (state_after [Op.create 0, Op.create 0, Op.join 2]).id 1 ∧
      s'.blocked_by 1 = 2 ∧ s'.status 1 = 2 ∧ s'.context 1 = some (Resume.in_join 2) :=
  ⟨(second_join_takes_over (state_after [Op.create 0, Op.create 0, Op.join 2]) 0 0 0 1 [2]
    (by decide) (by decide) (by decide) (by decide) (by decide)).1 (by decide),
  (second_join_takes_over (state_after [Op.create 0, Op.create 0, Op.join 2]) 2 0 2 1 [2]
    (by decide) (by decide) (by decide) (by decide) (by decide)).2
    (by decide) (by decide) (by decide) (by decide) (by decide) (by decide) (by decide)⟩

/-- What becomes of the first joiner after the second join: thread 2 calls `wut_exit 5`, which
wakes thread 1, its registered joiner (lines 507-525); the join of thread 1 returns 5 and releases
the context of thread 2. The main thread still has status 2 and its context saved in
`wut_join 2`, its `blocked_by` is -1, it is not in the queue `[1]` and no thread has it as joiner:
no call can wake it any more. The block of `wut_cancel` that carries the same comment
(lines 286-297) sets the status of the thread it unlinks to 1 and inserts it in the queue. -/
theorem first_joiner_stranded :
    (run (Outcome.ret 0 wut_init)
      [Op.create 0, Op.create 0, Op.join 2, Op.join 2, Op.exit 5]).value = some 5 ∧
    wut_id (state_after [Op.create 0, Op.create 0, Op.join 2, Op.join 2, Op.exit 5]) = 1 ∧
    queue_is (state_after [Op.create 0, Op.create 0, Op.join 2, Op.join 2, Op.exit 5]) [1] ∧
    (state_after [Op.create 0, Op.create 0, Op.join 2, Op.join 2, Op.exit 5]).status 0 = 2 ∧
    (state_after [Op.create 0, Op.create 0, Op.join 2, Op.join 2, Op.exit 5]).blocked_by 0
      = -1 ∧
    (state_after [Op.create 0, Op.create 0, Op.join 2, Op.join 2, Op.exit 5]).context 0
      = some (Resume.in_join 2) ∧
    (state_after [Op.create 0, Op.create 0, Op.join 2, Op.join 2, Op.exit 5]).blocking 1
      = -1 ∧
    (state_after [Op.create 0, Op.create 0, Op.join 2, Op.join 2, Op.exit 5]).blocking 2
      = -1 := by
  decide

/-! ## C2 -/

/-- The part of C2 that the code keeps, when no other thread touches `t` in between: let `j`
be the running head of the Ready Queue and `t` a freshly created thread in the queue (status 1,
not exited, no links), registered under `id`. Then
`wut_join id` by `j` blocks `j` on `t`: `j` gets status 2, leaves the queue, is saved in
`wut_join` and the new head runs. Whenever `t` later runs as the head with `j` still registered
as its joiner and calls `wut_exit c`, `j` is put back at the tail of the Ready Queue with
`blocked_by` cleared and `t` leaves with status `c mod 256`. Whenever `j` is then switched to
again, its `wut_join` returns `c mod 256`, which is `c` for `c` in `0..255`, and the context of
`t` has been released. -/
theorem join_correctness (c : Int) (s : State) (id : Int) (j t : Nat) (L : List Nat)
    (hq : queue_is s (j :: L)) (htL : t ∈ L) (hbrk : ∀ x ∈ L, x < s.brk)
    (hctx : ∀ x ∈ j :: L, s.context x ≠ none)
    (hid : wut_list_at s.wut_list id = some (some t)) (hidt : s.id t = id) (hidj : s.id j ≠ id)
    (hst : s.status t = 1) (hex : s.exited t = 0) (hbl : s.blocking t = -1)
    (hbb : s.blocked_by t = -1) :
    ∃ n s1, wut_join s id = Outcome.switch n s1 ∧ L.head? = some n ∧ queue_is s1 L ∧
      s1.status j = 2 ∧ s1.blocked_by j = id ∧ s1.blocking t = s.id j ∧
      s1.context j = some (Resume.in_join t) ∧
      ∀ (s2 : State) (L2 : List Nat), queue_is s2 (t :: L2) → j ∉ t :: L2 → s2.status t = 0 →
        wut_list_at s2.wut_list (s2.blocking t) = some (some j) →
        (∀ x ∈ t :: L2, s2.context x ≠ none) → s2.context j = some (Resume.in_join t) →
        ∃ n3 s3, wut_exit s2 c = Outcome.switch n3 s3 ∧ (L2 ++ [j]).head? = some n3 ∧
          queue_is s3 (L2 ++ [j]) ∧ s3.blocked_by j = -1 ∧ s3.status t = c % 256 ∧
          s3.exited t = 1 ∧ s3.context j = some (Resume.in_join t) ∧ s3.context t ≠ none ∧
          ∀ (s4 : State), s4.context j = some (Resume.in_join t) → s4.status t = s3.status t →
            s4.context t ≠ none →
            ∃ s5, resume s4 j = Outcome.ret (c % 256) s5 ∧ s5.context t = none ∧
              s5.status j = 0 ∧ s5.wut_thread_counter = s4.wut_thread_counter - 1 ∧
              (0 ≤ c → c < 256 → c % 256 = c) := by
  have hf := queue_is_first s j L hq
  have hjL : j ∉ L := (List.nodup_cons.1 hq.2).1
  have hjt : j ≠ t := fun e => hjL (e ▸ htL)
  have hne : id ≠ wut_id s := by
    rw [wut_id_of_first s j hf]; exact Ne.symm hidj
  obtain ⟨n, hn⟩ : ∃ n, L.head? = some n := by
    cases L with
    | nil => simp at htL
    | cons x T => exact ⟨x, rfl⟩
  have hnL : n ∈ L := List.mem_of_mem_head? hn
  have hnj : n ≠ j := fun e => hjL (e ▸ hnL)
  rw [wut_join_slow s s id t j hid hne (by rw [hst]; decide) hbb (hctx t (by simp [htL]))
    (by rw [hex]; decide) (unlink_blocking_none s t hbl) hf]
  obtain ⟨s1, h1, h2, h3, h4, h5, h6, _⟩ := join_block_spec s j t n L hq hn htL hbrk
    (hctx j (by simp)) (hctx n (by simp [hnL]))
  refine ⟨n, s1, h1, hn, h2, by rw [h3]; simp [hnj.symm], by rw [h5]; simp [hidt],
    by rw [h4]; simp, by rw [h6]; simp, ?_⟩
  intro s2 L2 hq2 hjq hst2 hw2 hctx2 hcj2
  have htj : t ≠ j := Ne.symm hjt
  obtain ⟨n3, s3, e1, e2, e3, e4, e5, _, e7, e8, _⟩ := wut_exit_waiter_spec s2 c t j L2 hq2 hst2
    hw2 hjq hctx2 (by rw [hcj2]; simp)
  have hn3 : n3 ≠ t := by
    intro e
    have hm : n3 ∈ L2 ++ [j] := List.mem_of_mem_head? e2
    rw [e] at hm
    rcases List.mem_append.1 hm with h | h
    · exact (List.nodup_cons.1 hq2.2).1 h
    · simp at h; exact htj h
  have hs3 : s3.status t = c % 256 := by rw [e4]; simp [hn3.symm, htj]
  refine ⟨n3, s3, e1, e2, e3, by rw [e7]; simp, hs3, by rw [e5]; simp,
    by rw [e8]; simp [hjt, hcj2], by rw [e8]; simp, ?_⟩
  intro s4 hc4 hs4 hct4
  have hr : resume s4 j = Outcome.ret (c % 256)
      { s4 with status := put s4.status j 0
                context := put s4.context t none
                wut_thread_counter := s4.wut_thread_counter - 1 } := by
    unfold resume
    rw [hc4]
    simp only []
    rw [join_return_spec s4 j t hjt hct4, hs4, hs3]
  exact ⟨_, hr, by simp, by simp, rfl, fun h0 h256 => Int.emod_eq_of_lt h0 h256⟩


/-- Witness of `join_correctness`: the main thread creates thread 1 and joins it, thread 1 calls
`wut_exit 7`, and the join of the main thread returns 7 with the context of thread 1 released. -/
theorem join_correctness_witness :
    queue_is (state_after [Op.create 0]) [0, 1] ∧
    (∃ n s1, wut_join (state_after [Op.create 0]) 1 = Outcome.switch n s1 ∧
      [1].head? = some n ∧ queue_is s1 [1] ∧ s1.status 0 = 2) ∧
    (run (Outcome.ret 0 wut_init) [Op.create 0, Op.join 1, Op.exit 7]).value = some 7 ∧
    (state_after [Op.create 0, Op.join 1, Op.exit 7]).context 1 = none := by
  refine ⟨by decide, ?_, by decide, by decide⟩
  obtain ⟨n, s1, h1, h2, h3, h4, _⟩ := join_correctness 7 (state_after [Op.create 0]) 1 0 1 [1]
    (by decide) (by decide) (by decide) (by decide) (by decide) (by decide) (by decide)
    (by decide) (by decide) (by decide) (by decide)
  exact ⟨n, s1, h1, h2, h3, h4⟩

/-- C2. A join whose result is taken by another joiner: the main thread (id 0) creates the
threads 1 and 2 and calls `wut_join 1` on thread 1, which is new, Ready and has no joiner; the
main thread is saved and thread 1 runs. Thread 1 calls `wut_exit 7`: it is recorded as exited with
status 7 and the main thread is put back in the Ready Queue, which is `[2, 0]`. Thread 2 runs
first and calls `wut_join 1`: thread 1 has exited, so the call returns 7 and releases its context
(lines 352-364). Thread 2 yields and the main thread continues after its `swapcontext` in
`wut_join 1`: lines 437-442 dereference the context of thread 1, which is `NULL` by now, and the
join of the main thread returns no value. -/
theorem join_result_lost_to_second_joiner :
    queue_is (state_after [Op.create 0, Op.create 0]) [0, 1, 2] ∧
    (state_after [Op.create 0, Op.create 0]).status 1 = 1 ∧
    (state_after [Op.create 0, Op.create 0]).exited 1 = 0 ∧
    (state_after [Op.create 0, Op.create 0]).blocking 1 = -1 ∧
    (state_after [Op.create 0, Op.create 0]).blocked_by 1 = -1 ∧
    (wut_join (state_after [Op.create 0, Op.create 0]) 1).target = some 1 ∧
    (state_after [Op.create 0, Op.create 0, Op.join 1]).context 0 = some (Resume.in_join 1) ∧
    queue_is (state_after [Op.create 0, Op.create 0, Op.join 1]) [1, 2] ∧
    (state_after [Op.create 0, Op.create 0, Op.join 1]).status 1 = 0 ∧
    queue_is (state_after [Op.create 0, Op.create 0, Op.join 1, Op.exit 7]) [2, 0] ∧
    (state_after [Op.create 0, Op.create 0, Op.join 1, Op.exit 7]).status 1 = 7 ∧
    (state_after [Op.create 0, Op.create 0, Op.join 1, Op.exit 7]).exited 1 = 1 ∧
    (state_after [Op.create 0, Op.create 0, Op.join 1, Op.exit 7]).status 0 = 1 ∧
    (run (Outcome.ret 0 wut_init)
      [Op.create 0, Op.create 0, Op.join 1, Op.exit 7, Op.join 1]).value = some 7 ∧
    queue_is (state_after [Op.create 0, Op.create 0, Op.join 1, Op.exit 7, Op.join 1]) [2, 0] ∧
    (state_after [Op.create 0, Op.create 0, Op.join 1, Op.exit 7, Op.join 1]).context 1
      = none ∧
    (run (Outcome.ret 0 wut_init)
      [Op.create 0, Op.create 0, Op.join 1, Op.exit 7, Op.join 1, Op.yield]).value = none ∧
    (run (Outcome.ret 0 wut_init)
      [Op.create 0, Op.create 0, Op.join 1, Op.exit 7, Op.join 1, Op.yield]).faults = true := by
  decide

/-! ## C3 -/

/-- The part of C3 that the code keeps, for a target that is in the Ready Queue: let `c` be the
running head of the Ready Queue, `b` a live thread in the queue registered under `id` that is not
blocked itself, and `a` a thread outside the queue that is saved in
`wut_join` on `b` and registered as the joiner of `b`. Then `wut_cancel id` by `c` returns 0; `b`
ends with status 128 and is no longer in the Ready Queue; the context of `b` is not released and
the counter is not decremented; `a` gets status 1, has `blocked_by` cleared and is appended at the
tail of the queue; and whenever `a` is switched to again while that status is in place, its
`wut_join` returns 128 and releases the context of `b`. -/
theorem cancel_wakes_waiter (s : State) (id : Int) (a b c : Nat) (L : List Nat)
    (hq : queue_is s (c :: L)) (hbL : b ∈ L)
    (hid : wut_list_at s.wut_list id = some (some b)) (hidc : s.id c ≠ id)
    (hcb : s.context b ≠ none) (hbb : s.blocked_by b = -1)
    (ha : wut_list_at s.wut_list (s.blocking b) = some (some a)) (haq : a ∉ c :: L)
    (hca : s.context a = some (Resume.in_join b)) :
    ∃ s', wut_cancel s id = Outcome.ret 0 s' ∧ s'.status b = 128 ∧
      queue_is s' (c :: L.erase b ++ [a]) ∧ b ∉ c :: L.erase b ++ [a] ∧
      s'.context b = s.context b ∧ s'.wut_thread_counter = s.wut_thread_counter ∧
      s'.status a = 1 ∧ s'.blocked_by a = -1 ∧ s'.context a = some (Resume.in_join b) ∧
      ∀ (s2 : State), s2.context a = some (Resume.in_join b) → s2.status b = s'.status b →
        s2.context b ≠ none →
        ∃ s3, resume s2 a = Outcome.ret 128 s3 ∧ s3.context b = none ∧
          s3.wut_thread_counter = s2.wut_thread_counter - 1 := by
  have hcL : c ∉ L := (List.nodup_cons.1 hq.2).1
  have hLnd : L.Nodup := (List.nodup_cons.1 hq.2).2
  have hcb' : c ≠ b := fun e => hcL (e ▸ hbL)
  have hab : a ≠ b := fun e => haq (by simp [e, hbL])
  obtain ⟨s', h1, h2, h3, _, h5, h6, _, _, h9, _⟩ :=
    wut_cancel_waiter_spec s id a b c L hq hbL hid hidc hcb hbb ha haq
  have hsb : s'.status b = 128 := by rw [h3]; simp
  refine ⟨s', h1, hsb, h2, ?_, by rw [h6], h9, by rw [h3]; simp [hab], by rw [h5]; simp,
    by rw [h6]; exact hca, ?_⟩
  · intro hm
    rcases List.mem_cons.1 hm with e | e
    · exact hcb' e.symm
    · rcases List.mem_append.1 e with e | e
      · exact (List.Nodup.mem_erase_iff hLnd).1 e |>.1 rfl
      · simp at e; exact hab e.symm
  · intro s2 hc2 hs2 hcb2
    have hr : resume s2 a = Outcome.ret 128
        { s2 with status := put s2.status a 0
                  context := put s2.context b none
                  wut_thread_counter := s2.wut_thread_counter - 1 } := by
      unfold resume
      rw [hc2]
      simp only []
      rw [join_return_spec s2 a b hab hcb2, hs2, hsb]
    exact ⟨_, hr, by simp, rfl⟩

/-- Witness of `cancel_wakes_waiter`: the main thread (id 0) creates the threads 1 and 2 and
joins thread 1, thread 1 yields, and thread 2 cancels thread 1 and yields: the join of the main
thread returns 128. -/
theorem cancel_wakes_waiter_witness :
    queue_is (state_after [Op.create 0, Op.create 0, Op.join 1, Op.yield]) [2, 1] ∧
    (∃ s', wut_cancel (state_after [Op.create 0, Op.create 0, Op.join 1, Op.yield]) 1
        = Outcome.ret 0 s' ∧ s'.status 1 = 128 ∧ queue_is s' [2, 0]) ∧
    (run (Outcome.ret 0 wut_init)
      [Op.create 0, Op.create 0, Op.join 1, Op.yield, Op.cancel 1, Op.yield]).value
      = some 128 := by
  refine ⟨by decide, ?_, by decide⟩
  obtain ⟨s', h1, h2, h3, _⟩ := cancel_wakes_waiter
    (state_after [Op.create 0, Op.create 0, Op.join 1, Op.yield]) 1 0 1 2 [1]
    (by decide) (by decide) (by decide) (by decide) (by decide) (by decide) (by decide)
    (by decide) (by decide)
  exact ⟨s', h1, h2, h3⟩

/-- C3. Cancelling a target that is itself blocked in a join: the main thread (id 0) creates the
threads 1, 2 and 3 and calls `wut_join 1`; thread 1 runs and calls `wut_join 3`; thread 2 runs and
yields; thread 3 runs and cancels thread 2, which leaves the well-formed queue `[3]`. Now the main
thread is blocked in `wut_join 1` and thread 3, the running head, calls `wut_cancel 1`. The call
returns 0 and thread 1 gets status 128; the main thread gets status 1, has `blocked_by` cleared
and is inserted at the tail (lines 286-297). But thread 1 is not in the queue, and `TAILQ_REMOVE`
(line 301) writes its stale pointers back: `tqh_first` becomes thread 2, whose context has been
released. The Ready Queue is `[2]`: neither the woken main thread nor the caller is in it,
`wut_id` returns 2 and a `wut_yield` of thread 3 returns -1, so the join of the main thread never
returns. -/
theorem cancel_of_blocked_target_loses_waiter :
    queue_is (state_after [Op.create 0, Op.create 0, Op.create 0, Op.join 1, Op.join 3,
      Op.yield, Op.cancel 2]) [3] ∧
    wut_id (state_after [Op.create 0, Op.create 0, Op.create 0, Op.join 1, Op.join 3,
      Op.yield, Op.cancel 2]) = 3 ∧
    (state_after [Op.create 0, Op.create 0, Op.create 0, Op.join 1, Op.join 3,
      Op.yield, Op.cancel 2]).context 0 = some (Resume.in_join 1) ∧
    (state_after [Op.create 0, Op.create 0, Op.create 0, Op.join 1, Op.join 3,
      Op.yield, Op.cancel 2]).status 0 = 2 ∧
    (state_after [Op.create 0, Op.create 0, Op.create 0, Op.join 1, Op.join 3,
      Op.yield, Op.cancel 2]).blocked_by 0 = 1 ∧
    (state_after [Op.create 0, Op.create 0, Op.create 0, Op.join 1, Op.join 3,
      Op.yield, Op.cancel 2]).blocking 1 = 0 ∧
    (state_after [Op.create 0, Op.create 0, Op.create 0, Op.join 1, Op.join 3,
      Op.yield, Op.cancel 2]).context 1 = some (Resume.in_join 3) ∧
    (state_after [Op.create 0, Op.create 0, Op.create 0, Op.join 1, Op.join 3,
      Op.yield, Op.cancel 2]).context 2 = none ∧
    (run (Outcome.ret 0 wut_init) [Op.create 0, Op.create 0, Op.create 0, Op.join 1, Op.join 3,
      Op.yield, Op.cancel 2, Op.cancel 1]).value = some 0 ∧
    (state_after [Op.create 0, Op.create 0, Op.create 0, Op.join 1, Op.join 3,
      Op.yield, Op.cancel 2, Op.cancel 1]).status 1 = 128 ∧
    (state_after [Op.create 0, Op.create 0, Op.create 0, Op.join 1, Op.join 3,
      Op.yield, Op.cancel 2, Op.cancel 1]).status 0 = 1 ∧
    (state_after [Op.create 0, Op.create 0, Op.create 0, Op.join 1, Op.join 3,
      Op.yield, Op.cancel 2, Op.cancel 1]).blocked_by 0 = -1 ∧
    ready_queue (state_after [Op.create 0, Op.create 0, Op.create 0, Op.join 1, Op.join 3,
      Op.yield, Op.cancel 2, Op.cancel 1]) = [2] ∧
    wut_id (state_after [Op.create 0, Op.create 0, Op.create 0, Op.join 1, Op.join 3,
      Op.yield, Op.cancel 2, Op.cancel 1]) = 2 ∧
    (wut_yield (state_after [Op.create 0, Op.create 0, Op.create 0, Op.join 1, Op.join 3,
      Op.yield, Op.cancel 2, Op.cancel 1])).value = some (-1) := by
  decide

/-! ## C4 -/

/-- The part of C4 that the code keeps: a join on an entry that has exited with a status other
than 128, is not blocked and still has its context returns that status without touching the
queue, releases the context and decrements the counter by one. -/
theorem wut_join_exited_spec (s : State) (id : Int) (t : Nat)
    (hid : wut_list_at s.wut_list id = some (some t)) (hne : id ≠ wut_id s)
    (hex : s.exited t = 1) (h128 : s.status t ≠ 128) (hbb : s.blocked_by t = -1)
    (hc : s.context t ≠ none) :
    wut_join s id = Outcome.ret (s.status t)
      { s with context := put s.context t none
               wut_thread_counter := s.wut_thread_counter - 1 } := by
  have hr := wut_list_at_range hid
  have h1 : ¬ (id < 0 ∨ id ≥ wut_list_size s ∨ id = wut_id s) := by
    unfold wut_list_size
    omega
  unfold wut_join
  rw [if_neg h1, hid]
  simp [h128, hbb, hc, hex]

/-- C4. Join of an already exited thread, at exit code 128: the main thread creates thread 1 and
yields, thread 1 calls `wut_exit 128` and the main thread runs again. Thread 1 has then exited
with status 128 and still has its context. `wut_join 1` returns 128 without suspending the caller,
but it takes the return of line 339 meant for cancelled threads: the context of thread 1 is not
released and `wut_thread_counter` stays 2. With exit code 7 the same calls release the context and
bring the counter down to 1, and so does the path through `join_return` at exit code 128. -/
theorem join_exited_128_keeps_context :
    (state_after [Op.create 0, Op.yield, Op.exit 128]).exited 1 = 1 ∧
    (state_after [Op.create 0, Op.yield, Op.exit 128]).status 1 = 128 ∧
    (state_after [Op.create 0, Op.yield, Op.exit 128]).context 1 = some Resume.in_exit ∧
    (state_after [Op.create 0, Op.yield, Op.exit 128]).wut_thread_counter = 2 ∧
    wut_id (state_after [Op.create 0, Op.yield, Op.exit 128]) = 0 ∧
    (wut_join (state_after [Op.create 0, Op.yield, Op.exit 128]) 1).value = some 128 ∧
    (state_after [Op.create 0, Op.yield, Op.exit 128, Op.join 1]).context 1
      = some Resume.in_exit ∧
    (state_after [Op.create 0, Op.yield, Op.exit 128, Op.join 1]).wut_thread_counter = 2 ∧
    (wut_join (state_after [Op.create 0, Op.yield, Op.exit 7]) 1).value = some 7 ∧
    (state_after [Op.create 0, Op.yield, Op.exit 7, Op.join 1]).context 1 = none ∧
    (state_after [Op.create 0, Op.yield, Op.exit 7, Op.join 1]).wut_thread_counter = 1 ∧
    (run (Outcome.ret 0 wut_init) [Op.create 0, Op.join 1, Op.exit 128]).value = some 128 ∧
    (state_after [Op.create 0, Op.join 1, Op.exit 128]).context 1 = none ∧
    (state_after [Op.create 0, Op.join 1, Op.exit 128]).wut_thread_counter = 1 := by
  decide

/-! ## C5 -/

/-- C5. A join that returns before its target has finished: the main thread (id 0) creates the
threads 1 and 2 and calls `wut_join 2`; thread 1 runs and calls `wut_join 2` as well, which is
accepted and unlinks the main thread; thread 2 runs and calls `wut_join 0`, which is accepted
because `blocked_by` of the main thread was cleared, puts the main thread back in the queue and
switches to it. The main thread continues after its `swapcontext` in `wut_join 2`: the call
returns 2, the `status` of thread 2, which is Blocked and has not exited, and the context of
thread 2 is released. -/
theorem join_returns_before_target_finishes :
    (state_after [Op.create 0, Op.create 0, Op.join 2, Op.join 2]).context 0
      = some (Resume.in_join 2) ∧
    wut_id (state_after [Op.create 0, Op.create 0, Op.join 2, Op.join 2]) = 2 ∧
    (wut_join (state_after [Op.create 0, Op.create 0, Op.join 2, Op.join 2]) 0).target
      = some 0 ∧
    (step (state_after [Op.create 0, Op.create 0, Op.join 2, Op.join 2]) (Op.join 0)).value
      = some 2 ∧
    (state_after [Op.create 0, Op.create 0, Op.join 2, Op.join 2, Op.join 0]).status 2 = 2 ∧
    (state_after [Op.create 0, Op.create 0, Op.join 2, Op.join 2, Op.join 0]).exited 2 = 0 ∧
    (state_after [Op.create 0, Op.create 0, Op.join 2, Op.join 2, Op.join 0]).context 2 = none ∧
    wut_id (state_after [Op.create 0, Op.create 0, Op.join 2, Op.join 2, Op.join 0]) = 0 := by
  decide

/-! ## C6 -/

/-- C6. Self-operations rejected: in every state, `wut_join` and `wut_cancel` called with the
id that `wut_id` returns (the id of the running head of the Ready Queue) return -1 and leave the
whole state as it was. -/
theorem self_operations_rejected (s : State) :
    wut_join s (wut_id s) = Outcome.ret (-1) s ∧ wut_cancel s (wut_id s) = Outcome.ret (-1) s := by
  simp [wut_join, wut_cancel]


/-! ## C7 -/

/-- C7. Round-robin fairness: let the Ready Queue be `t0 :: t1 :: L` (at least two threads), the
head `t0` running and every other thread new or saved in `wut_yield`. One `wut_yield` by `t0`
switches to `t1`, turns the queue into `t1 :: L ++ [t0]` with `t1` Running (status 0) and `t0`
Ready (status 1), and returns 0 to `t0` when `t0` is switched to again. After `i` successive
yields, each made by the thread running then, the queue is the original one rotated by `i` with
its head Running, for every `i` up to the number `k` of threads, so that every thread runs once,
in queue order; after `k` yields the original order is restored, `t0` runs again and its
`wut_yield` has returned 0. -/
theorem round_robin (s : State) (t0 t1 : Nat) (L : List Nat)
    (hq : queue_is s (t0 :: t1 :: L)) (h0 : s.context t0 ≠ none)
    (hL : ∀ a ∈ t1 :: L,
      s.context a = some Resume.start ∨ s.context a = some Resume.in_yield) :
    (∃ s1, wut_yield s = Outcome.switch t1 s1 ∧ queue_is s1 (t1 :: L ++ [t0]) ∧
      s1.status t1 = 0 ∧ s1.status t0 = 1 ∧ s1.context t0 = some Resume.in_yield ∧
      ∀ s2 : State, s2.context t0 = some Resume.in_yield → (resume s2 t0).value = some 0) ∧
    (∀ i, i ≤ L.length + 2 →
      ∃ si, (run (Outcome.ret 0 s) (List.replicate i Op.yield)).state = some si ∧
        queue_is si ((t0 :: t1 :: L).rotate i) ∧
        (0 < i → ∀ a, ((t0 :: t1 :: L).rotate i).head? = some a → si.status a = 0)) ∧
    (∃ sk, run (Outcome.ret 0 s) (List.replicate (L.length + 2) Op.yield) = Outcome.ret 0 sk ∧
      queue_is sk (t0 :: t1 :: L) ∧ sk.status t0 = 0) := by
  have ht1 : s.context t1 ≠ none := by
    rcases hL t1 (by simp) with e | e <;> simp [e]
  have ht0 : t1 ≠ t0 := fun e => (List.nodup_cons.1 hq.2).1 (by simp [e])
  -- all `k` yields
  have full : ∃ sk, run (Outcome.ret 0 s) (List.replicate (L.length + 2) Op.yield)
      = Outcome.ret 0 sk ∧ queue_is sk (t0 :: t1 :: L) ∧ sk.status t0 = 0 := by
    obtain ⟨o1, s1, hr1, hs1, hq1, hh1, htl1, _, hP1, _⟩ :=
      yield_rounds [t0] s (t1 :: L) (Outcome.ret 0 s) rfl (by simp) hq
        (by intro a ha; simp at ha; subst ha; exact h0)
        (by intro a ha; exact hL a (by simpa using ha))
    obtain ⟨o2, s2, hr2, hs2, hq2, _, _, hhead2, _, _⟩ :=
      yield_rounds (t1 :: L) s1 [t0] o1 hs1 (by simp) hq1 hh1 htl1
    obtain ⟨hst, hret⟩ := hhead2 (by simp) t0 rfl
    have hret' := hret (hP1 t0 (by simp))
    refine ⟨s2, ?_, by simpa using hq2, hst⟩
    have : List.replicate (L.length + 2) Op.yield
        = List.replicate [t0].length Op.yield ++ List.replicate (t1 :: L).length Op.yield := by
      rw [← List.replicate_add]
      congr 1
      simp
      omega
    rw [this, run_append, hr1, hr2, hret']
  refine ⟨?_, ?_, full⟩
  · obtain ⟨s1, h1, h2, h3, h4, _⟩ := wut_yield_spec s t0 t1 L hq h0 ht1
    refine ⟨s1, h1, h2, by simp [h3], by simp [h3, ht0.symm], by simp [h4], ?_⟩
    intro s2 h
    simp [resume, h, Outcome.value]
  · intro i hi
    rcases Nat.lt_or_ge i (L.length + 2) with hlt | hge
    · have hlen : (t0 :: t1 :: L).length = L.length + 2 := by simp
      have hdrop : (t0 :: t1 :: L).drop i ≠ [] := by
        intro e
        have := congrArg List.length e
        simp at this
        omega
      have happ : (t0 :: t1 :: L).take i ++ (t0 :: t1 :: L).drop i = t0 :: t1 :: L :=
        List.take_append_drop i _
      have htake : ((t0 :: t1 :: L).take i).length = i := by
        rw [List.length_take, hlen]; omega
      obtain ⟨o, si, hr, hs, hqi, _, _, hhead, _, _⟩ :=
        yield_rounds ((t0 :: t1 :: L).take i) s ((t0 :: t1 :: L).drop i) (Outcome.ret 0 s) rfl
          hdrop (by rw [happ]; exact hq)
          (by rw [happ]; intro a ha; simp at ha; subst ha; exact h0)
          (by rw [happ]; intro a ha; exact hL a (by simpa using ha))
      rw [htake] at hr
      rw [List.rotate_eq_drop_append_take (by rw [hlen]; omega)]
      refine ⟨si, by rw [hr, hs], hqi, ?_⟩
      intro hpos a ha
      have hne : (t0 :: t1 :: L).take i ≠ [] := by
        intro e
        have := congrArg List.length e
        rw [htake] at this
        simp at this
        omega
      have ha' : ((t0 :: t1 :: L).drop i).head? = some a := by
        cases hd : (t0 :: t1 :: L).drop i with
        | nil => exact absurd hd hdrop
        | cons x X => rw [hd] at ha; simpa using ha
      exact (hhead hne a ha').1
    · have hi' : i = (t0 :: t1 :: L).length := by simp; omega
      obtain ⟨sk, h1, h2, h3⟩ := full
      refine ⟨sk, ?_, ?_, ?_⟩
      · have : i = L.length + 2 := by omega
        rw [this, h1]; rfl
      · rw [hi', List.rotate_length]; exact h2
      · intro _ a ha
        rw [hi', List.rotate_length] at ha
        simp at ha
        rw [← ha]; exact h3

/-- Witness of `round_robin`: the main thread and two threads it created; three yields bring
the queue back to `[0, 1, 2]` with the main thread running. -/
theorem round_robin_witness :
    queue_is (state_after [Op.create 0, Op.create 0]) [0, 1, 2] ∧
    ∃ sk, run (Outcome.ret 0 (state_after [Op.create 0, Op.create 0]))
        (List.replicate 3 Op.yield) = Outcome.ret 0 sk ∧
      queue_is sk [0, 1, 2] ∧ sk.status 0 = 0 :=
  ⟨by decide,
    (round_robin (state_after [Op.create 0, Op.create 0]) 0 1 [2] (by decide) (by decide)
      (by decide)).2.2⟩


/-! ## C8 -/

/-- The part of C8 that the code keeps, for a caller that is the head of the queue: when the
running head `cur` of a well-formed queue calls `wut_exit code`, the call does not fault and the state it leaves has `status = code mod 256`
(a value in `0..255`) and `exited = 1` for `cur`; a thread saved in `wut_join` on `cur` that is
switched to while that status is in place gets `code mod 256` from its `wut_join`, and so does a
later `wut_join` call of the running thread that finds `cur` exited. -/
theorem exit_low_byte (s : State) (code : Int) (cur : Nat) (L : List Nat)
    (hq : queue_is s (cur :: L)) (hst : s.status cur = 0)
    (hctx : ∀ a ∈ cur :: L, s.context a ≠ none)
    (hw : s.blocking cur = -1 ∨ ∃ w, wut_list_at s.wut_list (s.blocking cur) = some (some w) ∧
      w ∉ cur :: L ∧ s.context w ≠ none) :
    ∃ s', (wut_exit s code).after = some s' ∧
      s'.status cur = code % 256 ∧ s'.exited cur = 1 ∧ 0 ≤ code % 256 ∧ code % 256 < 256 ∧
      (∀ (s2 : State) (j : Nat), s2.context j = some (Resume.in_join cur) → j ≠ cur →
        s2.status cur = s'.status cur → s2.context cur ≠ none →
        (resume s2 j).value = some (code % 256)) ∧
      (∀ (s2 : State) (id : Int), wut_list_at s2.wut_list id = some (some cur) → id ≠ wut_id s2 →
        s2.status cur = s'.status cur → s2.exited cur = s'.exited cur → s2.blocked_by cur = -1 →
        s2.context cur ≠ none → (wut_join s2 id).value = some (code % 256)) := by
  have hf := queue_is_first s cur L hq
  have hcc := hctx cur (by simp)
  -- the recorded status and flag
  have key : ∃ s', (wut_exit s code).after = some s' ∧ s'.status cur = code % 256 ∧
      s'.exited cur = 1 := by
    rcases hw with hb | ⟨w, hw, hwq, hwc⟩
    · rw [wut_exit_no_waiter s code cur hf hst hb]
      have hq1 : queue_is { s with status := put s.status cur (code % 256) } (cur :: L) :=
        queue_is_congr hq _ rfl rfl rfl rfl
      cases L with
      | nil =>
        obtain ⟨s', h1, _, h2, h3⟩ := exit_leave_halt _ cur hq1
        exact ⟨s', by rw [h1]; rfl, by simp [h2], by simp [h3]⟩
      | cons n L =>
        have hncur : n ≠ cur := fun e => (List.nodup_cons.1 hq.2).1 (by simp [e])
        obtain ⟨s', h1, _, h2, h3, _⟩ := exit_leave_switch _ cur n L hq1
          (by simpa using hcc) (by simpa using hctx n (by simp))
        exact ⟨s', by rw [h1]; rfl, by simp [h2, hncur.symm], by simp [h3]⟩
    · have hb : s.blocking cur ≠ -1 := by
        intro e
        rw [e] at hw
        have := (wut_list_at_range hw).1
        omega
      have hwcur : w ≠ cur := fun e => hwq (by simp [e])
      rw [wut_exit_waiter s code cur w hf hst hb hw]
      have hq1 : queue_is { s with status := put (put s.status cur (code % 256)) w 1,
                                   blocking := put s.blocking cur (-1),
                                   blocked_by := put s.blocked_by w (-1) } (cur :: L) :=
        queue_is_congr hq _ rfl rfl rfl rfl
      have hq2 := queue_is_insert_tail _ _ w hq1 hwq
      obtain ⟨n, R, hR⟩ : ∃ n R, L ++ [w] = n :: R := by
        cases L with
        | nil => exact ⟨w, [], rfl⟩
        | cons a L => exact ⟨a, L ++ [w], rfl⟩
      rw [List.cons_append, hR] at hq2
      have hnmem : n ∈ L ++ [w] := by rw [hR]; simp
      have hncur : n ≠ cur := fun e => (List.nodup_cons.1 hq2.2).1 (by simp [e])
      have hcn : s.context n ≠ none := by
        rcases List.mem_append.1 hnmem with h | h
        · exact hctx n (by simp [h])
        · simp at h; rw [h]; exact hwc
      obtain ⟨s', h1, _, h2, h3, _⟩ := exit_leave_switch _ cur n R hq2
        (by simpa using hcc) (by simpa using hcn)
      exact ⟨s', by rw [h1]; rfl, by simp [h2, hncur.symm, hwcur.symm], by simp [h3]⟩
  obtain ⟨s', h1, h2, h3⟩ := key
  refine ⟨s', h1, h2, h3, Int.emod_nonneg _ (by norm_num), Int.emod_lt_of_pos _ (by norm_num),
    ?_, ?_⟩
  · intro s2 j hj hjc hs hc
    unfold resume
    rw [hj]
    simp only []
    rw [join_return_spec s2 j cur hjc hc, Outcome.value, hs, h2]
  · intro s2 id hid hne hs he hbb hc
    rw [wut_join_exited_value s2 id cur hid hne (by rw [he, h3]) hbb hc, hs, h2]


/-- Witness of `exit_low_byte`: thread 1, created by the main thread and joined by it, calls
`wut_exit 300`; its recorded status is 44 and the join of the main thread returns 44; with
`wut_exit 256` the join returns 0. -/
theorem exit_low_byte_witness :
    (∃ s', (wut_exit (state_after [Op.create 0, Op.join 1]) 300).after = some s' ∧
      s'.status 1 = 44 ∧ s'.exited 1 = 1) ∧
    (run (Outcome.ret 0 wut_init) [Op.create 0, Op.join 1, Op.exit 300]).value = some 44 ∧
    (run (Outcome.ret 0 wut_init) [Op.create 0, Op.join 1, Op.exit 256]).value = some 0 := by
  refine ⟨?_, by decide, by decide⟩
  obtain ⟨s', h1, h2, h3, _⟩ := exit_low_byte (state_after [Op.create 0, Op.join 1]) 300 1 []
    (by decide) (by decide) (by decide) (Or.inr ⟨0, by decide, by decide, by decide⟩)
  exact ⟨s', h1, by rw [h2]; decide, h3⟩

/-- C8. An exit whose code is not recorded: the main thread (id 0) creates the threads 1 and 2
and calls `wut_join 1`; thread 1 runs and yields; thread 2 runs and calls `wut_cancel 0`, whose
`TAILQ_REMOVE` of the main thread, which is not in the queue, leaves the queue `[1]` (line 311).
Thread 2 goes on running, with status 0 and `exited = 0`, and calls `wut_exit 7`. The function
takes the head of the queue, thread 1, for the current thread (line 498), finds its status
different from 0 (line 502), skips the body and returns, as the queue is not empty: no status is
recorded, thread 2 still has status 0 and `exited = 0`, and thread 1 is unchanged. -/
theorem exit_off_the_head_records_nothing :
    ready_queue (state_after [Op.create 0, Op.create 0, Op.join 1, Op.yield, Op.cancel 0])
      = [1] ∧
    (state_after [Op.create 0, Op.create 0, Op.join 1, Op.yield, Op.cancel 0]).status 2 = 0 ∧
    (state_after [Op.create 0, Op.create 0, Op.join 1, Op.yield, Op.cancel 0]).exited 2 = 0 ∧
    (state_after [Op.create 0, Op.create 0, Op.join 1, Op.yield, Op.cancel 0]).context 2
      = some Resume.start ∧
    (state_after [Op.create 0, Op.create 0, Op.join 1, Op.yield, Op.cancel 0]).status 1 = 1 ∧
    (wut_exit (state_after [Op.create 0, Op.create 0, Op.join 1, Op.yield, Op.cancel 0])
      7).value = some 0 ∧
    (state_after
      [Op.create 0, Op.create 0, Op.join 1, Op.yield, Op.cancel 0, Op.exit 7]).status 2 = 0 ∧
    (state_after
      [Op.create 0, Op.create 0, Op.join 1, Op.yield, Op.cancel 0, Op.exit 7]).exited 2 = 0 ∧
    (state_after
      [Op.create 0, Op.create 0, Op.join 1, Op.yield, Op.cancel 0, Op.exit 7]).status 1 = 1 ∧
    (state_after
      [Op.create 0, Op.create 0, Op.join 1, Op.yield, Op.cancel 0, Op.exit 7]).exited 1 = 0 ∧
    ready_queue (state_after
      [Op.create 0, Op.create 0, Op.join 1, Op.yield, Op.cancel 0, Op.exit 7]) = [1] := by
  decide

/-! ## C9 -/

/-- C9. Resource reclamation, for one thread (N = 1) with exit code 128: `wut_thread_counter` is 1
after `wut_init`; the main thread creates thread 1 (counter 2) and yields, thread 1 terminates
through `wut_exit 128`, and the main thread joins it once: the join returns 128, the counter is
still 2 and thread 1 still holds its context. -/
theorem reclamation_leaks_exit_128 :
    wut_init.wut_thread_counter = 1 ∧
    (run (Outcome.ret 0 wut_init) [Op.create 0]).value = some 1 ∧
    (state_after [Op.create 0]).wut_thread_counter = 2 ∧
    (run (Outcome.ret 0 wut_init) [Op.create 0, Op.yield, Op.exit 128, Op.join 1]).value
      = some 128 ∧
    (state_after [Op.create 0, Op.yield, Op.exit 128, Op.join 1]).wut_thread_counter = 2 ∧
    (state_after [Op.create 0, Op.yield, Op.exit 128, Op.join 1]).context 1 ≠ none ∧
    (state_after [Op.create 0, Op.yield, Op.exit 128, Op.join 1]).wut_list
      = [some 0, some 1, none, none, none] := by
  decide

/-! ## C10 -/
/-- The part of C10 that the code keeps: `wut_cancel` returns -1 exactly when the id is out of
range, is the id of the running head, names a slot that was never used or names a thread whose
context has been released; the state is then unchanged. -/
theorem wut_cancel_rejects_iff (s : State) (id : Int) :
    (wut_cancel s id).value = some (-1) ↔
      (id < 0 ∨ id ≥ wut_list_size s ∨ id = wut_id s ∨
        wut_list_at s.wut_list id = some none ∨
        ∃ t, wut_list_at s.wut_list id = some (some t) ∧ s.context t = none) := by
  unfold wut_cancel
  by_cases h1 : id < 0 ∨ id ≥ wut_list_size s ∨ id = wut_id s
  · rw [if_pos h1]
    simp only [Outcome.value, true_iff]
    rcases h1 with h | h | h
    · exact Or.inl h
    · exact Or.inr (Or.inl h)
    · exact Or.inr (Or.inr (Or.inl h))
  · rw [if_neg h1]
    have h1' : ¬ id < 0 ∧ ¬ id ≥ wut_list_size s ∧ ¬ id = wut_id s := by
      simpa [not_or] using h1
    cases hl : wut_list_at s.wut_list id with
    | none => simp [Outcome.value, h1'.1, h1'.2.1, h1'.2.2]
    | some x =>
      cases x with
      | none => simp [Outcome.value]
      | some t =>
        simp only []
        by_cases hc : s.context t = none
        · rw [if_pos hc]
          simp [Outcome.value, hc]
        · rw [if_neg hc]
          have hrhs : ¬ (id < 0 ∨ id ≥ wut_list_size s ∨ id = wut_id s ∨
              some (some t) = some none ∨
              ∃ t', some (some t) = some (some t') ∧ s.context t' = none) := by
            intro h
            rcases h with h | h | h | h | ⟨t', h, h'⟩
            · exact h1'.1 h
            · exact h1'.2.1 h
            · exact h1'.2.2 h
            · cases h
            · cases h; exact hc h'
          refine iff_of_false ?_ hrhs
          cases unlink_blocked_by s t with
          | none => simp [Outcome.value]
          | some s1 =>
            simp only []
            by_cases hb : s1.blocking t ≠ -1
            · rw [if_pos hb]
              cases cancel_wake s1 (s1.blocking t) <;> simp [Outcome.value]
            · rw [if_neg hb]
              simp [Outcome.value]

theorem wut_cancel_rejects_state (s : State) (id : Int)
    (h : (wut_cancel s id).value = some (-1)) : wut_cancel s id = Outcome.ret (-1) s := by
  have h' := (wut_cancel_rejects_iff s id).1 h
  unfold wut_cancel
  by_cases h1 : id < 0 ∨ id ≥ wut_list_size s ∨ id = wut_id s
  · rw [if_pos h1]
  · rw [if_neg h1]
    rcases h' with h' | h' | h' | h' | ⟨t, h', hc⟩
    · exact absurd (Or.inl h') h1
    · exact absurd (Or.inr (Or.inl h')) h1
    · exact absurd (Or.inr (Or.inr h')) h1
    · rw [h']
    · rw [h']
      simp [hc]

/-- C10. Cancelling a thread that is blocked in a join: the main thread (id 0) creates the
threads 1 and 2 and yields, thread 1 calls `wut_join 2` and leaves the queue, thread 2 yields and
the main thread runs again as the head of the queue `[0, 2]`. Its call `wut_cancel 1` (an id in
range, not its own, of a live thread) returns 0, but `TAILQ_REMOVE` is applied to thread 1, which
is not in the queue, and writes its stale pointers back: the queue becomes `[2]`, the calling
thread is no longer its head and `wut_id` returns 2. -/
theorem cancel_of_blocked_thread_drops_caller :
    ready_queue (state_after [Op.create 0, Op.create 0, Op.yield, Op.join 2, Op.yield])
      = [0, 2] ∧
    wut_id (state_after [Op.create 0, Op.create 0, Op.yield, Op.join 2, Op.yield]) = 0 ∧
    (state_after [Op.create 0, Op.create 0, Op.yield, Op.join 2, Op.yield]).status 1 = 2 ∧
    (state_after [Op.create 0, Op.create 0, Op.yield, Op.join 2, Op.yield]).context 1
      = some (Resume.in_join 2) ∧
    (wut_cancel (state_after [Op.create 0, Op.create 0, Op.yield, Op.join 2, Op.yield]) 1).value
      = some 0 ∧
    ready_queue
      (state_after [Op.create 0, Op.create 0, Op.yield, Op.join 2, Op.yield, Op.cancel 1])
      = [2] ∧
    wut_id (state_after [Op.create 0, Op.create 0, Op.yield, Op.join 2, Op.yield, Op.cancel 1])
      = 2 ∧
    (state_after [Op.create 0, Op.create 0, Op.yield, Op.join 2, Op.yield, Op.cancel 1]).status 1
      = 128 := by
  decide

/-! ## C11 -/

/-- C11. Single-thread yield is an error: when the Ready Queue holds exactly one thread, or no
thread at all, `wut_yield` returns -1 without a `swapcontext` and leaves the whole state as it
was, so the caller stays the Running head. -/
theorem yield_alone_fails (s : State) (h : queue_is s [] ∨ ∃ c, queue_is s [c]) :
    wut_yield s = Outcome.ret (-1) s := by
  rcases h with h | ⟨c, h⟩
  · have hf := queue_is_nil_first s h
    simp [wut_yield, TAILQ_FIRST, hf]
  · have hf := queue_is_first s c [] h
    have hn : s.tqe_next c = none := by simpa using queue_is_next s c [] h
    simp [wut_yield, TAILQ_FIRST, hf, TAILQ_NEXT, hn]

/-- Witness of `yield_alone_fails`: after `wut_init` the main thread is alone in the queue and its
yield fails, with status 0 and the queue kept. -/
theorem yield_alone_fails_witness :
    queue_is wut_init [0] ∧ wut_yield wut_init = Outcome.ret (-1) wut_init ∧
    wut_init.status 0 = 0 :=
  ⟨by decide, yield_alone_fails wut_init (Or.inr ⟨0, by decide⟩), by decide⟩

/-! ## C14 -/

/-- The part of C14 that the code keeps, when the threads involved have their contexts: let `e`
be the Running head (status 0) of a well-formed Ready Queue `e :: L` of threads with contexts. `wut_exit code` removes `e` from the queue and
records it as exited with status `code mod 256`. If nobody is joined on `e`: with `L` empty the
process terminates, otherwise the head of `L` gets status 0 and control switches to it. If the
thread `w`, outside the queue, is registered as joined on `e`: `w` has `blocked_by` cleared and is
appended at the tail, the head of `L ++ [w]` gets status 0 and control switches to it, `w` being
Ready (status 1) unless it is that head. In no case does the call return to `e`. -/
theorem exit_transition (s : State) (code : Int) (e : Nat) (L : List Nat)
    (hq : queue_is s (e :: L)) (hst : s.status e = 0) (hctx : ∀ a ∈ e :: L, s.context a ≠ none) :
    (s.blocking e = -1 →
      (L = [] → ∃ s', wut_exit s code = Outcome.halt s' ∧ queue_is s' [] ∧
        s'.exited e = 1 ∧ s'.status e = code % 256) ∧
      (∀ n T, L = n :: T → ∃ s', wut_exit s code = Outcome.switch n s' ∧ queue_is s' (n :: T) ∧
        e ∉ n :: T ∧ s'.status n = 0 ∧ s'.exited e = 1 ∧ s'.status e = code % 256 ∧
        s'.context e = some Resume.in_exit)) ∧
    (∀ w, wut_list_at s.wut_list (s.blocking e) = some (some w) → w ∉ e :: L →
      s.context w ≠ none →
      ∃ n s', wut_exit s code = Outcome.switch n s' ∧ (L ++ [w]).head? = some n ∧
        queue_is s' (L ++ [w]) ∧ e ∉ L ++ [w] ∧ s'.status n = 0 ∧ (w ≠ n → s'.status w = 1) ∧
        s'.blocked_by w = -1 ∧ s'.blocking e = -1 ∧ s'.exited e = 1 ∧
        s'.status e = code % 256 ∧ s'.context e = some Resume.in_exit) := by
  have hf := queue_is_first s e L hq
  have heL : e ∉ L := (List.nodup_cons.1 hq.2).1
  constructor
  · intro hb
    have hq1 : queue_is { s with status := put s.status e (code % 256) } (e :: L) :=
      queue_is_congr hq _ rfl rfl rfl rfl
    rw [wut_exit_no_waiter s code e hf hst hb]
    constructor
    · intro hL
      subst hL
      obtain ⟨s', h1, h2, h3, h4⟩ := exit_leave_halt _ e hq1
      exact ⟨s', h1, h2, by simp [h4], by simp [h3]⟩
    · intro n T hL
      subst hL
      have hne : n ≠ e := fun h => heL (by simp [h])
      obtain ⟨s', h1, h2, h3, h4, h5, _⟩ := exit_leave_switch _ e n T hq1
        (by simpa using hctx e (by simp)) (by simpa using hctx n (by simp))
      exact ⟨s', h1, h2, heL, by simp [h3], by simp [h4], by simp [h3, hne.symm],
        by simp [h5]⟩
  · intro w hw hwq hcw
    have hwe : w ≠ e := fun h => hwq (by simp [h])
    obtain ⟨n, s', h1, h2, h3, h4, h5, h6, h7, h8, _⟩ :=
      wut_exit_waiter_spec s code e w L hq hst hw hwq hctx hcw
    have hne : n ≠ e := by
      intro h
      have hm : n ∈ L ++ [w] := List.mem_of_mem_head? h2
      rw [h] at hm
      rcases List.mem_append.1 hm with h' | h'
      · exact heL h'
      · simp at h'; exact hwe h'.symm
    refine ⟨n, s', h1, h2, h3, ?_, by simp [h4], ?_, by simp [h7], by simp [h6],
      by simp [h5], by simp [h4, hne.symm, hwe.symm], by simp [h8]⟩
    · intro hm
      rcases List.mem_append.1 hm with h' | h'
      · exact heL h'
      · simp at h'; exact hwe h'.symm
    · intro hwn
      simp [h4, hwn]

/-- Witness of `exit_transition`: thread 1, created and joined by the main thread, is the Running
head of the queue `[1]` and exits; the main thread is appended and switched to. -/
theorem exit_transition_witness :
    queue_is (state_after [Op.create 0, Op.join 1]) [1] ∧
    ∃ n s', wut_exit (state_after [Op.create 0, Op.join 1]) 7 = Outcome.switch n s' ∧
      ([] ++ [0]).head? = some n ∧ queue_is s' ([] ++ [0]) ∧ s'.exited 1 = 1 ∧
      s'.status 1 = 7 % 256 := by
  refine ⟨by decide, ?_⟩
  obtain ⟨n, s', h1, h2, h3, _, _, _, _, _, h4, h5, _⟩ :=
    (exit_transition (state_after [Op.create 0, Op.join 1]) 7 1 [] (by decide) (by decide)
      (by decide)).2 0 (by decide) (by decide) (by decide)
  exact ⟨n, s', h1, h2, h3, h4, h5⟩

/-- C14. An exit of the Running head that does not switch: the main thread (id 0) creates the
threads 1 and 2 and calls `wut_join 2`; thread 1 runs and calls `wut_join 2`; thread 2 runs and
calls `wut_join 0`, which puts the main thread back in the queue and switches to it; the join of
the main thread returns 2 and releases the context of thread 2, which is Blocked in its join on
the main thread. Now the main thread is the Running head of the well-formed queue `[0]`, with
status 0, and thread 2 is joined on it (`blocking` of the main thread is 2). It calls
`wut_exit 7`: thread 2 is appended at the tail and becomes the next thread (lines 507-531), and
line 541 passes its context, which is `NULL`, to `swapcontext`: control does not switch to the
new head. -/
theorem exit_with_reclaimed_joiner :
    (run (Outcome.ret 0 wut_init)
      [Op.create 0, Op.create 0, Op.join 2, Op.join 2, Op.join 0]).value = some 2 ∧
    queue_is (state_after [Op.create 0, Op.create 0, Op.join 2, Op.join 2, Op.join 0]) [0] ∧
    wut_id (state_after [Op.create 0, Op.create 0, Op.join 2, Op.join 2, Op.join 0]) = 0 ∧
    (state_after [Op.create 0, Op.create 0, Op.join 2, Op.join 2, Op.join 0]).status 0 = 0 ∧
    (state_after [Op.create 0, Op.create 0, Op.join 2, Op.join 2, Op.join 0]).blocking 0 = 2 ∧
    (state_after [Op.create 0, Op.create 0, Op.join 2, Op.join 2, Op.join 0]).wut_list
      = [some 0, some 1, some 2, none, none] ∧
    (state_after [Op.create 0, Op.create 0, Op.join 2, Op.join 2, Op.join 0]).status 2 = 2 ∧
    (state_after [Op.create 0, Op.create 0, Op.join 2, Op.join 2, Op.join 0]).blocked_by 2
      = 0 ∧
    (state_after [Op.create 0, Op.create 0, Op.join 2, Op.join 2, Op.join 0]).exited 2 = 0 ∧
    (state_after [Op.create 0, Op.create 0, Op.join 2, Op.join 2, Op.join 0]).context 2
      = none ∧
    (wut_exit (state_after [Op.create 0, Op.create 0, Op.join 2, Op.join 2, Op.join 0])
      7).target = none ∧
    (wut_exit (state_after [Op.create 0, Op.create 0, Op.join 2, Op.join 2, Op.join 0])
      7).faults = true := by
  decide

/-! ## C15 -/

/-- C15. A second reclamation that is attempted: the main thread (id 0) creates the threads 1
and 2 and calls `wut_join 1`; thread 1 runs and calls `wut_exit 7`, which puts the main thread
back in the queue; thread 2 runs and calls `wut_join 1`, which finds thread 1 exited, returns 7,
releases the context of thread 1 and decrements the counter to 2. Thread 2 yields and the main
thread continues after its `swapcontext` in `wut_join 1`: it reaches lines 437-442 for thread 1,
whose context is `NULL` by now, and dereferences it. -/
theorem join_return_after_release :
    (state_after [Op.create 0, Op.create 0, Op.join 1, Op.exit 7]).context 0
      = some (Resume.in_join 1) ∧
    wut_id (state_after [Op.create 0, Op.create 0, Op.join 1, Op.exit 7]) = 2 ∧
    (state_after [Op.create 0, Op.create 0, Op.join 1, Op.exit 7]).wut_thread_counter = 3 ∧
    (wut_join (state_after [Op.create 0, Op.create 0, Op.join 1, Op.exit 7]) 1).value
      = some 7 ∧
    (state_after [Op.create 0, Op.create 0, Op.join 1, Op.exit 7, Op.join 1]).context 1
      = none ∧
    (state_after [Op.create 0, Op.create 0, Op.join 1, Op.exit 7, Op.join 1]).wut_thread_counter
      = 2 ∧
    (state_after [Op.create 0, Op.create 0, Op.join 1, Op.exit 7, Op.join 1]).context 0
      = some (Resume.in_join 1) ∧
    (wut_yield (state_after [Op.create 0, Op.create 0, Op.join 1, Op.exit 7, Op.join 1])).target
      = some 0 ∧
    (step (state_after [Op.create 0, Op.create 0, Op.join 1, Op.exit 7, Op.join 1])
      Op.yield).faults = true := by
  decide

/-! ## C16 -/

/-- C16. A state reachable from `wut_init` in which the links are not mutual: after the calls of
`join_returns_before_target_finishes` the main thread has released the context of thread 2, which
is Blocked with `blocked_by = 0` and `blocking = 1`, and the main thread creates a thread. The
new thread takes slot 2 (entry 3) with `blocking = -1` and `blocked_by = -1`, while thread 1 is
still suspended in `wut_join 2` with `blocked_by = 2` and the main thread still has
`blocking = 2`. All three registered threads have a context. -/
theorem links_not_mutual_after_early_join :
    (run (Outcome.ret 0 wut_init)
      [Op.create 0, Op.create 0, Op.join 2, Op.join 2, Op.join 0, Op.create 0]).value
      = some 2 ∧
    (state_after [Op.create 0, Op.create 0, Op.join 2, Op.join 2, Op.join 0, Op.create 0]).wut_list
      = [some 0, some 1, some 3, none, none] ∧
    (state_after
      [Op.create 0, Op.create 0, Op.join 2, Op.join 2, Op.join 0, Op.create 0]).blocked_by 1
      = 2 ∧
    (state_after
      [Op.create 0, Op.create 0, Op.join 2, Op.join 2, Op.join 0, Op.create 0]).blocking 3
      = -1 ∧
    (state_after
      [Op.create 0, Op.create 0, Op.join 2, Op.join 2, Op.join 0, Op.create 0]).blocking 0
      = 2 ∧
    (state_after
      [Op.create 0, Op.create 0, Op.join 2, Op.join 2, Op.join 0, Op.create 0]).blocked_by 3
      = -1 ∧
    (state_after
      [Op.create 0, Op.create 0, Op.join 2, Op.join 2, Op.join 0, Op.create 0]).context 0
      ≠ none ∧
    (state_after
      [Op.create 0, Op.create 0, Op.join 2, Op.join 2, Op.join 0, Op.create 0]).context 1
      = some (Resume.in_join 2) ∧
    (state_after
      [Op.create 0, Op.create 0, Op.join 2, Op.join 2, Op.join 0, Op.create 0]).context 3
      = some Resume.start := by
  decide

/-! ## C17 -/

/-- C17. A Blocked thread in the Ready Queue: the main thread (id 0) creates the threads 1 and 2
and calls `wut_join 1`; thread 1 runs and calls `wut_join 2`; thread 2 runs as the head of the
queue `[2]` and calls `wut_cancel 0`. The main thread is Blocked and not in the queue, and
`TAILQ_REMOVE` (line 311) writes its stale pointers back: the queue becomes `[1, 2]`, whose head
is thread 1, which is Blocked (status 2) and suspended in `wut_join 2`; the call returned 0 to
thread 2, which goes on running. -/
theorem blocked_thread_in_ready_queue :
    ready_queue (state_after [Op.create 0, Op.create 0, Op.join 1, Op.join 2]) = [2] ∧
    wut_id (state_after [Op.create 0, Op.create 0, Op.join 1, Op.join 2]) = 2 ∧
    (run (Outcome.ret 0 wut_init)
      [Op.create 0, Op.create 0, Op.join 1, Op.join 2, Op.cancel 0]).value = some 0 ∧
    ready_queue (state_after [Op.create 0, Op.create 0, Op.join 1, Op.join 2, Op.cancel 0])
      = [1, 2] ∧
    (state_after [Op.create 0, Op.create 0, Op.join 1, Op.join 2, Op.cancel 0]).status 1 = 2 ∧
    (state_after [Op.create 0, Op.create 0, Op.join 1, Op.join 2, Op.cancel 0]).blocked_by 1
      = 2 ∧
    (state_after [Op.create 0, Op.create 0, Op.join 1, Op.join 2, Op.cancel 0]).context 1
      = some (Resume.in_join 2) := by
  decide

/-! ## C18 -/

/-- C18. A Running thread that is not the head of the Ready Queue: the main thread (id 0)
creates the threads 1 and 2 and calls `wut_join 1`; thread 1 runs and yields; thread 2 runs as
the head of the queue `[2, 1]` and calls `wut_cancel 0`. The main thread is Blocked and not in the
queue, and `TAILQ_REMOVE` (line 311) writes its stale pointers back: the queue becomes `[1]`.
The call returned 0 to thread 2, which goes on running with status 0 and `exited = 0`, but the
head of the queue is thread 1, whose status is 1, and `wut_id` returns 1. -/
theorem running_thread_not_head :
    wut_init.tqh_first = some 0 ∧ ready_queue wut_init = [0] ∧ wut_id wut_init = 0 ∧
    ready_queue (state_after [Op.create 0, Op.create 0, Op.join 1, Op.yield]) = [2, 1] ∧
    (run (Outcome.ret 0 wut_init)
      [Op.create 0, Op.create 0, Op.join 1, Op.yield, Op.cancel 0]).value = some 0 ∧
    ready_queue (state_after [Op.create 0, Op.create 0, Op.join 1, Op.yield, Op.cancel 0])
      = [1] ∧
    wut_id (state_after [Op.create 0, Op.create 0, Op.join 1, Op.yield, Op.cancel 0]) = 1 ∧
    (state_after [Op.create 0, Op.create 0, Op.join 1, Op.yield, Op.cancel 0]).status 1 = 1 ∧
    (state_after [Op.create 0, Op.create 0, Op.join 1, Op.yield, Op.cancel 0]).status 2 = 0 ∧
    (state_after [Op.create 0, Op.create 0, Op.join 1, Op.yield, Op.cancel 0]).exited 2 = 0 ∧
    (state_after [Op.create 0, Op.create 0, Op.join 1, Op.yield, Op.cancel 0]).wut_list
      = [some 0, some 1, some 2, none, none] := by
  decide

/-! ## C20 -/

/-- C20. The growth path of `wut_create` does not assign `exited`: with the five slots of the
initial array taken (`wut_init` and four creations), the next creation takes the growth path and
returns id 5; its entry keeps in `exited` whatever `malloc` left there, while the first path
always stores 0. When that value is 1, a `wut_join 5` made right away finds the new thread, which
is Ready, in the queue and has never run, "exited": it returns its status 1 at once and releases
its context. -/
theorem growth_path_leaves_exited :
    (∀ g : Int, (state_after [Op.create g]).exited 1 = 0) ∧
    (∀ g : Int, (state_after
      [Op.create 0, Op.create 0, Op.create 0, Op.create 0, Op.create g]).exited 5 = g) ∧
    (run (Outcome.ret 0 wut_init)
      [Op.create 0, Op.create 0, Op.create 0, Op.create 0, Op.create 1]).value = some 5 ∧
    (state_after
      [Op.create 0, Op.create 0, Op.create 0, Op.create 0, Op.create 1]).status 5 = 1 ∧
    (state_after
      [Op.create 0, Op.create 0, Op.create 0, Op.create 0, Op.create 1]).blocking 5 = -1 ∧
    (state_after
      [Op.create 0, Op.create 0, Op.create 0, Op.create 0, Op.create 1]).blocked_by 5 = -1 ∧
    ready_queue (state_after
      [Op.create 0, Op.create 0, Op.create 0, Op.create 0, Op.create 1]) = [0, 1, 2, 3, 4, 5] ∧
    (wut_join (state_after
      [Op.create 0, Op.create 0, Op.create 0, Op.create 0, Op.create 1]) 5).value = some 1 ∧
    (state_after
      [Op.create 0, Op.create 0, Op.create 0, Op.create 0, Op.create 1, Op.join 5]).context 5
      = none ∧
    ready_queue (state_after
      [Op.create 0, Op.create 0, Op.create 0, Op.create 0, Op.create 1, Op.join 5])
      = [0, 1, 2, 3, 4, 5] := by
  refine ⟨fun g => rfl, fun g => rfl, by decide, by decide, by decide, by decide, by decide,
    by decide, by decide, by decide⟩

/-! ## Invariants of the reachable states -/

theorem mild_refl (s : State) : mild s s :=
  ⟨rfl, rfl, rfl, rfl, fun _ => Iff.rfl, fun _ => Or.inl rfl⟩

theorem mild_trans {s1 s2 s3 : State} (h1 : mild s1 s2) (h2 : mild s2 s3) : mild s1 s3 := by
  obtain ⟨a1, a2, a3, a4, a5, a6⟩ := h1
  obtain ⟨b1, b2, b3, b4, b5, b6⟩ := h2
  refine ⟨b1.trans a1, b2.trans a2, b3.trans a3, b4.trans a4, fun a => (b5 a).trans (a5 a), ?_⟩
  intro a
  rcases b6 a with h | h
  · rcases a6 a with h' | h'
    · exact Or.inl (h.trans h')
    · exact Or.inr (h.trans h')
  · exact Or.inr h

/-- A transition that keeps `id`, `brk`, `wut_list`, the counter, the contexts and `blocked_by`
is mild. -/
theorem mild_of_eq {s s' : State} (h1 : s'.id = s.id) (h2 : s'.brk = s.brk)
    (h3 : s'.wut_list = s.wut_list) (h4 : s'.wut_thread_counter = s.wut_thread_counter)
    (h5 : s'.context = s.context) (h6 : s'.blocked_by = s.blocked_by) : mild s s' :=
  ⟨h1, h2, h3, h4, fun a => by rw [h5], fun a => Or.inl (by rw [h6])⟩

theorem live_count_congr {s s' : State} (h2 : s'.brk = s.brk)
    (h5 : ∀ a, s'.context a = none ↔ s.context a = none) : live_count s' = live_count s := by
  unfold live_count
  rw [h2]
  congr 1
  apply Finset.filter_congr
  intro a _
  exact not_congr (h5 a)

theorem registry_ok_mild {s s' : State} (h : mild s s') (hs : registry_ok s) :
    registry_ok s' := by
  obtain ⟨h1, h2, h3, h4, h5, _⟩ := h
  obtain ⟨i1, i2, i3, i4, i5⟩ := hs
  refine ⟨?_, ?_, ?_, ?_, by rw [h3]; exact i5⟩
  · intro a ha
    rw [h2] at ha
    exact (h5 a).2 (i1 a ha)
  · intro i a hi
    rw [h3] at hi
    rw [h2, h1]
    exact i2 i a hi
  · intro a ha
    rw [h3, h1]
    exact i3 a (fun e => ha ((h5 a).2 e))
  · rw [h4, i4, live_count_congr h2 h5]

theorem waits_on_mild {s s' : State} (h : mild s s') (i j : Int) (hw : waits_on s' i j) :
    waits_on s i j := by
  obtain ⟨_, _, h3, _, _, h6⟩ := h
  obtain ⟨a, ha, hb, hj⟩ := hw
  rw [h3] at ha
  refine ⟨a, ha, ?_, hj⟩
  rcases h6 a with e | e
  · rw [← e]; exact hb
  · rw [e] at hb; exact absurd hb.symm hj

/-- Fewer edges keep the waits-on relation well founded. -/
theorem wf_of_sub {s s' : State} (h : ∀ i j, waits_on s' i j → waits_on s i j)
    (hs : WellFounded (Function.swap (waits_on s))) :
    WellFounded (Function.swap (waits_on s')) :=
  Subrelation.wf (fun {a b} hab => h b a hab) hs

theorem registry_inv_mild {s s' : State} (h : mild s s') (hs : registry_inv s) :
    registry_inv s' :=
  ⟨registry_ok_mild h hs.1, wf_of_sub (waits_on_mild h) hs.2⟩

theorem live_count_reclaim {s s' : State} (t : Nat) (h2 : s'.brk = s.brk) (ht : t < s.brk)
    (hc : s.context t ≠ none) (h6 : s'.context = put s.context t none) :
    (live_count s' : Int) = (live_count s : Int) - 1 := by
  unfold live_count
  rw [h2, h6]
  have hmem : t ∈ (Finset.range s.brk).filter (fun a => s.context a ≠ none) := by
    simp [ht, hc]
  have heq : (Finset.range s.brk).filter (fun a => put s.context t none a ≠ none)
      = ((Finset.range s.brk).filter (fun a => s.context a ≠ none)).erase t := by
    ext a
    simp only [Finset.mem_filter, Finset.mem_range, Finset.mem_erase, put_apply]
    by_cases e : a = t
    · simp [e]
    · simp [e]
  rw [heq, Finset.card_erase_of_mem hmem]
  have hpos : 0 < ((Finset.range s.brk).filter (fun a => s.context a ≠ none)).card :=
    Finset.card_pos.2 ⟨t, hmem⟩
  omega

theorem registry_inv_reclaims {s s' : State} {t : Nat} (h : reclaims s s' t)
    (hs : registry_inv s) : registry_inv s' := by
  obtain ⟨h1, h2, h3, h4, h5, h6, h7⟩ := h
  obtain ⟨⟨i1, i2, i3, i4, i5⟩, hwf⟩ := hs
  have ht : t < s.brk := by
    by_contra hge
    exact h5 (i1 t (Nat.le_of_not_lt hge))
  refine ⟨⟨?_, ?_, ?_, ?_, by rw [h3]; exact i5⟩, ?_⟩
  · intro a ha
    rw [h2] at ha
    rw [h6, put_apply]
    split
    · rfl
    · exact i1 a ha
  · intro i a hi
    rw [h3] at hi
    rw [h2, h1]
    exact i2 i a hi
  · intro a ha
    rw [h3, h1]
    apply i3 a
    rw [h6, put_apply] at ha
    split at ha
    · exact absurd rfl ha
    · exact ha
  · rw [h4, i4, live_count_reclaim t h2 ht h5 h6]
  · apply wf_of_sub _ hwf
    rintro i j ⟨a, ha, hb, hj⟩
    rw [h3] at ha
    rw [h7] at hb
    exact ⟨a, ha, hb, hj⟩

/-- New edges that lead to threads waiting on nobody keep the waits-on relation well founded. -/
theorem wf_of_sink {s s' : State}
    (h : ∀ i j, waits_on s' i j → waits_on s i j ∨ ∀ k, ¬ waits_on s' j k)
    (hs : WellFounded (Function.swap (waits_on s))) :
    WellFounded (Function.swap (waits_on s')) := by
  constructor
  intro i
  induction i using hs.induction with
  | _ i ih =>
    constructor
    intro j hj
    rcases h i j hj with h' | h'
    · exact ih j h'
    · constructor
      intro k hk
      exact absurd hk (h' k)

theorem wut_list_at_eq {l : List (Option Nat)} {i : Int} {x : Option Nat}
    (h : wut_list_at l i = some x) : l[i.toNat]? = some x := by
  have hr := wut_list_at_range h
  unfold wut_list_at at h
  rw [if_pos hr] at h
  exact h

theorem registry_inv_links {s s' : State} {cur t : Nat} (h : links s s' cur t)
    (hs : registry_inv s) : registry_inv s' := by
  obtain ⟨h1, h2, h3, h4, h5, htc, ⟨id, hid⟩, hbt, h9⟩ := h
  obtain ⟨⟨i1, i2, i3, i4, i5⟩, hwf⟩ := hs
  have hidt : s.id t = id := by
    have hr := wut_list_at_range hid
    have := (i2 id.toNat t (wut_list_at_eq hid)).2
    rw [this]
    omega
  refine ⟨⟨?_, ?_, ?_, ?_, by rw [h3]; exact i5⟩, ?_⟩
  · intro a ha
    rw [h2] at ha
    rw [h5]
    exact i1 a ha
  · intro i a hi
    rw [h3] at hi
    rw [h2, h1]
    exact i2 i a hi
  · intro a ha
    rw [h3, h1]
    rw [h5] at ha
    exact i3 a ha
  · rw [h4, i4]
    congr 1
    exact (live_count_congr h2 (fun a => by rw [h5])).symm
  · apply wf_of_sink _ hwf
    rintro i j ⟨a, ha, hb, hj⟩
    rw [h3] at ha
    rw [h9, put_apply] at hb
    split at hb
    · right
      rintro k ⟨b, hb1, hb2, hk⟩
      rw [h3, ← hb, hidt, hid] at hb1
      have hbt' : b = t := by
        simp only [Option.some.injEq] at hb1
        exact hb1.symm
      rw [hbt', h9, put_ne _ _ htc, hbt] at hb2
      exact hk hb2.symm
    · exact Or.inl ⟨a, ha, hb, hj⟩

theorem wut_list_at_iff (l : List (Option Nat)) (i : Int) (x : Option Nat) :
    wut_list_at l i = some x ↔ 0 ≤ i ∧ l[i.toNat]? = some x := by
  unfold wut_list_at
  constructor
  · intro h
    split at h
    · rename_i hr
      exact ⟨hr.1, h⟩
    · cases h
  · rintro ⟨h0, h⟩
    have hlt : i.toNat < l.length := by
      by_contra hge
      rw [List.getElem?_eq_none (Nat.le_of_not_lt hge)] at h
      cases h
    rw [if_pos ⟨h0, by omega⟩]
    exact h

theorem state_after_of_state {o : Outcome} {s : State} (h : o.state = some s) :
    o.after = some s := by
  cases o <;> simp_all [Outcome.state, Outcome.after]

theorem TAILQ_REMOVE_mild (s : State) (a : Nat) : mild s (TAILQ_REMOVE s a) :=
  mild_of_eq (by simp) (by simp) (by simp) (by simp) (by simp) (by simp)

theorem TAILQ_INSERT_TAIL_mild (s : State) (a : Nat) : mild s (TAILQ_INSERT_TAIL s a) :=
  mild_of_eq (by simp) (by simp) (by simp) (by simp) (by simp) (by simp)

theorem swapcontext_mild (s : State) (cur nxt : Nat) (k : Resume) (s' : State)
    (h : (swapcontext s cur nxt k).after = some s') : mild s s' := by
  unfold swapcontext at h
  cases hc : s.context cur with
  | none => rw [hc] at h; cases h
  | some r =>
    rw [hc] at h
    simp only at h
    split at h
    · cases h
    · simp only [Outcome.after, Option.some.injEq] at h
      subst h
      refine ⟨rfl, rfl, rfl, rfl, ?_, fun _ => Or.inl rfl⟩
      intro a
      simp only [put_apply]
      split
      · rename_i e
        subst e
        simp [hc]
      · exact Iff.rfl

theorem exit_tail_after (s : State) : (exit_tail s).after = some s := by
  unfold exit_tail
  split <;> rfl

theorem exit_leave_mild (s : State) (cur : Nat) (s' : State)
    (h : (exit_leave s cur).after = some s') : mild s s' := by
  unfold exit_leave at h
  simp only at h
  split at h
  · refine mild_trans ?_ (swapcontext_mild _ _ _ _ _ h)
    exact mild_of_eq (by simp) (by simp) (by simp) (by simp) (by simp) (by simp)
  · rw [exit_tail_after] at h
    simp only [Option.some.injEq] at h
    subst h
    exact mild_of_eq (by simp) (by simp) (by simp) (by simp) (by simp) (by simp)

theorem mild_put_blocked_by (s s' : State) (b : Nat) (h1 : s'.id = s.id) (h2 : s'.brk = s.brk)
    (h3 : s'.wut_list = s.wut_list) (h4 : s'.wut_thread_counter = s.wut_thread_counter)
    (h5 : s'.context = s.context) (h6 : s'.blocked_by = put s.blocked_by b (-1)) : mild s s' := by
  refine ⟨h1, h2, h3, h4, fun a => by rw [h5], ?_⟩
  intro a
  rw [h6, put_apply]
  split
  · exact Or.inr rfl
  · exact Or.inl rfl

theorem exit_wake_mild (s : State) (cur : Nat) (s' : State) (h : exit_wake s cur = some s') :
    mild s s' := by
  unfold exit_wake at h
  split at h
  · split at h
    · cases h
    · simp only [Option.some.injEq] at h
      subst h
      exact mild_of_eq rfl rfl rfl rfl rfl rfl
    · rename_i b _
      simp only [Option.some.injEq] at h
      subst h
      exact mild_put_blocked_by _ _ b (by simp) (by simp) (by simp) (by simp) (by simp) (by simp)
  · simp only [Option.some.injEq] at h
    subst h
    exact mild_refl _

theorem wut_exit_mild (s : State) (code : Int) (s' : State)
    (h : (wut_exit s code).after = some s') : mild s s' := by
  unfold wut_exit at h
  simp only at h
  split at h
  · cases h
  · split at h
    · split at h
      · cases h
      · rename_i s2 h2
        refine mild_trans (mild_trans ?_ (exit_wake_mild _ _ _ h2)) (exit_leave_mild _ _ _ h)
        exact mild_of_eq rfl rfl rfl rfl rfl rfl
    · rw [exit_tail_after] at h
      simp only [Option.some.injEq] at h
      subst h
      exact mild_refl _

theorem wut_yield_mild (s : State) (s' : State)
    (h : (wut_yield s).after = some s') : mild s s' := by
  unfold wut_yield at h
  simp only at h
  split at h
  · simp only [Outcome.after, Option.some.injEq] at h
    subst h
    exact mild_refl _
  · split at h
    · simp only [Outcome.after, Option.some.injEq] at h
      subst h
      exact mild_refl _
    · refine mild_trans ?_ (swapcontext_mild _ _ _ _ _ h)
      exact mild_of_eq (by simp) (by simp) (by simp) (by simp) (by simp) (by simp)

theorem unlink_blocked_by_mild (s : State) (t : Nat) (s' : State)
    (h : unlink_blocked_by s t = some s') :
    mild s s' ∧ s'.context = s.context ∧ s'.tqh_first = s.tqh_first ∧ s'.blocked_by t = -1 := by
  unfold unlink_blocked_by at h
  split at h
  · split at h
    · cases h
    · simp only [Option.some.injEq] at h
      subst h
      exact ⟨mild_put_blocked_by _ _ t rfl rfl rfl rfl rfl rfl, rfl, rfl, by simp [put_same]⟩
    · simp only [Option.some.injEq] at h
      subst h
      exact ⟨mild_put_blocked_by _ _ t rfl rfl rfl rfl rfl rfl, rfl, rfl, by simp [put_same]⟩
  · rename_i hb
    simp only [Option.some.injEq] at h
    subst h
    exact ⟨mild_refl _, rfl, rfl, by simpa using hb⟩

theorem unlink_blocking_mild (s : State) (t : Nat) (s' : State)
    (h : unlink_blocking s t = some s') :
    mild s s' ∧ s'.context = s.context ∧ s'.tqh_first = s.tqh_first ∧
      (s.blocked_by t = -1 → s'.blocked_by t = -1) := by
  unfold unlink_blocking at h
  split at h
  · split at h
    · cases h
    · simp only [Option.some.injEq] at h
      subst h
      exact ⟨mild_of_eq rfl rfl rfl rfl rfl rfl, rfl, rfl, fun e => e⟩
    · rename_i b _
      simp only [Option.some.injEq] at h
      subst h
      refine ⟨mild_put_blocked_by _ _ b rfl rfl rfl rfl rfl rfl, rfl, rfl, ?_⟩
      intro e
      simp only [put_apply]
      split
      · rfl
      · exact e
  · simp only [Option.some.injEq] at h
    subst h
    exact ⟨mild_refl _, rfl, rfl, fun e => e⟩

theorem cancel_wake_mild (s : State) (b : Int) (s' : State) (h : cancel_wake s b = some s') :
    mild s s' ∧ s'.context = s.context := by
  unfold cancel_wake at h
  split at h
  · cases h
  · simp only [Option.some.injEq] at h
    subst h
    exact ⟨mild_refl _, rfl⟩
  · rename_i w _
    simp only [Option.some.injEq] at h
    subst h
    exact ⟨mild_put_blocked_by _ _ w (by simp) (by simp) (by simp) (by simp) (by simp)
      (by simp), by simp⟩

theorem registry_inv_cancel (s : State) (id : Int) (s' : State) (hs : registry_inv s)
    (h : (wut_cancel s id).after = some s') : registry_inv s' := by
  unfold wut_cancel at h
  split at h
  · simp only [Outcome.after, Option.some.injEq] at h
    subst h; exact hs
  · split at h
    · cases h
    · simp only [Outcome.after, Option.some.injEq] at h
      subst h; exact hs
    · rename_i t _
      split at h
      · simp only [Outcome.after, Option.some.injEq] at h
        subst h; exact hs
      · rename_i hctx
        split at h
        · cases h
        · rename_i s1 h1
          obtain ⟨m1, c1, _, _⟩ := unlink_blocked_by_mild _ _ _ h1
          have hs1 := registry_inv_mild m1 hs
          split at h
          · split at h
            · cases h
            · rename_i s2 h2
              obtain ⟨m2, _⟩ := cancel_wake_mild _ _ _ h2
              simp only [Outcome.after, Option.some.injEq] at h
              subst h
              refine registry_inv_mild ?_ (registry_inv_mild m2 hs1)
              exact mild_of_eq (by simp) (by simp) (by simp) (by simp) (by simp) (by simp)
          · simp only [Outcome.after, Option.some.injEq] at h
            subst h
            refine @registry_inv_reclaims s1 _ t ?_ hs1
            refine ⟨by simp, by simp, by simp, by simp, ?_, by simp, by simp⟩
            rw [c1]; exact hctx

theorem join_block_inv (s : State) (cur t : Nat) (s' : State) (hs : registry_inv s)
    (htc : t ≠ cur) (hreg : ∃ id, wut_list_at s.wut_list id = some (some t))
    (hb : s.blocked_by t = -1) (h : (join_block s cur t).after = some s') :
    registry_inv s' := by
  have hl : registry_inv (join_link s cur t) := by
    refine @registry_inv_links s _ cur t ?_ hs
    refine ⟨?_, ?_, ?_, ?_, ?_, htc, hreg, hb, ?_⟩ <;> simp [join_link]
  have hm : registry_inv (mark_first_running (join_link s cur t)) := by
    refine registry_inv_mild ?_ hl
    unfold mark_first_running
    split
    · exact mild_refl _
    · exact mild_of_eq rfl rfl rfl rfl rfl rfl
  have hsw : ∀ s1, registry_inv s1 → (join_switch s1 cur t).after = some s' →
      registry_inv s' := by
    intro s1 h1 h2
    unfold join_switch at h2
    split at h2
    · cases h2
    · exact registry_inv_mild (swapcontext_mild _ _ _ _ _ h2) h1
  unfold join_block at h
  simp only at h
  split at h
  · cases h
  · exact hsw _ hm h
  · exact hsw _ (registry_inv_mild (TAILQ_INSERT_TAIL_mild _ _) hm) h

theorem registry_inv_join (s : State) (id : Int) (s' : State) (hs : registry_inv s)
    (h : (wut_join s id).after = some s') : registry_inv s' := by
  unfold wut_join at h
  split at h
  · simp only [Outcome.after, Option.some.injEq] at h
    subst h; exact hs
  · rename_i hid
    split at h
    · cases h
    · simp only [Outcome.after, Option.some.injEq] at h
      subst h; exact hs
    · rename_i t ht
      split at h
      · simp only [Outcome.after, Option.some.injEq] at h
        subst h; exact hs
      · split at h
        · simp only [Outcome.after, Option.some.injEq] at h
          subst h; exact hs
        · rename_i hbb
          split at h
          · simp only [Outcome.after, Option.some.injEq] at h
            subst h; exact hs
          · rename_i hctx
            split at h
            · simp only [Outcome.after, Option.some.injEq] at h
              subst h
              exact @registry_inv_reclaims s _ t ⟨rfl, rfl, rfl, rfl, hctx, rfl, rfl⟩ hs
            · split at h
              · cases h
              · rename_i s2 h2
                have hbt : s.blocked_by t = -1 := by
                  by_contra e; exact hbb e
                cases h1 : unlink_blocked_by s t with
                | none => rw [h1] at h2; cases h2
                | some s1 =>
                  rw [h1] at h2
                  simp only [Option.some_bind] at h2
                  obtain ⟨m1, _, f1, b1⟩ := unlink_blocked_by_mild _ _ _ h1
                  obtain ⟨m2, _, f2, b2⟩ := unlink_blocking_mild _ _ _ h2
                  have hs2 := registry_inv_mild (mild_trans m1 m2) hs
                  split at h
                  · simp only [Outcome.after, Option.some.injEq] at h
                    subst h; exact hs2
                  · rename_i cur hcur
                    have hl2 : s2.wut_list = s.wut_list := by
                      rw [m2.2.2.1, m1.2.2.1]
                    have hidt : s.id t = id := by
                      have hr := wut_list_at_range ht
                      have := (hs.1.2.1 id.toNat t (wut_list_at_eq ht)).2
                      rw [this]; omega
                    refine join_block_inv s2 cur t s' hs2 ?_ ⟨id, by rw [hl2]; exact ht⟩
                      (b2 b1) h
                    intro e
                    apply hid
                    right; right
                    have hf : s.tqh_first = some cur := by
                      rw [← f1, ← f2]; exact hcur
                    rw [wut_id_of_first s cur hf, ← e, hidt]

theorem registry_inv_resume (s : State) (a : Nat) (s' : State) (hs : registry_inv s)
    (h : (resume s a).after = some s') : registry_inv s' := by
  unfold resume at h
  split at h
  · cases h
  · cases h
  · simp only [Outcome.after, Option.some.injEq] at h
    subst h; exact hs
  · simp only [Outcome.after, Option.some.injEq] at h
    subst h
    exact registry_inv_mild (mild_of_eq rfl rfl rfl rfl rfl rfl) hs
  · rename_i t _
    unfold join_return at h
    simp only at h
    split at h
    · cases h
    · rename_i r hr
      simp only [Outcome.after, Option.some.injEq] at h
      subst h
      refine @registry_inv_reclaims s _ t ⟨rfl, rfl, rfl, rfl, ?_, rfl, rfl⟩ hs
      intro e
      rw [e] at hr
      cases hr
  · rw [exit_tail_after] at h
    simp only [Option.some.injEq] at h
    subst h; exact hs

theorem find_free_none_iff (s : State) : ∀ (l : List (Option Nat)) (k : Nat),
    find_free s l k = none ↔ ∀ x ∈ l, x.bind s.context ≠ none
  | [], k => by simp [find_free]
  | none :: l, k => by simp [find_free]
  | some a :: l, k => by
    unfold find_free
    by_cases h : s.context a = none
    · simp [h]
    · rw [if_neg h, find_free_none_iff s l (k + 1)]
      simp [h]

theorem find_free_some (s : State) : ∀ (l : List (Option Nat)) (k i : Nat),
    find_free s l k = some i →
    k ≤ i ∧ i - k < l.length ∧ ∀ a, l[i - k]? = some (some a) → s.context a = none
  | [], k, i, h => by simp [find_free] at h
  | none :: l, k, i, h => by
    simp only [find_free, Option.some.injEq] at h
    subst h
    simp
  | some a :: l, k, i, h => by
    unfold find_free at h
    by_cases hc : s.context a = none
    · rw [if_pos hc] at h
      simp only [Option.some.injEq] at h
      subst h
      simp [hc]
    · rw [if_neg hc] at h
      obtain ⟨h1, h2, h3⟩ := find_free_some s l (k + 1) i h
      have e : i - k = (i - (k + 1)) + 1 := by omega
      refine ⟨by omega, by simp only [List.length_cons]; omega, ?_⟩
      intro b hb
      rw [e, List.getElem?_cons_succ] at hb
      exact h3 b hb

/-- In a consistent registry whose slots are all live the counter is the size of the array. -/
theorem counter_of_all_live (s : State) (hr : registry_ok s) (hl : all_slots_live s) :
    s.wut_thread_counter = (s.wut_list.length : Int) := by
  obtain ⟨i1, i2, i3, i4, _⟩ := hr
  have hslot : ∀ i, i < s.wut_list.length →
      ∃ a, s.wut_list[i]? = some (some a) ∧ s.context a ≠ none := by
    intro i hi
    have hx := hl (s.wut_list[i]) (List.getElem_mem hi)
    cases hv : s.wut_list[i] with
    | none => rw [hv] at hx; simp at hx
    | some a =>
      rw [hv] at hx
      refine ⟨a, ?_, by simpa using hx⟩
      rw [List.getElem?_eq_getElem hi, hv]
  rw [i4]
  congr 1
  unfold live_count
  let f : Nat → Nat := fun i => (s.wut_list[i]?).join.getD 0
  have himg : (Finset.range s.brk).filter (fun a => s.context a ≠ none)
      = (Finset.range s.wut_list.length).image f := by
    ext a
    simp only [Finset.mem_filter, Finset.mem_range, Finset.mem_image]
    constructor
    · rintro ⟨_, hc⟩
      have h3 := i3 a hc
      have hr := wut_list_at_range h3
      refine ⟨(s.id a).toNat, by omega, ?_⟩
      simp only [f]
      rw [wut_list_at_eq h3]
      rfl
    · rintro ⟨i, hi, hf⟩
      obtain ⟨b, hb, hc⟩ := hslot i hi
      simp only [f] at hf
      rw [hb] at hf
      have e : b = a := hf
      subst e
      exact ⟨(i2 i b hb).1, hc⟩
  rw [himg, Finset.card_image_of_injOn, Finset.card_range]
  intro i hi j hj hij
  simp only [Finset.coe_range, Set.mem_Iio] at hi hj
  obtain ⟨a, ha, _⟩ := hslot i hi
  obtain ⟨b, hb, _⟩ := hslot j hj
  simp only [f] at hij
  rw [ha, hb] at hij
  have e : a = b := hij
  subst e
  have h1 := (i2 i a ha).2
  have h2 := (i2 j a hb).2
  omega

/-- A new live entry at address `brk`, registered in a slot `i` that held no live thread, keeps
the invariant. -/
theorem registry_inv_install (s s' : State) (i : Nat) (hs : registry_inv s)
    (h1 : s'.id = put s.id s.brk i) (h2 : s'.brk = s.brk + 1)
    (h3 : s'.wut_list[i]? = some (some s.brk))
    (h3a : ∀ j, j ≠ i → ∀ a, s'.wut_list[j]? = some (some a) ↔ s.wut_list[j]? = some (some a))
    (h3b : s.wut_list.length ≤ s'.wut_list.length)
    (h4 : s'.wut_thread_counter = s.wut_thread_counter + 1)
    (h5 : s'.context = put s.context s.brk (some Resume.start))
    (h6 : s'.blocked_by = put s.blocked_by s.brk (-1))
    (hfree : ∀ a, s.wut_list[i]? = some (some a) → s.context a = none) :
    registry_inv s' := by
  obtain ⟨⟨i1, i2, i3, i4, i5⟩, hwf⟩ := hs
  refine ⟨⟨?_, ?_, ?_, ?_, by omega⟩, ?_⟩
  · intro a ha
    rw [h2] at ha
    rw [h5, put_ne _ _ (by omega)]
    exact i1 a (by omega)
  · intro j a hj
    rw [h2, h1]
    by_cases e : j = i
    · subst e
      rw [h3] at hj
      simp only [Option.some.injEq] at hj
      subst hj
      exact ⟨by omega, by rw [put_same]⟩
    · have hj' := (h3a j e a).1 hj
      have := i2 j a hj'
      exact ⟨by omega, by rw [put_ne _ _ (by omega)]; exact this.2⟩
  · intro a ha
    rw [h1]
    by_cases e : a = s.brk
    · subst e
      rw [put_same, wut_list_at_iff]
      exact ⟨by omega, by simpa using h3⟩
    · rw [h5, put_ne _ _ e] at ha
      rw [put_ne _ _ e]
      have h := i3 a ha
      rw [wut_list_at_iff] at h ⊢
      refine ⟨h.1, ?_⟩
      have hne : (s.id a).toNat ≠ i := by
        intro e2
        rw [e2] at h
        exact ha (hfree a h.2)
      exact (h3a _ hne a).2 h.2
  · rw [h4, i4]
    unfold live_count
    rw [h2, h5, Finset.range_succ, Finset.filter_insert, if_pos (by simp [put_same])]
    have hnm : s.brk ∉ (Finset.range s.brk).filter
        (fun a => put s.context s.brk (some Resume.start) a ≠ none) := by
      simp
    rw [Finset.card_insert_of_not_mem hnm]
    have heq : (Finset.range s.brk).filter
        (fun a => put s.context s.brk (some Resume.start) a ≠ none)
        = (Finset.range s.brk).filter (fun a => s.context a ≠ none) := by
      apply Finset.filter_congr
      intro a ha
      simp only [Finset.mem_range] at ha
      rw [put_ne _ _ (by omega)]
    rw [heq]
    push_cast
    rfl
  · apply wf_of_sub _ hwf
    rintro j k ⟨a, ha, hb, hk⟩
    rw [wut_list_at_iff] at ha
    by_cases e : j.toNat = i
    · rw [e, h3] at ha
      have e2 : s.brk = a := by simpa using ha.2
      subst e2
      rw [h6, put_same] at hb
      exact absurd hb.symm hk
    · have ha' := (h3a _ e a).1 ha.2
      have hlt := (i2 _ a ha').1
      rw [h6, put_ne _ _ (by omega)] at hb
      exact ⟨a, (wut_list_at_iff _ _ _).2 ⟨ha.1, ha'⟩, hb, hk⟩

/-- What `wut_create` does on both of its paths, in a state with a consistent registry. -/
theorem wut_create_cases (s : State) (g : Int) (hr : registry_ok s) :
    ∃ (i : Nat) (s' : State), wut_create s g = Outcome.ret i s' ∧
      (find_free s s.wut_list 0 = none → i = s.wut_list.length ∧
        s'.wut_list.length = 2 * s.wut_list.length ∧ s'.exited s.brk = g) ∧
      (find_free s s.wut_list 0 ≠ none → i < s.wut_list.length ∧
        s'.wut_list.length = s.wut_list.length ∧ s'.exited s.brk = 0) ∧
      (∀ a, s.wut_list[i]? = some (some a) → s.context a = none) ∧
      s'.id = put s.id s.brk i ∧ s'.status = put s.status s.brk 1 ∧
      s'.blocking = put s.blocking s.brk (-1) ∧ s'.blocked_by = put s.blocked_by s.brk (-1) ∧
      s'.context = put s.context s.brk (some Resume.start) ∧
      (∀ a, a ≠ s.brk → s'.exited a = s.exited a) ∧ s'.brk = s.brk + 1 ∧
      s'.wut_thread_counter = s.wut_thread_counter + 1 ∧
      s'.wut_list[i]? = some (some s.brk) ∧
      (∀ j, j ≠ i → j < s.wut_list.length → s'.wut_list[j]? = s.wut_list[j]?) ∧
      (∀ j, j ≠ i → s.wut_list.length ≤ j → j < s'.wut_list.length →
        s'.wut_list[j]? = some none) ∧
      (∀ L, queue_is s L → (∀ a ∈ L, a < s.brk) → queue_is s' (L ++ [s.brk])) := by
  have hq : ∀ (s3 : State) (c : Int), s3.tqe_next = s.tqe_next → s3.tqe_prev = s.tqe_prev →
      s3.tqh_first = s.tqh_first → s3.tqh_last = s.tqh_last →
      ∀ L, queue_is s L → (∀ a ∈ L, a < s.brk) →
      queue_is { TAILQ_INSERT_TAIL s3 s.brk with wut_thread_counter := c } (L ++ [s.brk]) := by
    intro s3 c e1 e2 e3 e4 L hL hlt
    have h3 : queue_is s3 L := queue_is_congr hL s3 e1 e2 e3 e4
    have hnm : s.brk ∉ L := fun hm => Nat.lt_irrefl _ (hlt _ hm)
    exact queue_is_congr (queue_is_insert_tail s3 L s.brk h3 hnm) _ rfl rfl rfl rfl
  unfold wut_create
  cases hf : find_free s s.wut_list 0 with
  | some i =>
    obtain ⟨_, hi, hfree⟩ := find_free_some s s.wut_list 0 i hf
    simp only [Nat.sub_zero] at hi hfree
    refine ⟨i, _, rfl, ?_, ?_, hfree, ?_, ?_, ?_, ?_, ?_, ?_, ?_, ?_, ?_, ?_, ?_, ?_⟩
    · intro e; cases e
    · intro _
      refine ⟨hi, ?_, ?_⟩
      · simp [init_thread, State.malloc]
      · simp [init_thread, State.malloc, put_same]
    · simp [init_thread, State.malloc]
    · simp [init_thread, State.malloc]
    · simp [init_thread, State.malloc]
    · simp [init_thread, State.malloc]
    · simp [init_thread, State.malloc]
    · intro a ha
      simp [init_thread, State.malloc, put_ne _ _ ha]
    · simp [init_thread, State.malloc]
    · simp [init_thread, State.malloc]
    · simp [init_thread, State.malloc, List.getElem?_set, hi]
    · intro j hj _
      simp [init_thread, State.malloc, List.getElem?_set, Ne.symm hj]
    · intro j _ h1 h2
      simp [init_thread, State.malloc] at h2
      omega
    · exact hq _ _ rfl rfl rfl rfl
  | none =>
    have hlive : all_slots_live s := (find_free_none_iff s s.wut_list 0).1 hf
    have hc := counter_of_all_live s hr hlive
    have hpos := hr.2.2.2.2
    have hcond : 0 ≤ s.wut_thread_counter ∧ s.wut_thread_counter <
        wut_list_size (init_thread
          (State.malloc { s with wut_list := s.wut_list ++ List.replicate s.wut_list.length none }
            g) s.brk s.wut_thread_counter) := by
      rw [hc]
      simp [wut_list_size, init_thread, State.malloc]
      omega
    simp only
    rw [if_pos hcond]
    clear hcond
    refine ⟨s.wut_list.length, _, by rw [hc], ?_, ?_, ?_, ?_, ?_, ?_, ?_, ?_, ?_, ?_, ?_, ?_, ?_,
      ?_, ?_⟩
    · intro _
      refine ⟨rfl, ?_, ?_⟩
      · simp [init_thread, State.malloc]
        omega
      · simp [init_thread, State.malloc, put_same]
    · intro e
      exact absurd rfl e
    · intro a ha
      simp at ha
    · simp [init_thread, State.malloc, hc]
    · simp [init_thread, State.malloc]
    · simp [init_thread, State.malloc]
    · simp [init_thread, State.malloc]
    · simp [init_thread, State.malloc]
    · intro a ha
      simp [init_thread, State.malloc, put_ne _ _ ha]
    · simp [init_thread, State.malloc]
    · simp [init_thread, State.malloc, hc]
    · simp only [init_thread, State.malloc, TAILQ_INSERT_TAIL_wut_list]
      simp only [hc, Int.toNat_ofNat]
      rw [List.getElem?_set, if_pos rfl, if_pos (by simp; omega)]
    · intro j hj hlt
      simp [init_thread, State.malloc, hc, List.getElem?_set, Ne.symm hj,
        List.getElem?_append_left hlt]
    · intro j hj h1 h2
      simp [init_thread, State.malloc] at h2
      simp only [init_thread, State.malloc, TAILQ_INSERT_TAIL_wut_list]
      simp only [hc, Int.toNat_ofNat]
      rw [List.getElem?_set, if_neg (Ne.symm hj), List.getElem?_append_right h1,
        List.getElem?_replicate, if_pos (by omega)]
    · exact hq _ _ rfl rfl rfl rfl

theorem registry_inv_create (s : State) (g : Int) (s' : State) (hs : registry_inv s)
    (h : (wut_create s g).after = some s') : registry_inv s' := by
  obtain ⟨i, s1, hc, hn, hsome, hfree, hid, _, _, hbb, hctx, _, hbrk, hcnt, hi, hlt, hge, _⟩ :=
    wut_create_cases s g hs.1
  rw [hc] at h
  simp only [Outcome.after, Option.some.injEq] at h
  subst h
  have hlen : s.wut_list.length ≤ s1.wut_list.length := by
    by_cases e : find_free s s.wut_list 0 = none
    · have := (hn e).2.1
      omega
    · have := (hsome e).2.1
      omega
  refine registry_inv_install s s1 i hs hid hbrk hi ?_ hlen hcnt hctx hbb hfree
  intro j hj a
  by_cases e : j < s.wut_list.length
  · rw [hlt j hj e]
  · have e1 : s.wut_list.length ≤ j := Nat.le_of_not_lt e
    rw [List.getElem?_eq_none e1]
    by_cases e2 : j < s1.wut_list.length
    · rw [hge j hj e1 e2]
      simp
    · rw [List.getElem?_eq_none (Nat.le_of_not_lt e2)]

theorem registry_inv_call (s : State) (op : Op) (s' : State) (hs : registry_inv s)
    (h : (call s op).after = some s') : registry_inv s' := by
  cases op with
  | create g => exact registry_inv_create s g s' hs h
  | yield => exact registry_inv_mild (wut_yield_mild s s' h) hs
  | join id => exact registry_inv_join s id s' hs h
  | cancel id => exact registry_inv_cancel s id s' hs h
  | exit c => exact registry_inv_mild (wut_exit_mild s c s' h) hs

theorem registry_inv_step (s : State) (op : Op) (s' : State) (hs : registry_inv s)
    (h : (step s op).after = some s') : registry_inv s' := by
  unfold step at h
  cases hc : call s op with
  | switch a s1 =>
    rw [hc] at h
    exact registry_inv_resume s1 a s' (registry_inv_call s op s1 hs (by rw [hc]; rfl)) h
  | ret v s1 => rw [hc] at h; exact registry_inv_call s op s' hs (by rw [hc]; exact h)
  | enter s1 => rw [hc] at h; exact registry_inv_call s op s' hs (by rw [hc]; exact h)
  | halt s1 => rw [hc] at h; exact registry_inv_call s op s' hs (by rw [hc]; exact h)
  | fault => rw [hc] at h; cases h
  | hang => rw [hc] at h; cases h

theorem registry_inv_init : registry_inv wut_init := by
  refine ⟨⟨?_, ?_, ?_, ?_, by decide⟩, ?_⟩
  · intro a ha
    have : a ≠ 0 := by
      have : wut_init.brk = 1 := rfl
      omega
    simp [wut_init, put_ne _ _ this]
  · intro i a h
    have hi : i < 5 := by
      by_contra hge
      rw [List.getElem?_eq_none (by simpa [wut_init] using Nat.le_of_not_lt hge)] at h
      cases h
    interval_cases i <;> simp [wut_init] at h
    subst h
    exact ⟨by decide, rfl⟩
  · intro a ha
    have : a = 0 := by
      by_contra e
      exact ha (by simp [wut_init, put_ne _ _ e])
    subst this
    rfl
  · decide
  · constructor
    intro i
    constructor
    rintro j ⟨a, ha, hb, hj⟩
    rw [wut_list_at_iff] at ha
    have hlt : i.toNat < 5 := by
      by_contra hge
      rw [List.getElem?_eq_none (by simpa [wut_init] using Nat.le_of_not_lt hge)] at ha
      cases ha.2
    have h2 := ha.2
    interval_cases hk : i.toNat <;> simp [wut_init] at h2
    subst h2
    exact absurd hb.symm hj

/-- Every reachable state has a consistent registry and a well-founded waits-on relation. -/
theorem registry_inv_of_reachable (s : State) (h : Reachable s) : registry_inv s := by
  induction h with
  | init => exact registry_inv_init
  | step op _ hst ih => exact registry_inv_step _ op _ ih (state_after_of_state hst)

theorem reachable_run : ∀ (ops : List Op) (o : Outcome),
    (∀ s, o.state = some s → Reachable s) → ∀ s, (run o ops).state = some s → Reachable s
  | [], o, ho, s, h => ho s (by rwa [run_nil] at h)
  | op :: ops, o, ho, s, h => by
    cases o with
    | ret v s0 =>
      have h0 : Reachable s0 := ho s0 rfl
      exact reachable_run ops (step s0 op) (fun s1 h1 => Reachable.step op h0 h1) s h
    | enter s0 =>
      have h0 : Reachable s0 := ho s0 rfl
      exact reachable_run ops (step s0 op) (fun s1 h1 => Reachable.step op h0 h1) s h
    | switch a s0 => exact ho s h
    | halt s0 => exact ho s h
    | fault => exact ho s h
    | hang => exact ho s h

/-- The state a run of calls from `wut_init` leaves is reachable. -/
theorem reachable_state_after (ops : List Op) : Reachable (state_after ops) := by
  unfold state_after
  cases h : (run (Outcome.ret 0 wut_init) ops).state with
  | none => exact Reachable.init
  | some s =>
    refine reachable_run ops (Outcome.ret 0 wut_init) ?_ s h
    intro s0 h0
    simp only [Outcome.state, Option.some.injEq] at h0
    subst h0
    exact Reachable.init

theorem live_count_install (s s' : State) (h2 : s'.brk = s.brk + 1)
    (h5 : s'.context = put s.context s.brk (some Resume.start)) :
    live_count s' = live_count s + 1 := by
  unfold live_count
  rw [h2, h5, Finset.range_succ, Finset.filter_insert, if_pos (by simp [put_same])]
  have hnm : s.brk ∉ (Finset.range s.brk).filter
      (fun a => put s.context s.brk (some Resume.start) a ≠ none) := by
    simp
  rw [Finset.card_insert_of_not_mem hnm]
  congr 2
  apply Finset.filter_congr
  intro a ha
  simp only [Finset.mem_range] at ha
  rw [put_ne _ _ (by omega)]

/-- A well-founded waits-on relation has no cycle. -/
theorem no_cycle_of_wf (s : State) (h : WellFounded (Function.swap (waits_on s))) (i : Int) :
    ¬ Relation.TransGen (waits_on s) i i := by
  intro hi
  have hsw : Relation.TransGen (Function.swap (waits_on s)) i i := Relation.transGen_swap.2 hi
  have hirr : ∀ x, ¬ Relation.TransGen (Function.swap (waits_on s)) x x := by
    intro x
    induction x using h.transGen.induction with
    | _ x ih => exact fun hx => ih x hx hx
  exact hirr i hsw

/-! ## C12 -/

/-- The part of C12 that the code keeps. In every state reachable from `wut_init`, `wut_create`
returns: its value is an id `i`
whose slot is outside the array, `NULL` or an entry whose context is `NULL`; the slot now points
to the new entry, at the fresh address `brk`, whose `id` is `i`, status 1 (Ready), `blocking` and
`blocked_by` -1 and context that of a thread that has not started; `wut_thread_counter` and the
number of live entries grow by one; every other entry and every other slot is as before. When
the Ready Queue is `L`, a well-formed queue of allocated entries, it becomes `L` followed by the
new entry, and the head of a non-empty queue, the running thread, is the same (the call returns,
it does not switch). -/
theorem create_postcondition (s : State) (g : Int) (hr : Reachable s) :
    ∃ (i : Nat) (s' : State), wut_create s g = Outcome.ret i s' ∧
      (∀ a, s.wut_list[i]? = some (some a) → s.context a = none) ∧
      s.context s.brk = none ∧ s'.wut_list[i]? = some (some s.brk) ∧
      s'.id s.brk = i ∧ s'.status s.brk = 1 ∧ s'.blocking s.brk = -1 ∧
      s'.blocked_by s.brk = -1 ∧ s'.context s.brk = some Resume.start ∧
      s'.wut_thread_counter = s.wut_thread_counter + 1 ∧ live_count s' = live_count s + 1 ∧
      (∀ a, a ≠ s.brk → s'.entry a = s.entry a) ∧
      (∀ j, j ≠ i → j < s.wut_list.length → s'.wut_list[j]? = s.wut_list[j]?) ∧
      (∀ L, queue_is s L → (∀ a ∈ L, a < s.brk) →
        queue_is s' (L ++ [s.brk]) ∧
        (L ≠ [] → s'.tqh_first = s.tqh_first ∧ wut_id s' = wut_id s)) := by
  have hok := (registry_inv_of_reachable s hr).1
  obtain ⟨i, s', hc, _, _, hfree, hid, hst, hbl, hbb, hctx, hex, hbrk, hcnt, hi, hlt, _, hqueue⟩ :=
    wut_create_cases s g hok
  refine ⟨i, s', hc, hfree, hok.1 s.brk (Nat.le_refl _), hi, by rw [hid, put_same],
    by rw [hst, put_same], by rw [hbl, put_same], by rw [hbb, put_same],
    by rw [hctx, put_same], hcnt, live_count_install s s' hbrk hctx, ?_, hlt, ?_⟩
  · intro a ha
    simp only [State.entry, hid, hst, hbl, hbb, hctx, put_ne _ _ ha, hex a ha]
  · intro L hq hL
    have hq' := hqueue L hq hL
    refine ⟨hq', ?_⟩
    intro hne
    cases L with
    | nil => exact absurd rfl hne
    | cons c T =>
      have h1 : s.tqh_first = some c := queue_is_first s c T hq
      have h2 : s'.tqh_first = some c := queue_is_first s' c (T ++ [s.brk]) hq'
      have hcb : c ≠ s.brk := Nat.ne_of_lt (hL c (List.mem_cons_self c T))
      refine ⟨h2.trans h1.symm, ?_⟩
      rw [wut_id_of_first s c h1, wut_id_of_first s' c h2, hid, put_ne _ _ hcb]

/-- Witness of `create_postcondition`: the state after four `wut_create` calls, where the array
is full. -/
theorem create_postcondition_witness :
    queue_is (state_after [Op.create 0, Op.create 0, Op.create 0, Op.create 0]) [0, 1, 2, 3, 4] ∧
    ∃ (i : Nat) (s' : State),
      wut_create (state_after [Op.create 0, Op.create 0, Op.create 0, Op.create 0]) 0
        = Outcome.ret i s' ∧
      queue_is s' [0, 1, 2, 3, 4, 5] ∧ s'.id 5 = i ∧ s'.status 5 = 1 := by
  refine ⟨by decide, ?_⟩
  obtain ⟨i, s', h1, _, _, _, h2, h3, _, _, _, _, _, _, _, h4⟩ :=
    create_postcondition (state_after [Op.create 0, Op.create 0, Op.create 0, Op.create 0]) 0
      (reachable_state_after _)
  exact ⟨i, s', h1, (h4 [0, 1, 2, 3, 4] (by decide) (by decide)).1, h2, h3⟩

/-- C12. A creation that does not reach the Ready Queue: the main thread (id 0) creates the
threads 1 and 2 and calls `wut_join 2`; thread 1 runs and yields; thread 2 runs, cancels thread 1
(queue `[2]`) and cancels the main thread, which is Blocked and not in the queue: `TAILQ_REMOVE`
(line 311) writes its stale pointers back, so that `tqh_first` is thread 1 while `tqh_last` still
points into thread 2. Both calls returned 0 and thread 2 goes on running; the Ready Queue is
`[1]`. Its `wut_create` returns 0, the free slot of the main thread, and sets up the new entry
(address 3, status 1), but `TAILQ_INSERT_TAIL` links it behind thread 2: the Ready Queue is still
`[1]` and the new thread is not in it. -/
theorem create_after_cancel_of_blocked_thread :
    queue_is (state_after [Op.create 0, Op.create 0, Op.join 2, Op.yield, Op.cancel 1]) [2] ∧
    (run (Outcome.ret 0 wut_init)
      [Op.create 0, Op.create 0, Op.join 2, Op.yield, Op.cancel 1, Op.cancel 0]).value
      = some 0 ∧
    ready_queue (state_after
      [Op.create 0, Op.create 0, Op.join 2, Op.yield, Op.cancel 1, Op.cancel 0]) = [1] ∧
    (state_after
      [Op.create 0, Op.create 0, Op.join 2, Op.yield, Op.cancel 1, Op.cancel 0]).tqh_last
      = Link.next_of 2 ∧
    (wut_create (state_after
      [Op.create 0, Op.create 0, Op.join 2, Op.yield, Op.cancel 1, Op.cancel 0]) 0).value
      = some 0 ∧
    (state_after [Op.create 0, Op.create 0, Op.join 2, Op.yield, Op.cancel 1, Op.cancel 0,
      Op.create 0]).wut_list = [some 3, some 1, some 2, none, none] ∧
    (state_after [Op.create 0, Op.create 0, Op.join 2, Op.yield, Op.cancel 1, Op.cancel 0,
      Op.create 0]).status 3 = 1 ∧
    (state_after [Op.create 0, Op.create 0, Op.join 2, Op.yield, Op.cancel 1, Op.cancel 0,
      Op.create 0]).context 3 = some Resume.start ∧
    (state_after [Op.create 0, Op.create 0, Op.join 2, Op.yield, Op.cancel 1, Op.cancel 0,
      Op.create 0]).tqe_next 2 = some 3 ∧
    ready_queue (state_after [Op.create 0, Op.create 0, Op.join 2, Op.yield, Op.cancel 1,
      Op.cancel 0, Op.create 0]) = [1] := by
  decide

/-! ## C13 -/

/-- C13. The array `wut_list` has 5 slots after `wut_init`. In a reachable state in which every
slot points to an entry with a context, `wut_create` returns, and its value is the old size `n` of
the array; the array then has `2 * n` slots, the first `n` are as before and so is every entry
allocated before, slot `n` points to the new entry, whose `id` is `n`, and the slots after it are
`NULL`; every thread registered before keeps the index of its slot as `id`, which is not `n`. -/
theorem registry_growth (s : State) (g : Int) (hr : Reachable s) (hl : all_slots_live s) :
    wut_init.wut_list.length = 5 ∧
    ∃ s', wut_create s g = Outcome.ret s.wut_list.length s' ∧
      s'.wut_list.length = 2 * s.wut_list.length ∧
      (∀ j, j < s.wut_list.length → s'.wut_list[j]? = s.wut_list[j]?) ∧
      (∀ a, a ≠ s.brk → s'.entry a = s.entry a) ∧
      s'.wut_list[s.wut_list.length]? = some (some s.brk) ∧
      s'.id s.brk = s.wut_list.length ∧
      (∀ j, s.wut_list.length < j → j < 2 * s.wut_list.length → s'.wut_list[j]? = some none) ∧
      (∀ (j a : Nat), s.wut_list[j]? = some (some a) →
        a ≠ s.brk ∧ s.id a = j ∧ s'.id a = j ∧ (j : Int) ≠ s.wut_list.length) := by
  refine ⟨rfl, ?_⟩
  have hok := (registry_inv_of_reachable s hr).1
  have hf : find_free s s.wut_list 0 = none := (find_free_none_iff s s.wut_list 0).2 hl
  obtain ⟨i, s', hc, hn, _, _, hid, hst, hbl, hbb, hctx, hex, _, _, hi, hlt, hge, _⟩ :=
    wut_create_cases s g hok
  obtain ⟨hin, hlen, _⟩ := hn hf
  subst hin
  refine ⟨s', hc, hlen, ?_, ?_, hi, by rw [hid, put_same], ?_, ?_⟩
  · intro j hj
    exact hlt j (Nat.ne_of_lt hj) hj
  · intro a ha
    simp only [State.entry, hid, hst, hbl, hbb, hctx, put_ne _ _ ha, hex a ha]
  · intro j h1 h2
    exact hge j (Nat.ne_of_gt h1) (Nat.le_of_lt h1) (by omega)
  · intro j a hj
    have h2 := hok.2.1 j a hj
    have hjl : j < s.wut_list.length := by
      by_contra e
      rw [List.getElem?_eq_none (Nat.le_of_not_lt e)] at hj
      cases hj
    have hab : a ≠ s.brk := Nat.ne_of_lt h2.1
    refine ⟨hab, h2.2, by rw [hid, put_ne _ _ hab]; exact h2.2, ?_⟩
    omega

/-- C13, at the state after four `wut_create` calls: the fifth thread created gets the id 5. -/
theorem registry_growth_witness :
    all_slots_live (state_after [Op.create 0, Op.create 0, Op.create 0, Op.create 0]) ∧
    ∃ s', wut_create (state_after [Op.create 0, Op.create 0, Op.create 0, Op.create 0]) 0
        = Outcome.ret 5 s' ∧
      s'.wut_list.length = 10 ∧ s'.wut_list[5]? = some (some 5) := by
  refine ⟨by decide, ?_⟩
  obtain ⟨s', h1, h2, _, _, h3, _⟩ :=
    (registry_growth (state_after [Op.create 0, Op.create 0, Op.create 0, Op.create 0]) 0
      (reachable_state_after _) (by decide)).2
  exact ⟨s', h1, h2, h3⟩

/-! ## C19 -/

/-- The part of C19 that the code keeps. In every state reachable from `wut_init` no thread
waits on itself and the waits-on relation given by `blocked_by` has no cycle. `wut_join` on the caller's own id returns -1 and
changes nothing; `wut_join` on a target whose `blocked_by` is set returns without changing
anything, with the value -1 unless the status of the target is 128; and the state any `wut_join`
call leaves has no cycle either. -/
theorem no_join_cycle (s : State) (hr : Reachable s) :
    (∀ i, ¬ waits_on s i i) ∧ (∀ i, ¬ Relation.TransGen (waits_on s) i i) ∧
    wut_join s (wut_id s) = Outcome.ret (-1) s ∧
    (∀ id t, wut_list_at s.wut_list id = some (some t) → s.blocked_by t ≠ -1 →
      ∃ v, wut_join s id = Outcome.ret v s ∧ (s.status t ≠ 128 → v = -1)) ∧
    (∀ id s', (wut_join s id).after = some s' →
      ∀ i, ¬ Relation.TransGen (waits_on s') i i) := by
  have hinv := registry_inv_of_reachable s hr
  refine ⟨?_, no_cycle_of_wf s hinv.2, ?_, ?_, ?_⟩
  · intro i hi
    exact no_cycle_of_wf s hinv.2 i (Relation.TransGen.single hi)
  · simp [wut_join]
  · intro id t ht hb
    unfold wut_join
    split
    · exact ⟨-1, rfl, fun _ => rfl⟩
    · rw [ht]
      simp only
      by_cases h128 : s.status t = 128
      · rw [if_pos h128]
        exact ⟨128, rfl, fun e => absurd h128 e⟩
      · rw [if_neg h128, if_pos hb]
        exact ⟨-1, rfl, fun _ => rfl⟩
  · intro id s' h
    exact no_cycle_of_wf s' (registry_inv_join s id s' hinv h).2

/-- Witness of `no_join_cycle`: the state in which the main thread waits on thread 1. -/
theorem no_join_cycle_witness :
    waits_on (state_after [Op.create 0, Op.create 0, Op.join 1]) 0 1 ∧
    ¬ Relation.TransGen (waits_on (state_after [Op.create 0, Op.create 0, Op.join 1])) 0 0 ∧
    wut_join (state_after [Op.create 0, Op.create 0, Op.join 1]) 1
      = Outcome.ret (-1) (state_after [Op.create 0, Op.create 0, Op.join 1]) := by
  have h := no_join_cycle (state_after [Op.create 0, Op.create 0, Op.join 1])
    (reachable_state_after _)
  refine ⟨⟨0, by decide, by decide, by decide⟩, h.2.1 0, ?_⟩
  have e : wut_id (state_after [Op.create 0, Op.create 0, Op.join 1]) = 1 := by decide
  rw [← e]
  exact h.2.2.1

end Wut
